import Mathlib

/-!
# DQMC for the Hubbard model: a shallow embedding

Embedding of `src/src/SvdStack.hpp`, `src/src/hubbard.cpp`,
`src/src/eqtimeMeasure.cpp` and `src/src/DetQMC.cpp`.

* Dense matrices `Eigen::MatrixXd` of fixed shape are `Matrix (Fin r) (Fin c) K`
  over an ordered field `K` (exact arithmetic; `K = ℚ` runs, `K = ℝ` is the
  reading of the specification).
* An `assert` that fails, and an index outside a container, is `none`.
* Code the sources call but do not contain (the B-matrix operators of
  `BMatrixMult.hpp`, the Green builders of `StableGreens.hpp`, Eigen's Jacobi
  SVD, `exp`, `acosh`, the Bernoulli draw of `<random>`) is carried by the
  record `Ext`; the methods of class `DynamicMeasure` by the record `DynExt`;
  the cosine and the hopping amplitude `hubbard.t` read by the measurements
  are parameters.
* A `std::vector<double>` is the list of its elements together with its reserved
  capacity; a machine integer is a `Nat` or an `Int`. The products of `int`s in
  `normalizeStats` are taken in 32 bits (`wrapInt`); the stabilisation interval
  `is_stable` (`nwrap`) is a divisor in the source, and the sweeps of the
  embedding are the source's for `is_stable ≥ 1`.
-/

namespace DQMC

/-! ## Definitions -/

/-! ### SvdStack.hpp -/

/-- A square `Eigen::MatrixXd` of side `n`. -/
abbrev Mat (K : Type) (n : Nat) := Matrix (Fin n) (Fin n) K

/-- One `Eigen::JacobiSVD` object: the three factors it hands out. -/
structure SVD (K : Type) (n : Nat) where
  matrixU : Mat K n
  singularValues : Fin n → K
  matrixV : Mat K n

/-- A decomposition object that has been allocated and never computed. -/
def SVD.blank {K : Type} [Zero K] {n : Nat} : SVD K n := ⟨0, 0, 0⟩

/-- The struct `SvdStack`: `stack` is the preallocated storage (its length is
the capacity), `len` the number of decompositions in use, `tmp` the scratch
matrix of `push`. The member `n` is the index type of the matrices. -/
structure SvdStack (K : Type) (n : Nat) where
  stack : List (SVD K n)
  tmp : Mat K n
  len : Nat

namespace SvdStack

variable {K : Type} {n : Nat}

/-- The constructor `SvdStack(int n, int l)`. -/
def new [Zero K] (n l : Nat) : SvdStack K n :=
  { stack := List.replicate l SVD.blank, tmp := 0, len := 0 }

/-- The method `empty()`. -/
def empty (st : SvdStack K n) : Bool := st.len == 0

/-- The method `singularValues()`: asserts `len > 0`, reads `stack[len-1]`. -/
def singularValues (st : SvdStack K n) : Option (Fin n → K) :=
  if 0 < st.len then (st.stack[st.len - 1]?).map SVD.singularValues else none

/-- The method `matrixU()`: asserts `len > 0`, reads `stack[len-1]`. -/
def matrixU (st : SvdStack K n) : Option (Mat K n) :=
  if 0 < st.len then (st.stack[st.len - 1]?).map SVD.matrixU else none

/-- The loop of `matrixV()`: `r = r * stack[i].matrixV()` for `i = k, k+1, ...`,
`cnt` iterations. -/
def matrixV_loop [Mul K] [AddCommMonoid K] (st : SvdStack K n) :
    Nat → Nat → Mat K n → Option (Mat K n)
  | 0, _, r => some r
  | cnt + 1, i, r =>
    match st.stack[i]? with
    | some d => matrixV_loop st cnt (i + 1) (r * d.matrixV)
    | none => none

/-- The method `matrixV()`: asserts `len > 0`, starts from `stack[0].matrixV()`
and multiplies `stack[i].matrixV()` from the right for `i = 1 .. len-1`. -/
def matrixV [Mul K] [AddCommMonoid K] (st : SvdStack K n) :
    Option (Mat K n) :=
  if 0 < st.len then
    match st.stack[0]? with
    | some d => matrixV_loop st (st.len - 1) 1 d.matrixV
    | none => none
  else none

/-- The method `push(m)`. `svd` is `JacobiSVD::compute`. The first assertion
(`m` is `n × n`) is the type of `m`; the second is `len < stack.size()`. -/
def push [Mul K] [AddCommMonoid K]
    (svd : Mat K n → SVD K n) (st : SvdStack K n)
    (m : Mat K n) : Option (SvdStack K n) :=
  if st.len < st.stack.length then
    if st.len = 0 then
      some { st with stack := st.stack.set st.len (svd m), len := st.len + 1 }
    else
      match st.matrixU, st.singularValues with
      | some u, some sv =>
        let tmp := (m * u) * Matrix.diagonal sv
        some { stack := st.stack.set st.len (svd tmp), tmp := tmp, len := st.len + 1 }
      | _, _ => none
  else none

/-- The method `pop()`: asserts `len > 0`. -/
def pop (st : SvdStack K n) : Option (SvdStack K n) :=
  if 0 < st.len then some { st with len := st.len - 1 } else none

/-- The method `clear()`. -/
def clear (st : SvdStack K n) : SvdStack K n := { st with len := 0 }

/-- The decompositions in use: the first `len` entries of the storage. -/
def view (st : SvdStack K n) : List (SVD K n) := st.stack.take st.len

end SvdStack

/-! ### Counting loops -/

/-- The loop `for (l = a; ...; ++l)` run for `cnt` iterations from `l`, with a
body that may fail. -/
def forUp {σ : Type} (f : Nat → σ → Option σ) : Nat → Nat → σ → Option σ
  | 0, _, x => some x
  | cnt + 1, l, x => (f l x).bind (forUp f cnt (l + 1))

/-- The loop `for (l = n; l >= 1; --l)` with a body that may fail. -/
def forDown {σ : Type} (f : Nat → σ → Option σ) : Nat → σ → Option σ
  | 0, x => some x
  | l + 1, x => (f (l + 1) x).bind (forDown f l)

/-! ### hubbard.cpp -/

/-- What `hubbard.cpp` calls and does not define. The B-matrix operators are
member functions that read the auxiliary field, so they take it as their first
argument; the remaining model constants they read never change and are part of
the functions. The Green builders and `matrix_compare_error` return what the
sources receive through their output reference. -/
structure Ext (K G : Type) (ls lt : Nat) where
  exp : K → K
  acosh : K → K
  bernoulli : K → G → Bool × G
  svd : Mat K ls → SVD K ls
  mult_B_from_left : Matrix (Fin ls) (Fin lt) K → Mat K ls → Nat → Int →
    Mat K ls
  mult_B_from_right : Matrix (Fin ls) (Fin lt) K → Mat K ls → Nat → Int →
    Mat K ls
  mult_invB_from_left : Matrix (Fin ls) (Fin lt) K → Mat K ls → Nat → Int →
    Mat K ls
  mult_invB_from_right : Matrix (Fin ls) (Fin lt) K → Mat K ls → Nat → Int →
    Mat K ls
  mult_transB_from_left : Matrix (Fin ls) (Fin lt) K → Mat K ls → Nat → Int →
    Mat K ls
  compute_Green_eqtime : SvdStack K ls → SvdStack K ls → Mat K ls
  compute_Green_displaced : SvdStack K ls → SvdStack K ls →
    Mat K ls × Mat K ls
  matrix_compare_error : Mat K ls → Mat K ls → K

/-- The members of class `Hubbard` that `hubbard.cpp` reads or writes after
construction. `random_seed_generate` is the process-wide generator. The members
`ll`, `beta`, `dtau`, `Uint`, `t`, `mu` and the checkerboard are constants that
`hubbard.cpp` leaves to the external operators; the measurements of
`eqtimeMeasure.cpp` take `ll` and `t` as parameters. -/
structure Hubbard (K G : Type) (ls lt : Nat) where
  alpha : K
  u_is_attractive : Bool
  nwrap : Nat
  current_tau : Int
  s : Matrix (Fin ls) (Fin lt) K
  green_tt_up : Mat K ls
  green_tt_dn : Mat K ls
  green_t0_up : Mat K ls
  green_t0_dn : Mat K ls
  green_0t_up : Mat K ls
  green_0t_dn : Mat K ls
  vec_green_tt_up : Fin lt → Mat K ls
  vec_green_tt_dn : Fin lt → Mat K ls
  vec_green_t0_up : Fin lt → Mat K ls
  vec_green_t0_dn : Fin lt → Mat K ls
  vec_green_0t_up : Fin lt → Mat K ls
  vec_green_0t_dn : Fin lt → Mat K ls
  stackLeftU : SvdStack K ls
  stackLeftD : SvdStack K ls
  stackRightU : SvdStack K ls
  stackRightD : SvdStack K ls
  config_sign : K
  max_wrap_error_equal : K
  max_wrap_error_displaced : K
  random_seed_generate : G

namespace Hubbard

variable {K G : Type} [LinearOrderedField K] {ls lt : Nat}

/-- The assignment `m(i, j) = v`. -/
def setEntry {r c : Nat} (m : Matrix (Fin r) (Fin c) K) (i : Fin r) (j : Fin c) (v : K) :
    Matrix (Fin r) (Fin c) K :=
  fun a b => if a = i ∧ b = j then v else m a b

/-- The inner statement of `init_field_to_random`:
`s(i, l) = dist(random_seed_generate) ? +1.0 : -1.0` with `dist(0.5)`. -/
def init_field_entry (E : Ext K G ls lt) (i : Fin ls) (h : Hubbard K G ls lt) (l : Fin lt) :
    Hubbard K G ls lt :=
  let d := E.bernoulli (1 / 2) h.random_seed_generate
  { h with
    s := setEntry h.s i l (if d.1 then 1 else -1),
    random_seed_generate := d.2 }

/-- The method `init_field_to_random`: sites in the outer loop, slices in the
inner one. Its assertion on the shape of `s` is the type of `s`. -/
def init_field_to_random (E : Ext K G ls lt) (h : Hubbard K G ls lt) : Hubbard K G ls lt :=
  (List.finRange ls).foldl
    (fun h i => (List.finRange lt).foldl (init_field_entry E i) h) h

/-- The acceptance number `p` of `metropolis_update` at site `i`, field slot `tau`. -/
def metropolis_p (E : Ext K G ls lt) (h : Hubbard K G ls lt) (tau : Fin lt) (i : Fin ls) : K :=
  if !h.u_is_attractive then
    (1 + (1 - h.green_tt_up i i) * (E.exp (-2 * h.alpha * h.s i tau) - 1))
      * (1 + (1 - h.green_tt_dn i i) * (E.exp (2 * h.alpha * h.s i tau) - 1))
  else
    E.exp (2 * h.alpha * h.s i tau)
      * (1 + (1 - h.green_tt_up i i) * (E.exp (-2 * h.alpha * h.s i tau) - 1))
      * (1 + (1 - h.green_tt_dn i i) * (E.exp (-2 * h.alpha * h.s i tau) - 1))

/-- The local `factorU` of the accepted branch, from the values its line reads:
`ex` is `exp`, `g_up` is `green_tt_up(i, i)`, `s` is `s(i, tau)`. -/
def factorU (ex : K → K) (alpha g_up s : K) : K :=
  (ex (-2 * alpha * s) - 1) / (1 + (1 - g_up) * (ex (-2 * alpha * s) - 1))

/-- The local `factorD` of the accepted branch, from the values its line reads:
`g_dn` is `green_tt_dn(i, i)`, `s` is `s(i, tau)`, `fU` is the local `factorU`. -/
def factorD (ex : K → K) (u_is_attractive : Bool) (alpha g_dn s fU : K) : K :=
  if !u_is_attractive then
    (ex (2 * alpha * s) - 1) / (1 + (1 - g_dn) * (ex (2 * alpha * s) - 1))
  else fU

/-- The statement `g -= f * g.col(i) * (Unit(ls, i).transpose() - g.row(i))`.
Eigen evaluates the product into a temporary before subtracting, so the right
side reads `g` as it was. -/
def rank_one_update (g : Mat K ls) (f : K) (i : Fin ls) :
    Mat K ls :=
  g - Matrix.vecMulVec (f • fun a => g a i) (fun b => (if b = i then 1 else 0) - g i b)

/-- The accepted branch of `metropolis_update` at site `i`, given `p`. -/
def metropolis_accept (E : Ext K G ls lt) (tau : Fin lt) (i : Fin ls) (p : K)
    (h : Hubbard K G ls lt) : Hubbard K G ls lt :=
  let fU := factorU E.exp h.alpha (h.green_tt_up i i) (h.s i tau)
  let fD := factorD E.exp h.u_is_attractive h.alpha (h.green_tt_dn i i) (h.s i tau) fU
  { h with
    green_tt_up := rank_one_update h.green_tt_up fU i,
    green_tt_dn := rank_one_update h.green_tt_dn fD i,
    s := setEntry h.s i tau (- h.s i tau),
    config_sign := if p ≥ 0 then h.config_sign else - h.config_sign }

/-- The body of the site loop of `metropolis_update`. -/
def metropolis_site (E : Ext K G ls lt) (tau : Fin lt) (h : Hubbard K G ls lt) (i : Fin ls) :
    Hubbard K G ls lt :=
  let p := metropolis_p E h tau i
  let d := E.bernoulli (min 1 |p|) h.random_seed_generate
  let h1 := { h with random_seed_generate := d.2 }
  if d.1 then metropolis_accept E tau i p h1 else h1

/-- The method `metropolis_update(l)`. `none` when an assertion fails or `tau`
is not a column of the field. -/
def metropolis_update (E : Ext K G ls lt) (h : Hubbard K G ls lt) (l : Nat) :
    Option (Hubbard K G ls lt) :=
  if h.current_tau = (l : Int) ∧ l ≤ lt then
    if ht : (if l = 0 then lt - 1 else l - 1) < lt then
      let tau : Fin lt := ⟨if l = 0 then lt - 1 else l - 1, ht⟩
      let h1 := (List.finRange ls).foldl (metropolis_site E tau) h
      some { h1 with
        vec_green_tt_up := Function.update h1.vec_green_tt_up tau h1.green_tt_up,
        vec_green_tt_dn := Function.update h1.vec_green_tt_dn tau h1.green_tt_dn }
    else none
  else none

/-- The method `wrap_north(l)`. -/
def wrap_north (E : Ext K G ls lt) (h : Hubbard K G ls lt) (l : Nat) :
    Option (Hubbard K G ls lt) :=
  if l ≤ lt then
    let tau := if l = lt then 1 else l + 1
    some { h with
      green_tt_up :=
        E.mult_invB_from_right h.s (E.mult_B_from_left h.s h.green_tt_up tau 1) tau 1,
      green_tt_dn :=
        E.mult_invB_from_right h.s (E.mult_B_from_left h.s h.green_tt_dn tau (-1)) tau (-1) }
  else none

/-- The method `wrap_south(l)`. -/
def wrap_south (E : Ext K G ls lt) (h : Hubbard K G ls lt) (l : Nat) :
    Option (Hubbard K G ls lt) :=
  if l ≤ lt then
    let tau := if l = 0 then lt else l
    some { h with
      green_tt_up :=
        E.mult_invB_from_left h.s (E.mult_B_from_right h.s h.green_tt_up tau 1) tau 1,
      green_tt_dn :=
        E.mult_invB_from_left h.s (E.mult_B_from_right h.s h.green_tt_dn tau (-1)) tau (-1) }
  else none

/-- The state a sweep loop carries: the model and the locals `tmpU`, `tmpD`. -/
abbrev Loop (K G : Type) (ls lt : Nat) := Hubbard K G ls lt × Mat K ls × Mat K ls

/-- The body of the loop of `init_stacks` at slice `l`. The remainder
`(l - 1) % is_stable` is the source's for `is_stable ≥ 1`; at `is_stable = 0`
the source divides by zero, which the remainder of the naturals does not show,
and the body is the source's from `is_stable = 1` on only. -/
def init_stacks_body (E : Ext K G ls lt) (is_stable : Nat) (l : Nat) (x : Loop K G ls lt) :
    Option (Loop K G ls lt) :=
  let h := x.1
  let tmpU := E.mult_transB_from_left h.s x.2.1 l 1
  let tmpD := E.mult_transB_from_left h.s x.2.2 l (-1)
  if (l - 1) % is_stable = 0 then
    match h.stackRightU.push E.svd tmpU, h.stackRightD.push E.svd tmpD with
    | some rU, some rD => some ({ h with stackRightU := rU, stackRightD := rD }, 1, 1)
    | _, _ => none
  else some (h, tmpU, tmpD)

/-- The method `init_stacks(is_stable)`, for `is_stable ≥ 1` (at
`is_stable = 0` the remainder in the loop body is a division by zero in the
source). -/
def init_stacks (E : Ext K G ls lt) (h : Hubbard K G ls lt) (is_stable : Nat) :
    Option (Hubbard K G ls lt) :=
  if h.stackLeftU.empty ∧ h.stackLeftD.empty ∧ h.stackRightU.empty ∧ h.stackRightD.empty then
    match forDown (init_stacks_body E is_stable) lt (h, 1, 1) with
    | some (h1, _, _) =>
      some { h1 with
        green_tt_up := E.compute_Green_eqtime h1.stackLeftU h1.stackRightU,
        green_tt_dn := E.compute_Green_eqtime h1.stackLeftD h1.stackRightD }
    | none => none
  else none

/-- The local `nlen` of the three sweeps, for `is_stable ≥ 1`: the source
computes `lt % is_stable` and `lt / is_stable` on `int`s, a division by zero at
`is_stable = 0`, where the naturals give `lt` and `0`. What is stated of the
sweeps is stated for `is_stable ≥ 1`. -/
def nlen (lt is_stable : Nat) : Nat :=
  if lt % is_stable = 0 then lt / is_stable else lt / is_stable + 1

/-- The stabilisation block of `sweep_0_to_beta`, entered with the accumulated
`tmpU`, `tmpD`. -/
def sweep_0_to_beta_stabilize (E : Ext K G ls lt) (h : Hubbard K G ls lt) (tmpU tmpD : Mat K ls) :
    Option (Hubbard K G ls lt) :=
  match h.stackRightU.pop, h.stackRightD.pop,
      h.stackLeftU.push E.svd tmpU, h.stackLeftD.push E.svd tmpD with
  | some rU, some rD, some lU, some lD =>
    let tmp_green_tt_up := E.compute_Green_eqtime lU rU
    let tmp_green_tt_dn := E.compute_Green_eqtime lD rD
    let tmp_wrap_error_tt_up := E.matrix_compare_error tmp_green_tt_up h.green_tt_up
    let tmp_wrap_error_tt_dn := E.matrix_compare_error tmp_green_tt_dn h.green_tt_dn
    some { h with
      stackRightU := rU, stackRightD := rD, stackLeftU := lU, stackLeftD := lD,
      max_wrap_error_equal :=
        max h.max_wrap_error_equal (max tmp_wrap_error_tt_up tmp_wrap_error_tt_dn),
      green_tt_up := tmp_green_tt_up,
      green_tt_dn := tmp_green_tt_dn }
  | _, _, _, _ => none

/-- The body of the loop of `sweep_0_to_beta` at slice `l`. -/
def sweep_0_to_beta_body (E : Ext K G ls lt) (is_stable : Nat) (l : Nat) (x : Loop K G ls lt) :
    Option (Loop K G ls lt) :=
  match wrap_north E x.1 (l - 1) with
  | none => none
  | some h1 =>
    match metropolis_update E h1 l with
    | none => none
    | some h2 =>
      let tmpU := E.mult_B_from_left h2.s x.2.1 l 1
      let tmpD := E.mult_B_from_left h2.s x.2.2 l (-1)
      if l % is_stable = 0 ∨ l = lt then
        match sweep_0_to_beta_stabilize E h2 tmpU tmpD with
        | some h3 => some ({ h3 with current_tau := h3.current_tau + 1 }, 1, 1)
        | none => none
      else some ({ h2 with current_tau := h2.current_tau + 1 }, tmpU, tmpD)

/-- The method `sweep_0_to_beta(is_stable)`. -/
def sweep_0_to_beta (E : Ext K G ls lt) (h : Hubbard K G ls lt) (is_stable : Nat) :
    Option (Hubbard K G ls lt) :=
  let h0 : Hubbard K G ls lt := { h with current_tau := h.current_tau + 1 }
  if h0.current_tau = 1 ∧ h0.stackLeftU.empty ∧ h0.stackLeftD.empty
      ∧ h0.stackRightU.len = nlen lt is_stable ∧ h0.stackRightD.len = nlen lt is_stable then
    match forUp (sweep_0_to_beta_body E is_stable) lt 1 (h0, 1, 1) with
    | some (h1, _, _) =>
      if hlt : lt - 1 < lt then
        some { h1 with
          vec_green_tt_up := Function.update h1.vec_green_tt_up ⟨lt - 1, hlt⟩ h1.green_tt_up,
          vec_green_tt_dn := Function.update h1.vec_green_tt_dn ⟨lt - 1, hlt⟩ h1.green_tt_dn }
      else none
    | none => none
  else none

/-- The stabilisation block of `sweep_beta_to_0`, entered with the accumulated
`tmpU`, `tmpD`. -/
def sweep_beta_to_0_stabilize (E : Ext K G ls lt) (h : Hubbard K G ls lt) (tmpU tmpD : Mat K ls) :
    Option (Hubbard K G ls lt) :=
  match h.stackLeftU.pop, h.stackLeftD.pop,
      h.stackRightU.push E.svd tmpU, h.stackRightD.push E.svd tmpD with
  | some lU, some lD, some rU, some rD =>
    let tmp_green_tt_up := E.compute_Green_eqtime lU rU
    let tmp_green_tt_dn := E.compute_Green_eqtime lD rD
    let tmp_wrap_error_tt_up := E.matrix_compare_error tmp_green_tt_up h.green_tt_up
    let tmp_wrap_error_tt_dn := E.matrix_compare_error tmp_green_tt_dn h.green_tt_dn
    some { h with
      stackLeftU := lU, stackLeftD := lD, stackRightU := rU, stackRightD := rD,
      max_wrap_error_equal :=
        max h.max_wrap_error_equal (max tmp_wrap_error_tt_up tmp_wrap_error_tt_dn),
      green_tt_up := tmp_green_tt_up,
      green_tt_dn := tmp_green_tt_dn }
  | _, _, _, _ => none

/-- The first half of the body of `sweep_beta_to_0`: the guarded stabilisation. -/
def sweep_beta_to_0_guard (E : Ext K G ls lt) (is_stable : Nat) (l : Nat) (x : Loop K G ls lt) :
    Option (Loop K G ls lt) :=
  if l % is_stable = 0 ∧ l ≠ lt then
    match sweep_beta_to_0_stabilize E x.1 x.2.1 x.2.2 with
    | some h1 => some (h1, 1, 1)
    | none => none
  else some x

/-- The body of the loop of `sweep_beta_to_0` at slice `l`. -/
def sweep_beta_to_0_body (E : Ext K G ls lt) (is_stable : Nat) (l : Nat) (x : Loop K G ls lt) :
    Option (Loop K G ls lt) :=
  match sweep_beta_to_0_guard E is_stable l x with
  | none => none
  | some y =>
    match metropolis_update E y.1 l with
    | none => none
    | some h2 =>
      let tmpU := E.mult_transB_from_left h2.s y.2.1 l 1
      let tmpD := E.mult_transB_from_left h2.s y.2.2 l (-1)
      match wrap_south E h2 l with
      | none => none
      | some h3 => some ({ h3 with current_tau := h3.current_tau - 1 }, tmpU, tmpD)

/-- The method `sweep_beta_to_0(is_stable)`. -/
def sweep_beta_to_0 (E : Ext K G ls lt) (h : Hubbard K G ls lt) (is_stable : Nat) :
    Option (Hubbard K G ls lt) :=
  let h0 : Hubbard K G ls lt := { h with current_tau := h.current_tau - 1 }
  if h0.current_tau = (lt : Int) ∧ h0.stackRightU.empty ∧ h0.stackRightD.empty
      ∧ h0.stackLeftU.len = nlen lt is_stable ∧ h0.stackLeftD.len = nlen lt is_stable then
    match forDown (sweep_beta_to_0_body E is_stable) lt (h0, 1, 1) with
    | some (h1, tmpU, tmpD) =>
      match h1.stackLeftU.pop, h1.stackLeftD.pop,
          h1.stackRightU.push E.svd tmpU, h1.stackRightD.push E.svd tmpD with
      | some lU, some lD, some rU, some rD =>
        let gU := E.compute_Green_eqtime lU rU
        let gD := E.compute_Green_eqtime lD rD
        if hlt : lt - 1 < lt then
          some { h1 with
            stackLeftU := lU, stackLeftD := lD, stackRightU := rU, stackRightD := rD,
            green_tt_up := gU,
            green_tt_dn := gD,
            vec_green_tt_up := Function.update h1.vec_green_tt_up ⟨lt - 1, hlt⟩ gU,
            vec_green_tt_dn := Function.update h1.vec_green_tt_dn ⟨lt - 1, hlt⟩ gD }
        else none
      | _, _, _, _ => none
    | none => none
  else none

/-- The stabilisation block of `sweep_0_to_beta_displaced`. The second pair of
comparisons is the source's: it repeats the `t0_dn` comparison, and
`tmp_wrap_error_0t_dn` keeps its initial `0.0`. -/
def sweep_0_to_beta_displaced_stabilize (E : Ext K G ls lt) (h : Hubbard K G ls lt)
    (tmpU tmpD : Mat K ls) : Option (Hubbard K G ls lt) :=
  match h.stackRightU.pop, h.stackRightD.pop,
      h.stackLeftU.push E.svd tmpU, h.stackLeftD.push E.svd tmpD with
  | some rU, some rD, some lU, some lD =>
    let gU := E.compute_Green_displaced lU rU
    let gD := E.compute_Green_displaced lD rD
    let tmp_green_t0_up := gU.1
    let tmp_green_0t_up := gU.2
    let tmp_green_t0_dn := gD.1
    let tmp_green_0t_dn := gD.2
    let tmp_wrap_error_t0_up := E.matrix_compare_error tmp_green_t0_up h.green_t0_up
    let tmp_wrap_error_t0_dn := E.matrix_compare_error tmp_green_t0_dn h.green_t0_dn
    let m1 := max h.max_wrap_error_displaced (max tmp_wrap_error_t0_up tmp_wrap_error_t0_dn)
    let tmp_wrap_error_0t_up := E.matrix_compare_error tmp_green_0t_up h.green_0t_up
    let tmp_wrap_error_0t_dn : K := 0
    let m2 := max m1 (max tmp_wrap_error_0t_up tmp_wrap_error_0t_dn)
    some { h with
      stackRightU := rU, stackRightD := rD, stackLeftU := lU, stackLeftD := lD,
      max_wrap_error_displaced := m2,
      green_t0_up := tmp_green_t0_up,
      green_t0_dn := tmp_green_t0_dn,
      green_0t_up := tmp_green_0t_up,
      green_0t_dn := tmp_green_0t_dn }
  | _, _, _, _ => none

/-- The body of the loop of `sweep_0_to_beta_displaced` at slice `l`. -/
def sweep_0_to_beta_displaced_body (E : Ext K G ls lt) (is_stable : Nat) (l : Nat)
    (x : Loop K G ls lt) : Option (Loop K G ls lt) :=
  if hl : 1 ≤ l ∧ l - 1 < lt then
    let k : Fin lt := ⟨l - 1, hl.2⟩
    let h := x.1
    let g_t0_up := E.mult_B_from_left h.s h.green_t0_up l 1
    let g_t0_dn := E.mult_B_from_left h.s h.green_t0_dn l (-1)
    let g_0t_up := E.mult_invB_from_right h.s h.green_0t_up l 1
    let g_0t_dn := E.mult_invB_from_right h.s h.green_0t_dn l (-1)
    let h1 : Hubbard K G ls lt := { h with
      green_t0_up := g_t0_up, green_t0_dn := g_t0_dn,
      green_0t_up := g_0t_up, green_0t_dn := g_0t_dn,
      vec_green_t0_up := Function.update h.vec_green_t0_up k g_t0_up,
      vec_green_t0_dn := Function.update h.vec_green_t0_dn k g_t0_dn,
      vec_green_0t_up := Function.update h.vec_green_0t_up k g_0t_up,
      vec_green_0t_dn := Function.update h.vec_green_0t_dn k g_0t_dn }
    let tmpU := E.mult_B_from_left h1.s x.2.1 l 1
    let tmpD := E.mult_B_from_left h1.s x.2.2 l (-1)
    if l % is_stable = 0 ∨ l = lt then
      match sweep_0_to_beta_displaced_stabilize E h1 tmpU tmpD with
      | some h2 =>
        some ({ h2 with
          vec_green_t0_up := Function.update h2.vec_green_t0_up k h2.green_t0_up,
          vec_green_t0_dn := Function.update h2.vec_green_t0_dn k h2.green_t0_dn,
          vec_green_0t_up := Function.update h2.vec_green_0t_up k h2.green_0t_up,
          vec_green_0t_dn := Function.update h2.vec_green_0t_dn k h2.green_0t_dn,
          current_tau := h2.current_tau + 1 }, 1, 1)
      | none => none
    else some ({ h1 with current_tau := h1.current_tau + 1 }, tmpU, tmpD)
  else none

/-- The method `sweep_0_to_beta_displaced(is_stable)`. -/
def sweep_0_to_beta_displaced (E : Ext K G ls lt) (h : Hubbard K G ls lt) (is_stable : Nat) :
    Option (Hubbard K G ls lt) :=
  let h0 : Hubbard K G ls lt := { h with current_tau := h.current_tau + 1 }
  if h0.current_tau = 1 ∧ h0.stackLeftU.empty ∧ h0.stackLeftD.empty
      ∧ h0.stackRightU.len = nlen lt is_stable ∧ h0.stackRightD.len = nlen lt is_stable then
    let h1 : Hubbard K G ls lt := { h0 with
      green_t0_up := h0.green_tt_up,
      green_t0_dn := h0.green_tt_dn,
      green_0t_up := h0.green_tt_up - 1,
      green_0t_dn := h0.green_tt_dn - 1 }
    match forUp (sweep_0_to_beta_displaced_body E is_stable) lt 1 (h1, 1, 1) with
    | some (h2, _, _) => some h2
    | none => none
  else none

/-- The constructor `Hubbard::Hubbard`, from the draw of the random field on:
`dtau = beta / lt`, `alpha = acosh(exp(0.5 * dtau * abs(Uint)))`, matrices
allocated (their content is taken to be zero), the four stacks allocated with
capacity `lt`, then `init_field_to_random`, `init_stacks(nwrap)` and the sign
of `det(green_tt_up) * det(green_tt_dn)`. -/
def create (E : Ext K G ls lt) (beta Uint : K) (nwrap : Nat) (gen : G) :
    Option (Hubbard K G ls lt) :=
  let dtau := beta / (lt : K)
  let h0 : Hubbard K G ls lt :=
    { alpha := E.acosh (E.exp (1 / 2 * dtau * |Uint|)),
      u_is_attractive := decide (Uint < 0),
      nwrap := nwrap,
      current_tau := 0,
      s := 0,
      green_tt_up := 0, green_tt_dn := 0, green_t0_up := 0, green_t0_dn := 0,
      green_0t_up := 0, green_0t_dn := 0,
      vec_green_tt_up := fun _ => 0, vec_green_tt_dn := fun _ => 0,
      vec_green_t0_up := fun _ => 0, vec_green_t0_dn := fun _ => 0,
      vec_green_0t_up := fun _ => 0, vec_green_0t_dn := fun _ => 0,
      stackLeftU := SvdStack.new ls lt, stackLeftD := SvdStack.new ls lt,
      stackRightU := SvdStack.new ls lt, stackRightD := SvdStack.new ls lt,
      config_sign := 0,
      max_wrap_error_equal := 0,
      max_wrap_error_displaced := 0,
      random_seed_generate := gen }
  let h1 := init_field_to_random E h0
  match init_stacks E h1 h1.nwrap with
  | some h2 =>
    some { h2 with
      config_sign := if h2.green_tt_up.det * h2.green_tt_dn.det ≥ 0 then 1 else -1 }
  | none => none

end Hubbard

/-! ### Predicates and bookkeeping of the statements -/

namespace SvdStack

variable {K : Type} {n : Nat}

/-- The decomposition `push(m)` stores on top of the logical content `v`. -/
def nextSVD [Mul K] [AddCommMonoid K] (svd : Mat K n → SVD K n) (v : List (SVD K n))
    (m : Mat K n) : SVD K n :=
  match v.getLast? with
  | none => svd m
  | some d => svd ((m * d.matrixU) * Matrix.diagonal d.singularValues)

end SvdStack

namespace Hubbard

variable {K G : Type} [LinearOrderedField K] {ls lt : Nat}

/-- Every entry of the auxiliary field is `+1` or `-1`. -/
def FieldOK (s : Matrix (Fin ls) (Fin lt) K) : Prop := ∀ i k, s i k = 1 ∨ s i k = -1

/-- Every Bernoulli draw comes out `false`: each proposal is rejected. -/
def AllRejected (E : Ext K G ls lt) : Prop := ∀ p g, (E.bernoulli p g).1 = false

/-- The members a Metropolis step never writes: the slice counter and the stacks. -/
def SameFrame (h h' : Hubbard K G ls lt) : Prop :=
  h'.current_tau = h.current_tau ∧ h'.stackLeftU = h.stackLeftU ∧ h'.stackLeftD = h.stackLeftD
    ∧ h'.stackRightU = h.stackRightU ∧ h'.stackRightD = h.stackRightD

/-- The depths of the four stacks: both left stacks hold `a` decompositions,
both right stacks `b`, and each storage has room for `c`. -/
def Shape (h : Hubbard K G ls lt) (c a b : Nat) : Prop :=
  h.stackLeftU.len = a ∧ h.stackLeftD.len = a ∧ h.stackRightU.len = b ∧ h.stackRightD.len = b
    ∧ c ≤ h.stackLeftU.stack.length ∧ c ≤ h.stackLeftD.stack.length
    ∧ c ≤ h.stackRightU.stack.length ∧ c ≤ h.stackRightD.stack.length

/-- Stabilisations done by the upward loops before slice `l`. -/
def fwdDone (lt w l : Nat) : Nat := if lt < l then nlen lt w else (l - 1) / w

/-- The loop invariant of `sweep_0_to_beta` before slice `l`. -/
def FwdInv (w l : Nat) (x : Loop K G ls lt) : Prop :=
  x.1.current_tau = (l : Int)
    ∧ Shape x.1 (nlen lt w) (fwdDone lt w l) (nlen lt w - fwdDone lt w l)

/-- Pushes made on the right stacks by `sweep_beta_to_0` before slice `l`. -/
def bwdDone (lt w l : Nat) : Nat := (lt - 1) / w - l / w

/-- The logical content and the accumulator after a guarded push: under `c` the
accumulator is pushed and reset to the identity. -/
def pushIf (svd : Mat K ls → SVD K ls) (c : Bool) (p : List (SVD K ls) × Mat K ls) :
    List (SVD K ls) × Mat K ls :=
  if c then (p.1 ++ [SvdStack.nextSVD svd p.1 p.2], 1) else p

/-- The loop invariant of `sweep_beta_to_0` before slice `l`. -/
def BwdInv (w l : Nat) (x : Loop K G ls lt) : Prop :=
  x.1.current_tau = (l : Int)
    ∧ Shape x.1 (nlen lt w) (nlen lt w - bwdDone lt w l) (bwdDone lt w l)

/-- What `sweep_0_to_beta_displaced` leaves as it found it. -/
def DisplacedFrame (h h' : Hubbard K G ls lt) : Prop :=
  h'.s = h.s ∧ h'.green_tt_up = h.green_tt_up ∧ h'.green_tt_dn = h.green_tt_dn
    ∧ h'.vec_green_tt_up = h.vec_green_tt_up ∧ h'.vec_green_tt_dn = h.vec_green_tt_dn
    ∧ h'.config_sign = h.config_sign ∧ h'.max_wrap_error_equal = h.max_wrap_error_equal
    ∧ h'.random_seed_generate = h.random_seed_generate
    ∧ h'.alpha = h.alpha ∧ h'.u_is_attractive = h.u_is_attractive ∧ h'.nwrap = h.nwrap

/-- Pushes made on the right stacks by `init_stacks` before slice `l`. -/
def initDone (lt w l : Nat) : Nat := if l = 0 then nlen lt w else (lt - 1) / w - (l - 1) / w

/-- The loop invariant of `init_stacks` before slice `l`. -/
def InitInv (w l : Nat) (x : Loop K G ls lt) : Prop :=
  Shape x.1 (nlen lt w) 0 (initDone lt w l)

/-- The Green builder reads a stack through its decompositions in use only. -/
def GreenReadsView (E : Ext K G ls lt) : Prop :=
  ∀ L L' R R' : SvdStack K ls, L.view = L'.view → R.view = R'.view →
    E.compute_Green_eqtime L R = E.compute_Green_eqtime L' R'

/-- The relation between the loop of `init_stacks` and the loop of
`sweep_beta_to_0` before slice `l`: same field, and the right stacks of the
first are those of the second after its pending guarded push. -/
def Rebuilds (E : Ext K G ls lt) (w l : Nat) (x y : Loop K G ls lt) : Prop :=
  l ≤ lt ∧ InitInv w l x ∧ BwdInv w l y ∧ x.1.s = y.1.s
    ∧ (x.1.stackRightU.view, x.2.1)
        = pushIf E.svd (decide (l % w = 0 ∧ l ≠ lt)) (y.1.stackRightU.view, y.2.1)
    ∧ (x.1.stackRightD.view, x.2.2)
        = pushIf E.svd (decide (l % w = 0 ∧ l ≠ lt)) (y.1.stackRightD.view, y.2.2)

end Hubbard

/-! ### A one-site, two-slice instance over `ℚ` -/

namespace Toy

/-- The slice propagator of the one-site instance, a positive number:
`2` when `σ · s(0, l-1)` is positive and `1/2` otherwise. -/
def B (s : Matrix (Fin 1) (Fin 2) ℚ) (l : Nat) (σ : Int) : ℚ :=
  if h : l - 1 < 2 then (if (σ : ℚ) * s 0 ⟨l - 1, h⟩ > 0 then 2 else 1 / 2) else 1

/-- The number a one-site stack stands for: `U · Σ` of its top decomposition
(every stored `V` is `1`), and `1` for an empty stack. -/
def stackValue (st : SvdStack ℚ 1) : ℚ :=
  match st.view.getLast? with
  | none => 1
  | some d => d.matrixU 0 0 * d.singularValues 0

/-- The collaborators of the one-site instance. The generator is a tape of
outcomes and `draw` reads it; `exp` is a rational stand-in. -/
def ext (draw : ℚ → List Bool → Bool × List Bool) : Ext ℚ (List Bool) 1 2 :=
  { exp := fun x => 1 + x + x ^ 2 / 2,
    acosh := fun x => x,
    bernoulli := draw,
    svd := fun m => ⟨1, fun i => m i i, 1⟩,
    mult_B_from_left := fun s m l σ => B s l σ • m,
    mult_B_from_right := fun s m l σ => B s l σ • m,
    mult_invB_from_left := fun s m l σ => (B s l σ)⁻¹ • m,
    mult_invB_from_right := fun s m l σ => (B s l σ)⁻¹ • m,
    mult_transB_from_left := fun s m l σ => B s l σ • m,
    compute_Green_eqtime := fun L R => fun _ _ => (1 + stackValue L * stackValue R)⁻¹,
    compute_Green_displaced := fun L R =>
      (fun _ _ => (1 + stackValue L * stackValue R)⁻¹,
       fun _ _ => (1 + stackValue L * stackValue R)⁻¹ - 1),
    matrix_compare_error := fun a b => |a 0 0 - b 0 0| }

/-- The draw that takes the next outcome from the tape. -/
def fromTape (_ : ℚ) (g : List Bool) : Bool × List Bool := (g.headD false, g.tail)

/-- The draw that rejects every proposal. -/
def never (_ : ℚ) (g : List Bool) : Bool × List Bool := (false, g)

/-- A state at the start of a forward sweep with `nwrap = 1`: field all `+1`,
left stacks empty, right stacks of depth two. -/
def state : Hubbard ℚ (List Bool) 1 2 :=
  { alpha := 1, u_is_attractive := false, nwrap := 1, current_tau := 0,
    s := fun _ _ => 1,
    green_tt_up := fun _ _ => 1 / 2, green_tt_dn := fun _ _ => 1 / 2,
    green_t0_up := 0, green_t0_dn := 0, green_0t_up := 0, green_0t_dn := 0,
    vec_green_tt_up := fun _ => 0, vec_green_tt_dn := fun _ => 0,
    vec_green_t0_up := fun _ => 0, vec_green_t0_dn := fun _ => 0,
    vec_green_0t_up := fun _ => 0, vec_green_0t_dn := fun _ => 0,
    stackLeftU := SvdStack.new 1 2, stackLeftD := SvdStack.new 1 2,
    stackRightU := ⟨[⟨1, fun _ => 2, 1⟩, ⟨1, fun _ => 4, 1⟩], 0, 2⟩,
    stackRightD := ⟨[⟨1, fun _ => 1 / 2, 1⟩, ⟨1, fun _ => 1 / 4, 1⟩], 0, 2⟩,
    config_sign := 1, max_wrap_error_equal := 0, max_wrap_error_displaced := 0,
    random_seed_generate := [true, false] }

end Toy

namespace Hubbard

variable {K G : Type} [LinearOrderedField K] {ls lt : Nat}

/-- The sign factors of one call of `metropolis_update`, in the order of its
site loop: `sign(p_i)` (`+1` when `p_i ≥ 0`, else `-1`) for an accepted site and
`1` for a rejected one, `p_i` being computed on the state as site `i` finds it. -/
def signFactors (E : Ext K G ls lt) (tau : Fin lt) : Hubbard K G ls lt → List (Fin ls) → List K
  | _, [] => []
  | h, i :: rest =>
    (if (E.bernoulli (min 1 |metropolis_p E h tau i|) h.random_seed_generate).1 then
      (if metropolis_p E h tau i ≥ 0 then 1 else -1) else 1)
      :: signFactors E tau (metropolis_site E tau h i) rest

/-- The state of the site loop of `metropolis_update` when site `k` is visited:
the sites `0 .. k-1` have been updated. -/
def visited (E : Ext K G ls lt) (tau : Fin lt) (h : Hubbard K G ls lt) (k : Nat) :
    Hubbard K G ls lt :=
  ((List.finRange ls).take k).foldl (metropolis_site E tau) h

end Hubbard

namespace SvdStack

variable {K : Type} [CommRing K] {n : Nat}

/-- The method `push` applied to the matrices of a list, first to last. -/
def pushAll (svd : Mat K n → SVD K n) : SvdStack K n → List (Mat K n) → Option (SvdStack K n)
  | st, [] => some st
  | st, A :: rest =>
    match st.push svd A with
    | some st' => pushAll svd st' rest
    | none => none

/-- The product `V_0 * V_1 * ... * V_top` of the stored `V` factors. -/
def Vprod (v : List (SVD K n)) : Mat K n := (v.map SVD.matrixV).prod

/-- The decompositions `v` stand for the matrix `P`: with `U`, `Σ` taken from
the last one, `U * diag(Σ) * (V_0 * ... * V_top)ᵀ = P`. -/
def Stands (v : List (SVD K n)) (P : Mat K n) : Prop :=
  ∃ d, v.getLast? = some d
    ∧ d.matrixU * Matrix.diagonal d.singularValues * (Vprod v).transpose = P

end SvdStack

/-! ### eqtimeMeasure.cpp -/

/-- The accumulators of class `eqtimeMeasure`. -/
structure eqtimeMeasure (K : Type) where
  n_equal_time : Int
  DoubleOccu : K
  KineticEnergy : K
  StructFactor : K
  MomentumDist : K
  localSpinCorr : K
  AverageSign : K

namespace eqtimeMeasure

variable {K : Type} [Field K]

/-- The value an `int` holds after an arithmetic operation whose exact result
is `x`: `x` itself when it fits in 32 bits; beyond that the behaviour of the
source is undefined, and the embedding takes the two's complement wrap that the
usual targets produce. -/
def wrapInt (x : Int) : Int := (x + 2147483648) % 4294967296 - 2147483648

/-- The method `normalizeStats(hubbard)`; `ls`, `lt` are `hubbard.ls`,
`hubbard.lt`. Each divisor is the source's product read left to right: the
`int` members are multiplied as `int`s, one multiplication after the other, the
result is converted and multiplied by the already normalised `AverageSign`. A
division by zero, which gives an infinity or a NaN in the source, is not
represented: the statements on `normalizeStats` are made for non-zero
divisors. -/
def normalizeStats (ls lt : Nat) (m : eqtimeMeasure K) : eqtimeMeasure K :=
  let AverageSign := m.AverageSign / ((m.n_equal_time : Int) : K)
  { m with
    AverageSign := AverageSign,
    DoubleOccu := m.DoubleOccu
      / (((wrapInt (wrapInt ((ls : Int) * (lt : Int)) * m.n_equal_time) : Int) : K)
          * AverageSign),
    KineticEnergy := m.KineticEnergy
      / (((wrapInt (wrapInt ((ls : Int) * (lt : Int)) * m.n_equal_time) : Int) : K)
          * AverageSign),
    StructFactor := m.StructFactor
      / (((wrapInt (wrapInt (wrapInt ((ls : Int) * (ls : Int)) * (lt : Int))
            * m.n_equal_time) : Int) : K) * AverageSign),
    MomentumDist := m.MomentumDist
      / (((wrapInt ((lt : Int) * m.n_equal_time) : Int) : K) * AverageSign),
    localSpinCorr := m.localSpinCorr
      / (((wrapInt ((lt : Int) * m.n_equal_time) : Int) : K) * AverageSign) }

/-- The method `analyse_equal_time_Stats(obs)`: `obs_bin` is the content of
`obs_bin_eqtime[obs]` by index, `sqrt` is `pow(·, 0.5)`; the result is the pair
stored in `obs_mean_eqtime[obs]` and `obs_err_eqtime[obs]`. -/
def analyse_equal_time_Stats (sqrt : K → K) (nbin : Nat) (obs_bin : Nat → K) : K × K :=
  let acc := (List.range nbin).foldl
    (fun (a : K × K) bin => (a.1 + obs_bin bin, a.2 + obs_bin bin ^ 2)) (0, 0)
  let mean := acc.1 / (nbin : K)
  let err := acc.2 / (nbin : K)
  (mean, sqrt (err - mean ^ 2) / sqrt ((((nbin : Int) - 1 : Int) : K)))

end eqtimeMeasure

/-! ### eqtimeMeasure.cpp: the measurements -/

namespace eqtimeMeasure

variable {K G : Type} [LinearOrderedField K] {lt : Nat}

/-- The method `clear()`. -/
def clear (_ : eqtimeMeasure K) : eqtimeMeasure K :=
  { n_equal_time := 0, DoubleOccu := 0, KineticEnergy := 0, StructFactor := 0,
    MomentumDist := 0, localSpinCorr := 0, AverageSign := 0 }

/-- The site index `x + ll * y` of the `ll × ll` lattice; the model has
`ls = ll * ll` sites. -/
def site (ll : Nat) (x y : Fin ll) : Fin (ll * ll) :=
  ⟨x.1 + ll * y.1,
    calc x.1 + ll * y.1 < ll + ll * y.1 := Nat.add_lt_add_right x.2 _
      _ = ll * (y.1 + 1) := by ring
      _ ≤ ll * ll := Nat.mul_le_mul_left _ y.2⟩

/-- The number `cos(-r.dot(p))` for `r = (xi - xj, yi - yj)`: the differences are
taken in `int` and converted. -/
def fourier (cos : K → K) (p : Fin 2 → K) (xi yi xj yj : Nat) : K :=
  cos (-((((xi : Int) - (xj : Int) : Int) : K) * p 0 + (((yi : Int) - (yj : Int) : Int) : K) * p 1))

/-- The double loop of `meas_Struct_Factor` that fills `guc` and `gdc`, both
started as the identity: for every `i`, `guc(j, i) = -gu(i, j)` and
`gdc(j, i) = -gd(i, j)` for all `j`, then `guc(i, i)++` and `gdc(i, i)++`. -/
def conj_loop {n : Nat} (gu gd : Mat K n) : Mat K n × Mat K n :=
  (List.finRange n).foldl (fun c i =>
    let c1 := (List.finRange n).foldl (fun (c : Mat K n × Mat K n) j =>
      (Hubbard.setEntry c.1 j i (- gu i j), Hubbard.setEntry c.2 j i (- gd i j))) c
    (Hubbard.setEntry c1.1 i i (c1.1 i i + 1), Hubbard.setEntry c1.2 i i (c1.2 i i + 1))) (1, 1)

/-- The local `structfactor` of `meas_Struct_Factor` for the sites `i`, `j`. -/
def structfactor {n : Nat} (factor : K) (gu gd guc gdc : Mat K n) (i j : Fin n) : K :=
  factor / 4 * (guc i i * guc j j + guc i j * gu i j
    + gdc i i * gdc j j + gdc i j * gd i j
    - gdc i i * guc j j - guc i i * gdc j j)

/-- The method `meas_Struct_Factor(hubbard, t, p)`. -/
def meas_Struct_Factor (cos : K → K) (ll : Nat) (h : Hubbard K G (ll * ll) lt) (t : Nat)
    (p : Fin 2 → K) (m : eqtimeMeasure K) : Option (eqtimeMeasure K) :=
  if ht : t < lt then
    let gu := h.vec_green_tt_up ⟨t, ht⟩
    let gd := h.vec_green_tt_dn ⟨t, ht⟩
    let c := conj_loop gu gd
    some { m with
      StructFactor :=
        (List.finRange ll).foldl (fun a (xi : Fin ll) => (List.finRange ll).foldl
          (fun a (yi : Fin ll) => (List.finRange ll).foldl
            (fun a (xj : Fin ll) => (List.finRange ll).foldl
              (fun a (yj : Fin ll) =>
                a + h.config_sign * structfactor (fourier cos p xi.1 yi.1 xj.1 yj.1) gu gd
                  c.1 c.2 (site ll xi yi) (site ll xj yj))
              a) a) a) m.StructFactor }
  else none

end eqtimeMeasure

/-! ### eqtimeMeasure.cpp: the bins -/

/-- A `std::vector<double>`: `data` are its elements, so that `size()` is their
number, and `capacity` is the storage reserved for elements. -/
structure Vec (K : Type) where
  data : List K
  capacity : Nat

namespace Vec

variable {K : Type}

/-- A default-constructed vector. -/
def nil : Vec K := ⟨[], 0⟩

/-- The method `size()`. -/
def size (v : Vec K) : Nat := v.data.length

/-- The method `reserve(n)`: storage for at least `n` elements; the elements
stay as they are. -/
def reserve (v : Vec K) (n : Nat) : Vec K := { v with capacity := max v.capacity n }

/-- The assignment `v[k] = x`: `k` has to be the index of an element. -/
def assign (v : Vec K) (k : Nat) (x : K) : Option (Vec K) :=
  if k < v.data.length then some { v with data := v.data.set k x } else none

/-- The read `v[k]`: `k` has to be the index of an element. -/
def read (v : Vec K) (k : Nat) : Option K := v.data[k]?

end Vec

/-- The class `eqtimeMeasure` with its bins: the accumulators, `nbin`, the
momentum `q` and the map `obs_bin_eqtime` from the name of an observable to its
vector of bin values. -/
structure EqtimeObj (K : Type) extends eqtimeMeasure K where
  nbin : Nat
  q : Fin 2 → K
  obs_bin_eqtime : String → Option (Vec K)

namespace EqtimeObj

variable {K : Type}

/-- The element access `obs_bin_eqtime[name]` of the map: the vector stored
under `name`, a default-constructed one when there is none. -/
def bin (o : EqtimeObj K) (name : String) : Vec K := (o.obs_bin_eqtime name).getD Vec.nil

/-- The statement `obs_bin_eqtime[name].reserve(nbin)`. -/
def reserve_bin (o : EqtimeObj K) (name : String) : EqtimeObj K :=
  { o with
    obs_bin_eqtime := Function.update o.obs_bin_eqtime name (some ((o.bin name).reserve o.nbin)) }

/-- The method `initial()`. -/
def initial (o : EqtimeObj K) : EqtimeObj K :=
  reserve_bin (reserve_bin (reserve_bin (reserve_bin (reserve_bin (reserve_bin o
    "DoubleOccu") "KineticEnergy") "StructFactor") "MomentumDist") "localSpinCorr") "AverageSign"

/-- The statement `obs_bin_eqtime[name][bin] = x`. -/
def write_bin (name : String) (bin : Nat) (x : K) (o : EqtimeObj K) : Option (EqtimeObj K) :=
  match (o.bin name).assign bin x with
  | some v => some { o with obs_bin_eqtime := Function.update o.obs_bin_eqtime name (some v) }
  | none => none

/-- The method `write_Stats_to_bins(bin)`. -/
def write_Stats_to_bins (bin : Nat) (o : EqtimeObj K) : Option (EqtimeObj K) :=
  (((((write_bin "DoubleOccu" bin o.DoubleOccu o).bind
    (write_bin "KineticEnergy" bin o.KineticEnergy)).bind
    (write_bin "StructFactor" bin o.StructFactor)).bind
    (write_bin "MomentumDist" bin o.MomentumDist)).bind
    (write_bin "localSpinCorr" bin o.localSpinCorr)).bind
    (write_bin "AverageSign" bin o.AverageSign)

/-- The names of the six observables. -/
def names : List String :=
  ["DoubleOccu", "KineticEnergy", "StructFactor", "MomentumDist", "localSpinCorr", "AverageSign"]

end EqtimeObj

namespace Toy

/-- A measurement object as it is before `initial()`: `nbin = 1`, cleared
accumulators and a map without entries. -/
def fresh : EqtimeObj ℚ :=
  { n_equal_time := 0, DoubleOccu := 0, KineticEnergy := 0, StructFactor := 0,
    MomentumDist := 0, localSpinCorr := 0, AverageSign := 0,
    nbin := 1, q := fun _ => 0, obs_bin_eqtime := fun _ => none }

end Toy

/-! ### DetQMC.cpp -/

/-- One line of a field file after the casts of the read: `l`, `i` and the
value. -/
structure Record (K : Type) where
  l : Int
  i : Int
  value : K

/-- The members of class `DetQMC` that the read of a field file and the run
use. A pointer is an option; the model it points to has `ls = ll * ll` sites. -/
structure DetQMC (K G D : Type) (ll lt : Nat) where
  nwrap : Nat
  nwarm : Nat
  nbin : Nat
  nsweep : Nat
  n_between_bins : Nat
  bool_warm_up : Bool
  bool_measure_eqtime : Bool
  bool_measure_dynamic : Bool
  hubb : Option (Hubbard K G (ll * ll) lt)
  EqtimeMeasure : Option (EqtimeObj K)
  DynamicMeasure : Option D

/-- The state of the loop of `read_aux_field_configs` on a field of `r` sites
and `c` slices: the field and the locals `lt` and `ls`. -/
structure ReadLoop (K : Type) (r c : Nat) where
  s : Matrix (Fin r) (Fin c) K
  lt : Int
  ls : Int

namespace DetQMC

variable {K G D : Type} [LinearOrderedField K] {ll lt : Nat}

/-- The method `set_model_params`: both branches construct the model anew. -/
def set_model_params (E : Ext K G (ll * ll) lt) (d : DetQMC K G D ll lt) (beta Uint : K)
    (nwrap : Nat) (gen : G) : Option (DetQMC K G D ll lt) :=
  match Hubbard.create E beta Uint nwrap gen with
  | some h => some { d with nwrap := nwrap, hubb := some h }
  | none => none

/-- The bounds check of the element access `s(i, l)` of an `r` by `c` matrix at
the indices of a record: `0 ≤ i < r` and `0 ≤ l < c`. -/
@[reducible] def inField (r c : Nat) (x : Record K) : Prop :=
  0 ≤ x.i ∧ x.i < (r : Int) ∧ 0 ≤ x.l ∧ x.l < (c : Int)

/-- The body of the loop of `read_aux_field_configs` for one record: the store
`hubb->s(i, l) = value`, then the two maxima. The element access of the matrix
checks both indices against its dimensions: a record whose `i` or `l` is not an
index of the field ends the read at the store, before anything is written. -/
def read_record {r c : Nat} (st : ReadLoop K r c) (x : Record K) : Option (ReadLoop K r c) :=
  if hx : inField r c x then
    some ⟨Hubbard.setEntry st.s ⟨x.i.toNat, by have := hx.1; have := hx.2.1; omega⟩
        ⟨x.l.toNat, by have := hx.2.2.1; have := hx.2.2.2; omega⟩ x.value,
      max st.lt x.l, max st.ls x.i⟩
  else none

/-- The loop of `read_aux_field_configs` over the lines of the file, from the
loop state `st` on. -/
def read_from {r c : Nat} (st : ReadLoop K r c) : List (Record K) → Option (ReadLoop K r c)
  | [] => some st
  | x :: xs =>
    match read_record st x with
    | some st' => read_from st' xs
    | none => none

/-- The loop of `read_aux_field_configs` over the lines of the file, entered
with `lt = 0`, `ls = 0`. -/
def read_loop {r c : Nat} (s : Matrix (Fin r) (Fin c) K) (records : List (Record K)) :
    Option (ReadLoop K r c) :=
  read_from ⟨s, 0, 0⟩ records

/-- The two assertions after the loop of `read_aux_field_configs`. -/
def read_check {r c : Nat} (st : ReadLoop K r c) : Bool :=
  decide (st.lt + 1 = (c : Int)) && decide (st.ls + 1 = (r : Int))

/-- The method `read_aux_field_configs` from the lines of the file up to its
two assertions: the loop, then the assertions; the field read when both hold. -/
def read_field {r c : Nat} (s : Matrix (Fin r) (Fin c) K) (records : List (Record K)) :
    Option (Matrix (Fin r) (Fin c) K) :=
  match read_loop s records with
  | some st => if read_check st then some st.s else none
  | none => none

/-- The method `read_aux_field_configs`, from the lines of the file on: the
loop, the two assertions, then `init_stacks(nwrap)`. `none` when a store falls
outside the field, an assertion fails or `hubb` is null. -/
def read_aux_field_configs (E : Ext K G (ll * ll) lt) (d : DetQMC K G D ll lt)
    (records : List (Record K)) : Option (DetQMC K G D ll lt) :=
  match d.hubb with
  | none => none
  | some h =>
    match read_field h.s records with
    | some s =>
      match Hubbard.init_stacks E { h with s := s } d.nwrap with
      | some h' => some { d with hubb := some h' }
      | none => none
    | none => none

/-- The method `file_output_aux_field_configs`, up to the layout of a line: the
records written, in the order of the two loops. -/
def file_output_aux_field_configs (d : DetQMC K G D ll lt) : Option (List (Record K)) :=
  match d.hubb with
  | none => none
  | some h =>
    some ((List.finRange lt).foldl (fun out l =>
      (List.finRange (ll * ll)).foldl (fun out i =>
        out ++ [⟨(l.1 : Int), (i.1 : Int), h.s i l⟩]) out) [])

/-- The model of the simulation meets the entry assertions of the forward
sweeps: it is there, `current_tau = 0`, the left stacks are empty and the right
stacks have depth `nlen` (each storage with room for `nlen`). -/
def Ready (d : DetQMC K G D ll lt) : Prop :=
  ∃ h, d.hubb = some h ∧ h.current_tau = 0
    ∧ Hubbard.Shape h (Hubbard.nlen lt d.nwrap) 0 (Hubbard.nlen lt d.nwrap)

end DetQMC

namespace Toy

/-- A simulation on the one-site instance: `nwrap = 1`, two warm-up sweeps, one
bin of two measuring sweeps, one pair of sweeps after the bin; its measurement
object is as `initial()` leaves it. -/
def qmc : DetQMC ℚ (List Bool) Unit 1 2 :=
  { nwrap := 1, nwarm := 2, nbin := 1, nsweep := 2, n_between_bins := 1,
    bool_warm_up := true, bool_measure_eqtime := true, bool_measure_dynamic := false,
    hubb := some state, EqtimeMeasure := some fresh.initial, DynamicMeasure := none }

end Toy

/-! ### The B-matrix operators as matrix products -/

namespace Hubbard

variable {K G : Type} [LinearOrderedField K] {ls lt : Nat}

/-- The reading of the four B-matrix operators in exact arithmetic: for every
field, slice and spin there is one invertible matrix `B s τ σ`;
`mult_B_from_left` and `mult_B_from_right` multiply by it from the left and from
the right, `mult_invB_from_left` and `mult_invB_from_right` by its inverse. -/
def ActsAs (E : Ext K G ls lt) (B : Matrix (Fin ls) (Fin lt) K → Nat → Int → Mat K ls) : Prop :=
  ∀ s M τ σ, IsUnit (B s τ σ).det
    ∧ E.mult_B_from_left s M τ σ = B s τ σ * M
    ∧ E.mult_B_from_right s M τ σ = M * B s τ σ
    ∧ E.mult_invB_from_left s M τ σ = (B s τ σ)⁻¹ * M
    ∧ E.mult_invB_from_right s M τ σ = M * (B s τ σ)⁻¹

/-- The slice whose propagator `wrap_north(l)` uses. -/
def northSlice (lt l : Nat) : Nat := if l = lt then 1 else l + 1

/-- The slice whose propagator `wrap_south(l)` uses. -/
def southSlice (lt l : Nat) : Nat := if l = 0 then lt else l

end Hubbard

namespace Toy

/-- The slice propagator of the one-site instance as a matrix. -/
def Bmat (s : Matrix (Fin 1) (Fin 2) ℚ) (l : Nat) (σ : Int) : Mat ℚ 1 := B s l σ • 1

/-- A state inside `sweep_0_to_beta_displaced` with `nwrap = 1`, at slice
`l = 1` just before the stabilisation block: the displaced Green's functions are
what the loop body makes of `green_tt_up = 1/2`, `green_tt_dn = 1/4` (the
propagators are `2` for spin up and `1/2` for spin down). -/
def propagated : Hubbard ℚ (List Bool) 1 2 :=
  { state with
    current_tau := 1,
    green_tt_dn := fun _ _ => 1 / 4,
    green_t0_up := fun _ _ => 1, green_t0_dn := fun _ _ => 1 / 8,
    green_0t_up := fun _ _ => -1 / 4, green_0t_dn := fun _ _ => -3 / 2 }

end Toy

/-! ### Sequences of sweeps and the depth of the stacks -/

namespace Hubbard

variable {K G : Type} [LinearOrderedField K] {ls lt : Nat}

/-- One pair of sweeps on the model, in the order in which `sweep_back_and_forth`
calls them: the forward sweep, `sweep_0_to_beta_displaced` when `displaced` and
`sweep_0_to_beta` otherwise, then `sweep_beta_to_0`. -/
def sweep_pair (E : Ext K G ls lt) (is_stable : Nat) (displaced : Bool)
    (h : Hubbard K G ls lt) : Option (Hubbard K G ls lt) :=
  match (if displaced then sweep_0_to_beta_displaced E h is_stable
      else sweep_0_to_beta E h is_stable) with
  | some h1 => sweep_beta_to_0 E h1 is_stable
  | none => none

/-- A sequence of pairs of sweeps, one per entry of the list. -/
def sweep_pairs (E : Ext K G ls lt) (is_stable : Nat) :
    List Bool → Hubbard K G ls lt → Option (Hubbard K G ls lt)
  | [], h => some h
  | displaced :: rest, h =>
    match sweep_pair E is_stable displaced h with
    | some h1 => sweep_pairs E is_stable rest h1
    | none => none

/-- Each of the four stacks holds at most `c` decompositions and no more than
its storage has room for. -/
def Within (h : Hubbard K G ls lt) (c : Nat) : Prop :=
  (h.stackLeftU.len ≤ c ∧ h.stackLeftD.len ≤ c ∧ h.stackRightU.len ≤ c ∧ h.stackRightD.len ≤ c)
    ∧ h.stackLeftU.len ≤ h.stackLeftU.stack.length
    ∧ h.stackLeftD.len ≤ h.stackLeftD.stack.length
    ∧ h.stackRightU.len ≤ h.stackRightU.stack.length
    ∧ h.stackRightD.len ≤ h.stackRightD.stack.length

end Hubbard

/-! ## Theorems -/

/-! ### The counting loops -/

theorem forUp_invariant {σ : Type} (f : Nat → σ → Option σ) (I : Nat → σ → Prop) :
    ∀ (cnt a : Nat),
      (∀ l x, a ≤ l → l < a + cnt → I l x → ∃ x', f l x = some x' ∧ I (l + 1) x') →
      ∀ x, I a x → ∃ x', forUp f cnt a x = some x' ∧ I (a + cnt) x' := by
  intro cnt
  induction cnt with
  | zero => intro a _ x hx; exact ⟨x, rfl, by simpa using hx⟩
  | succ cnt ih =>
    intro a hstep x hx
    obtain ⟨y, hy, hIy⟩ := hstep a x (Nat.le_refl a) (by omega) hx
    obtain ⟨z, hz, hIz⟩ := ih (a + 1)
      (fun l x hl hl' hI => hstep l x (by omega) (by omega) hI) y hIy
    refine ⟨z, ?_, ?_⟩
    · simp [forUp, hy, hz]
    · have : a + (cnt + 1) = a + 1 + cnt := by omega
      rw [this]; exact hIz

theorem forDown_invariant {σ : Type} (f : Nat → σ → Option σ) (I : Nat → σ → Prop) :
    ∀ (n : Nat),
      (∀ l x, l < n → I (l + 1) x → ∃ x', f (l + 1) x = some x' ∧ I l x') →
      ∀ x, I n x → ∃ x', forDown f n x = some x' ∧ I 0 x' := by
  intro n
  induction n with
  | zero => intro _ x hx; exact ⟨x, rfl, hx⟩
  | succ n ih =>
    intro hstep x hx
    obtain ⟨y, hy, hIy⟩ := hstep n x (Nat.lt_succ_self n) hx
    obtain ⟨z, hz, hIz⟩ := ih (fun l x hl hI => hstep l x (by omega) hI) y hIy
    exact ⟨z, by simp [forDown, hy, hz], hIz⟩

/-- The states an upward loop that returns goes through: `xs k` is the state
before the iteration of index `a + k`. -/
theorem forUp_calls {σ : Type} (f : Nat → σ → Option σ) :
    ∀ (cnt a : Nat) (x x' : σ), forUp f cnt a x = some x' →
      ∃ xs : Nat → σ, xs 0 = x ∧ xs cnt = x'
        ∧ ∀ k, k < cnt → f (a + k) (xs k) = some (xs (k + 1)) := by
  intro cnt
  induction cnt with
  | zero =>
    intro a x x' h
    simp only [forUp, Option.some.injEq] at h
    exact ⟨fun _ => x, rfl, h, fun k hk => absurd hk (Nat.not_lt_zero k)⟩
  | succ cnt ih =>
    intro a x x' h
    simp only [forUp] at h
    cases hy : f a x with
    | none => rw [hy] at h; exact absurd h (by simp)
    | some y =>
      rw [hy] at h
      obtain ⟨ys, y0, yc, hys⟩ := ih (a + 1) y x' h
      refine ⟨fun k => if k = 0 then x else ys (k - 1), rfl, ?_, ?_⟩
      · simp only [Nat.succ_ne_zero, if_false, Nat.add_sub_cancel]
        exact yc
      · intro k hk
        by_cases hk0 : k = 0
        · subst hk0
          simp only [if_true, Nat.add_zero, Nat.succ_ne_zero, if_false, Nat.add_sub_cancel]
          rw [hy, y0]
        · obtain ⟨j, rfl⟩ : ∃ j, k = j + 1 := ⟨k - 1, by omega⟩
          simp only [Nat.succ_ne_zero, if_false, Nat.add_sub_cancel]
          have := hys j (by omega)
          rw [show a + 1 + j = a + (j + 1) by omega] at this
          exact this

/-- The states a downward loop that returns goes through: `xs l` is the state
before the iteration of index `l`, and `xs 0` the final one. -/
theorem forDown_calls {σ : Type} (f : Nat → σ → Option σ) :
    ∀ (n : Nat) (x x' : σ), forDown f n x = some x' →
      ∃ xs : Nat → σ, xs n = x ∧ xs 0 = x'
        ∧ ∀ l, l < n → f (l + 1) (xs (l + 1)) = some (xs l) := by
  intro n
  induction n with
  | zero =>
    intro x x' h
    simp only [forDown, Option.some.injEq] at h
    exact ⟨fun _ => x, rfl, h, fun l hl => absurd hl (Nat.not_lt_zero l)⟩
  | succ n ih =>
    intro x x' h
    simp only [forDown] at h
    cases hy : f (n + 1) x with
    | none => rw [hy] at h; exact absurd h (by simp)
    | some y =>
      rw [hy] at h
      obtain ⟨ys, yn, y0, hys⟩ := ih y x' h
      refine ⟨fun l => if l = n + 1 then x else ys l, by simp, ?_, ?_⟩
      · simp only [show ¬ (0 = n + 1) by omega, if_false]
        exact y0
      · intro l hl
        by_cases hln : l = n
        · subst hln
          simp only [if_true, show ¬ (l = l + 1) by omega, if_false]
          rw [hy, yn]
        · simp only [show ¬ (l + 1 = n + 1) by omega, show ¬ (l = n + 1) by omega, if_false]
          exact hys l (by omega)

/-- Two descending loops run side by side keep a relation indexed by the slice. -/
theorem forDown_related {σ τ : Type} (f : Nat → σ → Option σ) (g : Nat → τ → Option τ)
    (R : Nat → σ → τ → Prop)
    (hstep : ∀ l x y x' y', R (l + 1) x y → f (l + 1) x = some x' → g (l + 1) y = some y' →
      R l x' y') :
    ∀ (n : Nat) (x x' : σ) (y y' : τ), R n x y → forDown f n x = some x' →
      forDown g n y = some y' → R 0 x' y' := by
  intro n
  induction n with
  | zero =>
    intro x x' y y' hR hf hg
    simp [forDown] at hf hg
    subst hf; subst hg; exact hR
  | succ n ih =>
    intro x x' y y' hR hf hg
    simp only [forDown] at hf hg
    cases hx : f (n + 1) x with
    | none => simp [hx] at hf
    | some x1 =>
      cases hy : g (n + 1) y with
      | none => simp [hy] at hg
      | some y1 =>
        rw [hx] at hf; rw [hy] at hg
        exact ih x1 x' y1 y' (hstep n x y x1 y1 hR hx hy) hf hg

/-! ### `SvdStack`: push and pop -/

namespace SvdStack

variable {K : Type} {n : Nat}

theorem pop_eq_some (st : SvdStack K n) (h : 0 < st.len) :
    st.pop = some { st with len := st.len - 1 } := by
  simp [pop, h]

theorem take_set_same {α : Type} (l : List α) (k : Nat) (a : α) :
    (l.set k a).take k = l.take k :=
  List.ext_getElem? fun i => by
    rw [List.getElem?_take, List.getElem?_take]
    split
    · rw [List.getElem?_set_ne (by omega)]
    · rfl

theorem push_spec [Mul K] [AddCommMonoid K] (svd : Mat K n → SVD K n) (st : SvdStack K n)
    (m : Mat K n) (h : st.len < st.stack.length) :
    ∃ st', st.push svd m = some st' ∧ st'.len = st.len + 1
      ∧ st'.stack = st.stack.set st.len (nextSVD svd st.view m) := by
  by_cases h0 : st.len = 0
  · refine ⟨{ st with stack := st.stack.set st.len (svd m), len := st.len + 1 }, ?_, rfl, ?_⟩
    · have h' : 0 < st.stack.length := h0 ▸ h
      simp only [push, h0, h', if_true]
    · simp [nextSVD, view, h0]
  · have hpos : 0 < st.len := Nat.pos_of_ne_zero h0
    have hlt : st.len - 1 < st.stack.length := by omega
    obtain ⟨d, hd⟩ : ∃ d, st.stack[st.len - 1]? = some d :=
      ⟨_, List.getElem?_eq_getElem hlt⟩
    have hlast : st.view.getLast? = some d := by
      rw [List.getLast?_eq_getElem?]
      simp only [view, List.length_take, Nat.min_eq_left (Nat.le_of_lt h)]
      rw [List.getElem?_take_of_lt (by omega)]
      exact hd
    refine ⟨⟨st.stack.set st.len (svd ((m * d.matrixU) * Matrix.diagonal d.singularValues)),
      (m * d.matrixU) * Matrix.diagonal d.singularValues, st.len + 1⟩, ?_, rfl, ?_⟩
    · simp only [push, h, h0, if_true, if_false, matrixU, singularValues, hpos, hd,
        Option.map_some']
    · simp [nextSVD, hlast]

theorem push_len [Mul K] [AddCommMonoid K] (svd : Mat K n → SVD K n) (st st' : SvdStack K n)
    (m : Mat K n) (h : st.push svd m = some st') :
    st.len < st.stack.length ∧ st'.len = st.len + 1
      ∧ st'.stack = st.stack.set st.len (nextSVD svd st.view m) := by
  have hlt : st.len < st.stack.length := by
    by_contra hc
    simp [push, hc] at h
  obtain ⟨st2, h2, hl, hs⟩ := push_spec svd st m hlt
  rw [h2] at h
  injection h with h
  subst h
  exact ⟨hlt, hl, hs⟩

theorem push_view [Mul K] [AddCommMonoid K] (svd : Mat K n → SVD K n) (st st' : SvdStack K n)
    (m : Mat K n) (h : st.push svd m = some st') :
    st'.view = st.view ++ [nextSVD svd st.view m] := by
  obtain ⟨hlt, hl, hs⟩ := push_len svd st st' m h
  simp only [view, hl, hs]
  rw [List.take_succ]
  congr 1
  · rw [take_set_same]
  · simp [hlt]

end SvdStack

/-! ### The sweeps: success, stack depths, frames -/

namespace Hubbard

variable {K G : Type} [LinearOrderedField K] {ls lt : Nat}

theorem foldl_keeps {σ α : Type} (f : σ → α → σ) (P : σ → Prop)
    (hf : ∀ x a, P x → P (f x a)) : ∀ (l : List α) (x : σ), P x → P (l.foldl f x) := by
  intro l
  induction l with
  | nil => intro x hx; exact hx
  | cons a l ih => intro x hx; exact ih (f x a) (hf x a hx)

theorem fieldOK_setEntry (s : Matrix (Fin ls) (Fin lt) K) (i : Fin ls) (k : Fin lt) (v : K)
    (hs : FieldOK s) (hv : v = 1 ∨ v = -1) : FieldOK (setEntry s i k v) := by
  intro a b
  unfold setEntry
  split
  · exact hv
  · exact hs a b

theorem metropolis_site_frame (E : Ext K G ls lt) (tau : Fin lt) (h : Hubbard K G ls lt)
    (i : Fin ls) : SameFrame h (metropolis_site E tau h i) := by
  unfold metropolis_site SameFrame
  dsimp only
  split <;> simp [metropolis_accept]

theorem metropolis_site_fieldOK (E : Ext K G ls lt) (tau : Fin lt) (h : Hubbard K G ls lt)
    (i : Fin ls) (hs : FieldOK h.s) : FieldOK (metropolis_site E tau h i).s := by
  unfold metropolis_site
  dsimp only
  split
  · simp only [metropolis_accept]
    apply fieldOK_setEntry _ _ _ _ hs
    rcases hs i tau with h1 | h1 <;> simp [h1]
  · exact hs

theorem metropolis_site_rejected (E : Ext K G ls lt) (hE : AllRejected E) (tau : Fin lt)
    (h : Hubbard K G ls lt) (i : Fin ls) :
    metropolis_site E tau h i =
      { h with random_seed_generate :=
          (E.bernoulli (min 1 |metropolis_p E h tau i|) h.random_seed_generate).2 } := by
  unfold metropolis_site
  have hb := hE (min 1 |metropolis_p E h tau i|) h.random_seed_generate
  simp [hb]

theorem metropolis_update_spec (E : Ext K G ls lt) (h : Hubbard K G ls lt) (l : Nat)
    (hc : h.current_tau = (l : Int)) (hl : l ≤ lt) (hlt : 0 < lt) :
    ∃ h', metropolis_update E h l = some h' ∧ SameFrame h h'
      ∧ (FieldOK h.s → FieldOK h'.s)
      ∧ (AllRejected E → h'.s = h.s ∧ h'.config_sign = h.config_sign) := by
  have ht : (if l = 0 then lt - 1 else l - 1) < lt := by split <;> omega
  refine ⟨_, by simp only [metropolis_update, hc, hl, ht, and_self, if_true, dif_pos]; rfl,
    ?_, ?_, ?_⟩
  · have := foldl_keeps (metropolis_site E ⟨_, ht⟩) (fun x => SameFrame h x)
      (fun x a hx => by
        have h2 := metropolis_site_frame E ⟨_, ht⟩ x a
        unfold SameFrame at *
        simp only [h2.1, h2.2.1, h2.2.2.1, h2.2.2.2.1, h2.2.2.2.2, hx, and_self])
      (List.finRange ls) h (by simp [SameFrame])
    simpa [SameFrame] using this
  · intro hs
    exact foldl_keeps (metropolis_site E ⟨_, ht⟩) (fun x => FieldOK x.s)
      (fun x a hx => metropolis_site_fieldOK E _ x a hx) (List.finRange ls) h hs
  · intro hE
    have := foldl_keeps (metropolis_site E ⟨_, ht⟩)
      (fun x => x.s = h.s ∧ x.config_sign = h.config_sign)
      (fun x a hx => by rw [metropolis_site_rejected E hE]; exact hx)
      (List.finRange ls) h ⟨rfl, rfl⟩
    exact this

theorem div_pred (w l : Nat) (hl : 1 ≤ l) :
    l / w = (l - 1) / w + (if l % w = 0 then 1 else 0) := by
  obtain ⟨k, rfl⟩ : ∃ k, l = k + 1 := ⟨l - 1, by omega⟩
  rw [Nat.succ_div]
  simp [Nat.dvd_iff_mod_eq_zero]

theorem nlen_eq (lt w : Nat) (hlt : 1 ≤ lt) : nlen lt w = (lt - 1) / w + 1 := by
  unfold nlen
  rw [div_pred w lt hlt]
  split <;> simp

theorem nlen_le (lt w : Nat) (hlt : 1 ≤ lt) : nlen lt w ≤ lt := by
  rw [nlen_eq lt w hlt]
  have := Nat.div_le_self (lt - 1) w
  omega

theorem sameFrame_trans {h1 h2 h3 : Hubbard K G ls lt} (h12 : SameFrame h1 h2)
    (h23 : SameFrame h2 h3) : SameFrame h1 h3 := by
  obtain ⟨a1, a2, a3, a4, a5⟩ := h12
  obtain ⟨b1, b2, b3, b4, b5⟩ := h23
  exact ⟨b1.trans a1, b2.trans a2, b3.trans a3, b4.trans a4, b5.trans a5⟩

theorem shape_of_frame {h h' : Hubbard K G ls lt} {c a b : Nat} (hS : Shape h c a b)
    (hf : SameFrame h h') : Shape h' c a b := by
  obtain ⟨_, h1, h2, h3, h4⟩ := hf
  unfold Shape at *
  rw [h1, h2, h3, h4]
  exact hS

theorem fwdDone_stab (lt w l : Nat) (hl1 : 1 ≤ l) (hl : l ≤ lt)
    (hc : l % w = 0 ∨ l = lt) :
    fwdDone lt w (l + 1) = fwdDone lt w l + 1 ∧ fwdDone lt w l < nlen lt w := by
  have hn := nlen_eq lt w (by omega)
  have hm : (l - 1) / w ≤ (lt - 1) / w := Nat.div_le_div_right (by omega)
  have hd := div_pred w l hl1
  unfold fwdDone
  rw [if_neg (show ¬ lt < l by omega)]
  by_cases hlt : l = lt
  · subst hlt
    rw [if_pos (Nat.lt_succ_self l)]
    omega
  · rcases hc with hc | hc
    · rw [if_neg (show ¬ lt < l + 1 by omega)]
      rw [if_pos hc] at hd
      simp only [Nat.add_sub_cancel]
      omega
    · exact absurd hc hlt

theorem fwdDone_keep (lt w l : Nat) (hl1 : 1 ≤ l) (hl : l ≤ lt)
    (hc : ¬ (l % w = 0 ∨ l = lt)) : fwdDone lt w (l + 1) = fwdDone lt w l := by
  have hd := div_pred w l hl1
  have h1 : ¬ l % w = 0 := fun h => hc (Or.inl h)
  have h2 : ¬ l = lt := fun h => hc (Or.inr h)
  unfold fwdDone
  rw [if_neg (show ¬ lt < l + 1 by omega), if_neg (show ¬ lt < l by omega)]
  rw [if_neg h1] at hd
  simp only [Nat.add_sub_cancel]
  omega

/-- The stack lines shared by the two upward sweeps: pop both right stacks,
push onto both left stacks. -/
theorem forward_stack_moves (E : Ext K G ls lt) (h : Hubbard K G ls lt) (tU tD : Mat K ls)
    (c a b : Nat) (hS : Shape h c a b) (hb : 0 < b) (ha : a < c) :
    ∃ lU lD, h.stackRightU.pop = some { h.stackRightU with len := b - 1 }
      ∧ h.stackRightD.pop = some { h.stackRightD with len := b - 1 }
      ∧ h.stackLeftU.push E.svd tU = some lU ∧ h.stackLeftD.push E.svd tD = some lD
      ∧ lU.len = a + 1 ∧ lD.len = a + 1
      ∧ c ≤ lU.stack.length ∧ c ≤ lD.stack.length := by
  obtain ⟨h1, h2, h3, h4, c1, c2, c3, c4⟩ := hS
  obtain ⟨lU, hU, hUl, hUs⟩ := SvdStack.push_spec E.svd h.stackLeftU tU (by omega)
  obtain ⟨lD, hD, hDl, hDs⟩ := SvdStack.push_spec E.svd h.stackLeftD tD (by omega)
  refine ⟨lU, lD, ?_, ?_, hU, hD, by omega, by omega, ?_, ?_⟩
  · rw [SvdStack.pop_eq_some _ (by omega), h3]
  · rw [SvdStack.pop_eq_some _ (by omega), h4]
  · rw [hUs]; simpa using c1
  · rw [hDs]; simpa using c2

theorem sweep_0_to_beta_stabilize_spec (E : Ext K G ls lt) (h : Hubbard K G ls lt)
    (tU tD : Mat K ls) (c a b : Nat) (hS : Shape h c a b) (hb : 0 < b) (ha : a < c) :
    ∃ h', sweep_0_to_beta_stabilize E h tU tD = some h' ∧ Shape h' c (a + 1) (b - 1)
      ∧ h'.current_tau = h.current_tau ∧ h'.s = h.s ∧ h'.config_sign = h.config_sign := by
  obtain ⟨lU, lD, e1, e2, e3, e4, l1, l2, k1, k2⟩ := forward_stack_moves E h tU tD c a b hS hb ha
  obtain ⟨h1, h2, h3, h4, c1, c2, c3, c4⟩ := hS
  simp only [sweep_0_to_beta_stabilize, e1, e2, e3, e4]
  refine ⟨_, rfl, ?_, rfl, rfl, rfl⟩
  exact ⟨l1, l2, rfl, rfl, k1, k2, c3, c4⟩

theorem wrap_north_spec (E : Ext K G ls lt) (h : Hubbard K G ls lt) (l : Nat) (hl : l ≤ lt) :
    ∃ h', wrap_north E h l = some h' ∧ SameFrame h h' ∧ h'.s = h.s
      ∧ h'.config_sign = h.config_sign := by
  simp only [wrap_north, if_pos hl]
  exact ⟨_, rfl, ⟨rfl, rfl, rfl, rfl, rfl⟩, rfl, rfl⟩

theorem wrap_south_spec (E : Ext K G ls lt) (h : Hubbard K G ls lt) (l : Nat) (hl : l ≤ lt) :
    ∃ h', wrap_south E h l = some h' ∧ SameFrame h h' ∧ h'.s = h.s
      ∧ h'.config_sign = h.config_sign := by
  simp only [wrap_south, if_pos hl]
  exact ⟨_, rfl, ⟨rfl, rfl, rfl, rfl, rfl⟩, rfl, rfl⟩

theorem sweep_0_to_beta_body_spec (E : Ext K G ls lt) (w l : Nat) (x : Loop K G ls lt)
    (hl1 : 1 ≤ l) (hl : l ≤ lt) (hI : FwdInv w l x) :
    ∃ x', sweep_0_to_beta_body E w l x = some x' ∧ FwdInv w (l + 1) x'
      ∧ (FieldOK x.1.s → FieldOK x'.1.s)
      ∧ (AllRejected E → x'.1.s = x.1.s ∧ x'.1.config_sign = x.1.config_sign) := by
  obtain ⟨hc, hS⟩ := hI
  obtain ⟨h1, hwn, hfr1, hs1, hg1⟩ := wrap_north_spec E x.1 (l - 1) (by omega)
  obtain ⟨h2, hm, hfr2, hfo, hrej⟩ := metropolis_update_spec E h1 l
    (by rw [hfr1.1]; exact hc) hl (by omega)
  have hfr : SameFrame x.1 h2 := sameFrame_trans hfr1 hfr2
  rw [hs1] at hfo
  rw [hs1, hg1] at hrej
  have hS2 : Shape h2 _ _ _ := shape_of_frame hS hfr
  by_cases hcond : l % w = 0 ∨ l = lt
  · obtain ⟨hd1, hd2⟩ := fwdDone_stab lt w l hl1 hl hcond
    obtain ⟨h3, hst, hS3, ht3, hs3, hg3⟩ := sweep_0_to_beta_stabilize_spec E h2
      (E.mult_B_from_left h2.s x.2.1 l 1) (E.mult_B_from_left h2.s x.2.2 l (-1))
      _ _ _ hS2 (by omega) hd2
    refine ⟨({ h3 with current_tau := h3.current_tau + 1 }, 1, 1), ?_, ⟨?_, ?_⟩, ?_, ?_⟩
    · simp only [sweep_0_to_beta_body, hwn, hm, if_pos hcond, hst]
    · show h3.current_tau + 1 = ((l + 1 : Nat) : Int)
      rw [ht3, hfr.1]; push_cast; exact congrArg (· + 1) hc
    · rw [hd1]
      have : nlen lt w - (fwdDone lt w l + 1) = nlen lt w - fwdDone lt w l - 1 := by omega
      rw [this]; exact hS3
    · intro hs; show FieldOK h3.s; rw [hs3]; exact hfo hs
    · intro hE; show h3.s = _ ∧ h3.config_sign = _
      rw [hs3, hg3]; exact hrej hE
  · have hd := fwdDone_keep lt w l hl1 hl hcond
    refine ⟨({ h2 with current_tau := h2.current_tau + 1 },
      E.mult_B_from_left h2.s x.2.1 l 1, E.mult_B_from_left h2.s x.2.2 l (-1)), ?_, ⟨?_, ?_⟩, ?_, ?_⟩
    · simp only [sweep_0_to_beta_body, hwn, hm, if_neg hcond]
    · show h2.current_tau + 1 = ((l + 1 : Nat) : Int)
      rw [hfr.1]; push_cast; exact congrArg (· + 1) hc
    · rw [hd]; exact hS2
    · exact hfo
    · exact hrej

/-- When `metropolis_update(l)` returns, its assertions held. -/
theorem metropolis_update_asserts (E : Ext K G ls lt) (h h' : Hubbard K G ls lt) (l : Nat)
    (e : metropolis_update E h l = some h') :
    h.current_tau = (l : Int) ∧ l ≤ lt ∧ 0 < lt := by
  unfold metropolis_update at e
  by_cases hpre : h.current_tau = (l : Int) ∧ l ≤ lt
  · by_cases ht : (if l = 0 then lt - 1 else l - 1) < lt
    · exact ⟨hpre.1, hpre.2, by split at ht <;> omega⟩
    · rw [if_pos hpre, dif_neg ht] at e
      exact absurd e (by simp)
  · rw [if_neg hpre] at e
    exact absurd e (by simp)

/-- The loop of `sweep_0_to_beta` returns from the state its entry assertions accept. -/
theorem sweep_0_to_beta_loop_runs (E : Ext K G ls lt) (h : Hubbard K G ls lt) (w : Nat)
    (hlt : 1 ≤ lt) (hc : h.current_tau = 0) (hS : Shape h (nlen lt w) 0 (nlen lt w)) :
    ∃ x', forUp (sweep_0_to_beta_body E w) lt 1
      (({ h with current_tau := h.current_tau + 1 } : Hubbard K G ls lt), 1, 1) = some x' := by
  have hd1 : fwdDone lt w 1 = 0 := by
    unfold fwdDone; rw [if_neg (by omega)]; simp
  obtain ⟨x', hx', _⟩ := forUp_invariant (sweep_0_to_beta_body E w) (fun l x => FwdInv w l x) lt 1
    (fun l x hl1 hl hI => by
      obtain ⟨x', e, hI', _⟩ := sweep_0_to_beta_body_spec E w l x hl1 (by omega) hI
      exact ⟨x', e, hI'⟩)
    (({ h with current_tau := h.current_tau + 1 } : Hubbard K G ls lt), 1, 1)
    ⟨by show h.current_tau + 1 = ((1 : Nat) : Int); rw [hc]; rfl, by rw [hd1]; exact hS⟩
  exact ⟨x', hx'⟩

/-- When the body of `sweep_0_to_beta` returns at slice `l`, its call of
`metropolis_update(l)` was made with `current_tau = l` and returned. -/
theorem sweep_0_to_beta_body_calls (E : Ext K G ls lt) (w l : Nat) (x x' : Loop K G ls lt)
    (e : sweep_0_to_beta_body E w l x = some x') :
    ∃ g g', wrap_north E x.1 (l - 1) = some g ∧ g.current_tau = (l : Int)
      ∧ metropolis_update E g l = some g' := by
  unfold sweep_0_to_beta_body at e
  cases e1 : wrap_north E x.1 (l - 1) with
  | none => rw [e1] at e; exact absurd e (by simp)
  | some g =>
    rw [e1] at e
    dsimp only at e
    cases e2 : metropolis_update E g l with
    | none => rw [e2] at e; exact absurd e (by simp)
    | some g' => exact ⟨g, g', rfl, (metropolis_update_asserts E g g' l e2).1, e2⟩

/-- When the body of `sweep_beta_to_0` returns at slice `l`, its call of
`metropolis_update(l)` was made with `current_tau = l` and returned. -/
theorem sweep_beta_to_0_body_calls (E : Ext K G ls lt) (w l : Nat) (x x' : Loop K G ls lt)
    (e : sweep_beta_to_0_body E w l x = some x') :
    ∃ y g', sweep_beta_to_0_guard E w l x = some y ∧ y.1.current_tau = (l : Int)
      ∧ metropolis_update E y.1 l = some g' := by
  unfold sweep_beta_to_0_body at e
  cases e1 : sweep_beta_to_0_guard E w l x with
  | none => rw [e1] at e; exact absurd e (by simp)
  | some y =>
    rw [e1] at e
    dsimp only at e
    cases e2 : metropolis_update E y.1 l with
    | none => rw [e2] at e; exact absurd e (by simp)
    | some g' => exact ⟨y, g', rfl, (metropolis_update_asserts E y.1 g' l e2).1, e2⟩

theorem sweep_0_to_beta_spec (E : Ext K G ls lt) (h : Hubbard K G ls lt) (w : Nat)
    (hlt : 1 ≤ lt) (hc : h.current_tau = 0) (hS : Shape h (nlen lt w) 0 (nlen lt w)) :
    ∃ h', sweep_0_to_beta E h w = some h' ∧ h'.current_tau = (lt : Int) + 1
      ∧ Shape h' (nlen lt w) (nlen lt w) 0
      ∧ (FieldOK h.s → FieldOK h'.s)
      ∧ (AllRejected E → h'.s = h.s ∧ h'.config_sign = h.config_sign) := by
  have hd1 : fwdDone lt w 1 = 0 := by
    unfold fwdDone; rw [if_neg (by omega)]; simp
  have hd2 : fwdDone lt w (1 + lt) = nlen lt w := by
    unfold fwdDone; rw [if_pos (by omega)]
  obtain ⟨x', hx', ⟨hc', hS'⟩, hfo, hrej⟩ := forUp_invariant (sweep_0_to_beta_body E w)
    (fun l x => FwdInv w l x ∧ (FieldOK h.s → FieldOK x.1.s)
      ∧ (AllRejected E → x.1.s = h.s ∧ x.1.config_sign = h.config_sign)) lt 1
    (fun l x hl1 hl hI => by
      obtain ⟨x', e, hI', hf, hr⟩ := sweep_0_to_beta_body_spec E w l x hl1 (by omega) hI.1
      refine ⟨x', e, hI', fun hs => hf (hI.2.1 hs), fun hE => ?_⟩
      obtain ⟨r1, r2⟩ := hr hE
      obtain ⟨q1, q2⟩ := hI.2.2 hE
      exact ⟨r1.trans q1, r2.trans q2⟩)
    (({ h with current_tau := h.current_tau + 1 } : Hubbard K G ls lt), 1, 1)
    ⟨⟨by show h.current_tau + 1 = ((1 : Nat) : Int); rw [hc]; rfl, by
        rw [hd1]; exact hS⟩, fun hs => hs, fun _ => ⟨rfl, rfl⟩⟩
  rw [hd2] at hS'
  have hpre : (h.current_tau + 1 = 1 ∧ h.stackLeftU.empty = true ∧ h.stackLeftD.empty = true
      ∧ h.stackRightU.len = nlen lt w ∧ h.stackRightD.len = nlen lt w) := by
    obtain ⟨s1, s2, s3, s4, _⟩ := hS
    simp [SvdStack.empty, hc, s1, s2, s3, s4]
  have hidx : lt - 1 < lt := by omega
  obtain ⟨h1, tU, tD⟩ := x'
  unfold sweep_0_to_beta
  dsimp only
  rw [if_pos hpre, hx']
  dsimp only
  rw [dif_pos hidx]
  refine ⟨_, rfl, ?_, ?_, hfo, hrej⟩
  · show h1.current_tau = _
    rw [hc']; push_cast; ring
  · simpa [Shape] using hS'

theorem bwdDone_lt (lt w l : Nat) (hlt : 1 ≤ lt) : bwdDone lt w l < nlen lt w := by
  rw [nlen_eq lt w hlt]; unfold bwdDone
  exact Nat.lt_succ_of_le (Nat.sub_le _ _)

theorem bwdDone_stab (lt w l : Nat) (hl1 : 1 ≤ l) (hc : l % w = 0 ∧ l ≠ lt) (hl : l ≤ lt) :
    bwdDone lt w (l - 1) = bwdDone lt w l + 1 := by
  have hd := div_pred w l hl1
  rw [if_pos hc.1] at hd
  have hm : l / w ≤ (lt - 1) / w := Nat.div_le_div_right (by omega)
  unfold bwdDone
  omega

theorem bwdDone_keep (lt w l : Nat) (hl1 : 1 ≤ l) (hc : ¬ (l % w = 0 ∧ l ≠ lt)) (hl : l ≤ lt) :
    bwdDone lt w (l - 1) = bwdDone lt w l := by
  have hd := div_pred w l hl1
  unfold bwdDone
  by_cases hm : l % w = 0
  · have hlt : l = lt := by
      by_contra hne; exact hc ⟨hm, hne⟩
    subst hlt
    rw [if_pos hm] at hd
    omega
  · rw [if_neg hm] at hd
    omega

/-- The stack lines of the downward sweep: pop both left stacks, push onto both
right stacks. -/
theorem backward_stack_moves (E : Ext K G ls lt) (h : Hubbard K G ls lt) (tU tD : Mat K ls)
    (c a b : Nat) (hS : Shape h c a b) (ha : 0 < a) (hb : b < c) :
    ∃ rU rD, h.stackLeftU.pop = some { h.stackLeftU with len := a - 1 }
      ∧ h.stackLeftD.pop = some { h.stackLeftD with len := a - 1 }
      ∧ h.stackRightU.push E.svd tU = some rU ∧ h.stackRightD.push E.svd tD = some rD
      ∧ rU.len = b + 1 ∧ rD.len = b + 1
      ∧ c ≤ rU.stack.length ∧ c ≤ rD.stack.length
      ∧ rU.view = h.stackRightU.view ++ [SvdStack.nextSVD E.svd h.stackRightU.view tU]
      ∧ rD.view = h.stackRightD.view ++ [SvdStack.nextSVD E.svd h.stackRightD.view tD] := by
  obtain ⟨h1, h2, h3, h4, c1, c2, c3, c4⟩ := hS
  obtain ⟨rU, hU, hUl, hUs⟩ := SvdStack.push_spec E.svd h.stackRightU tU (by omega)
  obtain ⟨rD, hD, hDl, hDs⟩ := SvdStack.push_spec E.svd h.stackRightD tD (by omega)
  refine ⟨rU, rD, ?_, ?_, hU, hD, by omega, by omega, ?_, ?_,
    SvdStack.push_view _ _ _ _ hU, SvdStack.push_view _ _ _ _ hD⟩
  · rw [SvdStack.pop_eq_some _ (by omega), h1]
  · rw [SvdStack.pop_eq_some _ (by omega), h2]
  · rw [hUs]; simpa using c3
  · rw [hDs]; simpa using c4

theorem sweep_beta_to_0_stabilize_spec (E : Ext K G ls lt) (h : Hubbard K G ls lt)
    (tU tD : Mat K ls) (c a b : Nat) (hS : Shape h c a b) (ha : 0 < a) (hb : b < c) :
    ∃ h', sweep_beta_to_0_stabilize E h tU tD = some h' ∧ Shape h' c (a - 1) (b + 1)
      ∧ h'.current_tau = h.current_tau ∧ h'.s = h.s ∧ h'.config_sign = h.config_sign
      ∧ h'.stackRightU.view
          = h.stackRightU.view ++ [SvdStack.nextSVD E.svd h.stackRightU.view tU]
      ∧ h'.stackRightD.view
          = h.stackRightD.view ++ [SvdStack.nextSVD E.svd h.stackRightD.view tD] := by
  obtain ⟨rU, rD, e1, e2, e3, e4, l1, l2, k1, k2, v1, v2⟩ :=
    backward_stack_moves E h tU tD c a b hS ha hb
  obtain ⟨h1, h2, h3, h4, c1, c2, c3, c4⟩ := hS
  simp only [sweep_beta_to_0_stabilize, e1, e2, e3, e4]
  refine ⟨_, rfl, ?_, rfl, rfl, rfl, v1, v2⟩
  exact ⟨rfl, rfl, l1, l2, c1, c2, k1, k2⟩

theorem sweep_beta_to_0_guard_spec (E : Ext K G ls lt) (w l : Nat) (x : Loop K G ls lt)
    (hl1 : 1 ≤ l) (hl : l ≤ lt) (hI : BwdInv w l x) :
    ∃ y, sweep_beta_to_0_guard E w l x = some y ∧ y.1.current_tau = (l : Int)
      ∧ Shape y.1 (nlen lt w) (nlen lt w - bwdDone lt w (l - 1)) (bwdDone lt w (l - 1))
      ∧ y.1.s = x.1.s ∧ y.1.config_sign = x.1.config_sign
      ∧ (y.1.stackRightU.view, y.2.1)
          = pushIf E.svd (decide (l % w = 0 ∧ l ≠ lt)) (x.1.stackRightU.view, x.2.1)
      ∧ (y.1.stackRightD.view, y.2.2)
          = pushIf E.svd (decide (l % w = 0 ∧ l ≠ lt)) (x.1.stackRightD.view, x.2.2) := by
  obtain ⟨hc, hS⟩ := hI
  have hb := bwdDone_lt lt w l (by omega)
  by_cases hcond : l % w = 0 ∧ l ≠ lt
  · have hd := bwdDone_stab lt w l hl1 hcond hl
    obtain ⟨h1, hst, hS1, ht1, hs1, hg1, v1, v2⟩ :=
      sweep_beta_to_0_stabilize_spec E x.1 x.2.1 x.2.2 _ _ _ hS (by omega) hb
    refine ⟨(h1, 1, 1), ?_, ?_, ?_, hs1, hg1, ?_, ?_⟩
    · simp only [sweep_beta_to_0_guard, if_pos hcond, hst]
    · exact ht1.trans hc
    · rw [hd]
      have : nlen lt w - (bwdDone lt w l + 1) = nlen lt w - bwdDone lt w l - 1 := by omega
      rw [this]; exact hS1
    · simp only [pushIf, decide_eq_true hcond, if_true]
      exact Prod.ext v1 rfl
    · simp only [pushIf, decide_eq_true hcond, if_true]
      exact Prod.ext v2 rfl
  · have hd := bwdDone_keep lt w l hl1 hcond hl
    refine ⟨x, ?_, hc, ?_, rfl, rfl, ?_, ?_⟩
    · simp only [sweep_beta_to_0_guard, if_neg hcond]
    · rw [hd]; exact hS
    · simp [pushIf, hcond]
    · simp [pushIf, hcond]

theorem sweep_beta_to_0_body_spec (E : Ext K G ls lt) (w l : Nat) (x : Loop K G ls lt)
    (hl1 : 1 ≤ l) (hl : l ≤ lt) (hI : BwdInv w l x) :
    ∃ x', sweep_beta_to_0_body E w l x = some x' ∧ BwdInv w (l - 1) x'
      ∧ (FieldOK x.1.s → FieldOK x'.1.s)
      ∧ (AllRejected E → x'.1.s = x.1.s ∧ x'.1.config_sign = x.1.config_sign
          ∧ (x'.1.stackRightU.view, x'.2.1)
            = ((pushIf E.svd (decide (l % w = 0 ∧ l ≠ lt)) (x.1.stackRightU.view, x.2.1)).1,
                E.mult_transB_from_left x.1.s
                  (pushIf E.svd (decide (l % w = 0 ∧ l ≠ lt)) (x.1.stackRightU.view, x.2.1)).2
                  l 1)
          ∧ (x'.1.stackRightD.view, x'.2.2)
            = ((pushIf E.svd (decide (l % w = 0 ∧ l ≠ lt)) (x.1.stackRightD.view, x.2.2)).1,
                E.mult_transB_from_left x.1.s
                  (pushIf E.svd (decide (l % w = 0 ∧ l ≠ lt)) (x.1.stackRightD.view, x.2.2)).2
                  l (-1))) := by
  obtain ⟨y, hy, hcy, hSy, hsy, hgy, hv1, hv2⟩ := sweep_beta_to_0_guard_spec E w l x hl1 hl hI
  obtain ⟨h2, hm, hfr2, hfo, hrej⟩ := metropolis_update_spec E y.1 l hcy hl (by omega)
  obtain ⟨h3, hws, hfr3, hs3, hg3⟩ := wrap_south_spec E h2 l hl
  have hfr : SameFrame y.1 h3 := sameFrame_trans hfr2 hfr3
  rw [hsy] at hfo
  rw [hsy, hgy] at hrej
  refine ⟨({ h3 with current_tau := h3.current_tau - 1 },
    E.mult_transB_from_left h2.s y.2.1 l 1, E.mult_transB_from_left h2.s y.2.2 l (-1)),
    ?_, ⟨?_, ?_⟩, ?_, ?_⟩
  · simp only [sweep_beta_to_0_body, hy, hm, hws]
  · show h3.current_tau - 1 = ((l - 1 : Nat) : Int)
    rw [hfr.1, hcy]; omega
  · have hS3 := shape_of_frame hSy hfr
    exact hS3
  · intro hs; show FieldOK h3.s; rw [hs3]; exact hfo hs
  · intro hE
    obtain ⟨r1, r2⟩ := hrej hE
    refine ⟨?_, ?_, ?_, ?_⟩
    · show h3.s = _
      rw [hs3]; exact r1
    · show h3.config_sign = _
      rw [hg3]; exact r2
    · show (h3.stackRightU.view, E.mult_transB_from_left h2.s y.2.1 l 1) = _
      rw [hfr.2.2.2.1, r1, ← hv1]
    · show (h3.stackRightD.view, E.mult_transB_from_left h2.s y.2.2 l (-1)) = _
      rw [hfr.2.2.2.2, r1, ← hv2]

/-- The loop of `sweep_beta_to_0`, from the state its entry assertions accept. -/
theorem sweep_beta_to_0_loop_spec (E : Ext K G ls lt) (h : Hubbard K G ls lt) (w : Nat)
    (hlt : 1 ≤ lt) (hc : h.current_tau = (lt : Int) + 1)
    (hS : Shape h (nlen lt w) (nlen lt w) 0) :
    ∃ x', forDown (sweep_beta_to_0_body E w) lt
          (({ h with current_tau := h.current_tau - 1 } : Hubbard K G ls lt), 1, 1) = some x'
      ∧ BwdInv w 0 x'
      ∧ (FieldOK h.s → FieldOK x'.1.s)
      ∧ (AllRejected E → x'.1.s = h.s ∧ x'.1.config_sign = h.config_sign) := by
  have hd1 : bwdDone lt w lt = 0 := by
    unfold bwdDone
    exact Nat.sub_eq_zero_of_le (Nat.div_le_div_right (by omega))
  exact forDown_invariant (sweep_beta_to_0_body E w)
    (fun l x => BwdInv w l x ∧ (FieldOK h.s → FieldOK x.1.s)
      ∧ (AllRejected E → x.1.s = h.s ∧ x.1.config_sign = h.config_sign)) lt
    (fun l x hl hI => by
      obtain ⟨x', e, hI', hf, hr⟩ :=
        sweep_beta_to_0_body_spec E w (l + 1) x (by omega) (by omega) hI.1
      refine ⟨x', e, hI', fun hs => hf (hI.2.1 hs), fun hE => ?_⟩
      obtain ⟨r1, r2, _⟩ := hr hE
      obtain ⟨q1, q2⟩ := hI.2.2 hE
      exact ⟨r1.trans q1, r2.trans q2⟩)
    (({ h with current_tau := h.current_tau - 1 } : Hubbard K G ls lt), 1, 1)
    ⟨⟨by show h.current_tau - 1 = (lt : Int); rw [hc]; ring, by
        rw [hd1]; exact hS⟩, fun hs => hs, fun _ => ⟨rfl, rfl⟩⟩

/-- The lines of `sweep_beta_to_0` after its loop. -/
theorem sweep_beta_to_0_finish (E : Ext K G ls lt) (h : Hubbard K G ls lt) (w : Nat)
    (hlt : 1 ≤ lt) (hc : h.current_tau = (lt : Int) + 1)
    (hS : Shape h (nlen lt w) (nlen lt w) 0) (x : Loop K G ls lt)
    (hx : forDown (sweep_beta_to_0_body E w) lt
      (({ h with current_tau := h.current_tau - 1 } : Hubbard K G ls lt), 1, 1) = some x)
    (hI : BwdInv w 0 x) :
    ∃ h', sweep_beta_to_0 E h w = some h' ∧ h'.current_tau = 0
      ∧ Shape h' (nlen lt w) 0 (nlen lt w)
      ∧ h'.s = x.1.s ∧ h'.config_sign = x.1.config_sign
      ∧ h'.green_tt_up = E.compute_Green_eqtime h'.stackLeftU h'.stackRightU
      ∧ h'.green_tt_dn = E.compute_Green_eqtime h'.stackLeftD h'.stackRightD
      ∧ h'.stackRightU.view
          = x.1.stackRightU.view ++ [SvdStack.nextSVD E.svd x.1.stackRightU.view x.2.1]
      ∧ h'.stackRightD.view
          = x.1.stackRightD.view ++ [SvdStack.nextSVD E.svd x.1.stackRightD.view x.2.2] := by
  have hn := nlen_eq lt w hlt
  have hpos : 1 ≤ nlen lt w := by rw [hn]; exact Nat.le_add_left 1 _
  have hd2 : bwdDone lt w 0 = nlen lt w - 1 := by
    unfold bwdDone; rw [hn]; simp
  obtain ⟨hc', hS'⟩ := hI
  rw [hd2] at hS'
  have hpre : (h.current_tau - 1 = (lt : Int) ∧ h.stackRightU.empty = true
      ∧ h.stackRightD.empty = true
      ∧ h.stackLeftU.len = nlen lt w ∧ h.stackLeftD.len = nlen lt w) := by
    obtain ⟨s1, s2, s3, s4, _⟩ := hS
    simp [SvdStack.empty, hc, s1, s2, s3, s4]
  have hidx : lt - 1 < lt := by omega
  obtain ⟨h1, tU, tD⟩ := x
  obtain ⟨rU, rD, e1, e2, e3, e4, l1, l2, k1, k2, v1, v2⟩ :=
    backward_stack_moves E h1 tU tD _ _ _ hS' (by omega) (by omega)
  obtain ⟨s1, s2, s3, s4, c1, c2, c3, c4⟩ := hS'
  unfold sweep_beta_to_0
  dsimp only
  rw [if_pos hpre, hx]
  dsimp only
  rw [e1, e2, e3, e4]
  dsimp only
  rw [dif_pos hidx]
  refine ⟨_, rfl, ?_, ?_, rfl, rfl, rfl, rfl, v1, v2⟩
  · show h1.current_tau = _
    rw [hc']; rfl
  · refine ⟨?_, ?_, ?_, ?_, c1, c2, k1, k2⟩
    · show nlen lt w - (nlen lt w - 1) - 1 = 0
      omega
    · show nlen lt w - (nlen lt w - 1) - 1 = 0
      omega
    · show rU.len = _
      omega
    · show rD.len = _
      omega

theorem sweep_beta_to_0_spec (E : Ext K G ls lt) (h : Hubbard K G ls lt) (w : Nat)
    (hlt : 1 ≤ lt) (hc : h.current_tau = (lt : Int) + 1)
    (hS : Shape h (nlen lt w) (nlen lt w) 0) :
    ∃ h', sweep_beta_to_0 E h w = some h' ∧ h'.current_tau = 0
      ∧ Shape h' (nlen lt w) 0 (nlen lt w)
      ∧ (FieldOK h.s → FieldOK h'.s)
      ∧ (AllRejected E → h'.s = h.s ∧ h'.config_sign = h.config_sign) := by
  obtain ⟨x, hx, hI, hfo, hrej⟩ := sweep_beta_to_0_loop_spec E h w hlt hc hS
  obtain ⟨h', e, ht, hS', hs, hg, _⟩ := sweep_beta_to_0_finish E h w hlt hc hS x hx hI
  refine ⟨h', e, ht, hS', fun hf => ?_, fun hE => ?_⟩
  · rw [hs]; exact hfo hf
  · rw [hs, hg]; exact hrej hE

theorem displacedFrame_trans {h1 h2 h3 : Hubbard K G ls lt} (h12 : DisplacedFrame h1 h2)
    (h23 : DisplacedFrame h2 h3) : DisplacedFrame h1 h3 := by
  obtain ⟨a1, a2, a3, a4, a5, a6, a7, a8, a9, a10, a11⟩ := h12
  obtain ⟨b1, b2, b3, b4, b5, b6, b7, b8, b9, b10, b11⟩ := h23
  exact ⟨b1.trans a1, b2.trans a2, b3.trans a3, b4.trans a4, b5.trans a5, b6.trans a6,
    b7.trans a7, b8.trans a8, b9.trans a9, b10.trans a10, b11.trans a11⟩

theorem sweep_0_to_beta_displaced_stabilize_spec (E : Ext K G ls lt) (h : Hubbard K G ls lt)
    (tU tD : Mat K ls) (c a b : Nat) (hS : Shape h c a b) (hb : 0 < b) (ha : a < c) :
    ∃ h', sweep_0_to_beta_displaced_stabilize E h tU tD = some h' ∧ Shape h' c (a + 1) (b - 1)
      ∧ h'.current_tau = h.current_tau ∧ DisplacedFrame h h' := by
  obtain ⟨lU, lD, e1, e2, e3, e4, l1, l2, k1, k2⟩ := forward_stack_moves E h tU tD c a b hS hb ha
  obtain ⟨h1, h2, h3, h4, c1, c2, c3, c4⟩ := hS
  simp only [sweep_0_to_beta_displaced_stabilize, e1, e2, e3, e4]
  refine ⟨_, rfl, ?_, rfl, ?_⟩
  · exact ⟨l1, l2, rfl, rfl, k1, k2, c3, c4⟩
  · exact ⟨rfl, rfl, rfl, rfl, rfl, rfl, rfl, rfl, rfl, rfl, rfl⟩

theorem sweep_0_to_beta_displaced_body_spec (E : Ext K G ls lt) (w l : Nat)
    (x : Loop K G ls lt) (hl1 : 1 ≤ l) (hl : l ≤ lt) (hI : FwdInv w l x) :
    ∃ x', sweep_0_to_beta_displaced_body E w l x = some x' ∧ FwdInv w (l + 1) x'
      ∧ DisplacedFrame x.1 x'.1 := by
  obtain ⟨hc, hS⟩ := hI
  have hidx : 1 ≤ l ∧ l - 1 < lt := ⟨hl1, by omega⟩
  unfold sweep_0_to_beta_displaced_body
  rw [dif_pos hidx]
  dsimp only
  by_cases hcond : l % w = 0 ∨ l = lt
  · obtain ⟨hd1, hd2⟩ := fwdDone_stab lt w l hl1 hl hcond
    rw [if_pos hcond]
    obtain ⟨h3, hst, hS3, ht3, hfr3⟩ := sweep_0_to_beta_displaced_stabilize_spec E
      ({ x.1 with
          green_t0_up := E.mult_B_from_left x.1.s x.1.green_t0_up l 1,
          green_t0_dn := E.mult_B_from_left x.1.s x.1.green_t0_dn l (-1),
          green_0t_up := E.mult_invB_from_right x.1.s x.1.green_0t_up l 1,
          green_0t_dn := E.mult_invB_from_right x.1.s x.1.green_0t_dn l (-1),
          vec_green_t0_up := Function.update x.1.vec_green_t0_up ⟨l - 1, hidx.2⟩
            (E.mult_B_from_left x.1.s x.1.green_t0_up l 1),
          vec_green_t0_dn := Function.update x.1.vec_green_t0_dn ⟨l - 1, hidx.2⟩
            (E.mult_B_from_left x.1.s x.1.green_t0_dn l (-1)),
          vec_green_0t_up := Function.update x.1.vec_green_0t_up ⟨l - 1, hidx.2⟩
            (E.mult_invB_from_right x.1.s x.1.green_0t_up l 1),
          vec_green_0t_dn := Function.update x.1.vec_green_0t_dn ⟨l - 1, hidx.2⟩
            (E.mult_invB_from_right x.1.s x.1.green_0t_dn l (-1)) } : Hubbard K G ls lt)
      (E.mult_B_from_left x.1.s x.2.1 l 1) (E.mult_B_from_left x.1.s x.2.2 l (-1))
      _ _ _ hS (by omega) hd2
    rw [hst]
    refine ⟨_, rfl, ⟨?_, ?_⟩, ?_⟩
    · show h3.current_tau + 1 = ((l + 1 : Nat) : Int)
      rw [ht3]; push_cast; exact congrArg (· + 1) hc
    · rw [hd1]
      have : nlen lt w - (fwdDone lt w l + 1) = nlen lt w - fwdDone lt w l - 1 := by omega
      rw [this]; exact hS3
    · exact hfr3
  · have hd := fwdDone_keep lt w l hl1 hl hcond
    rw [if_neg hcond]
    refine ⟨_, rfl, ⟨?_, ?_⟩, ?_⟩
    · show x.1.current_tau + 1 = ((l + 1 : Nat) : Int)
      push_cast; exact congrArg (· + 1) hc
    · rw [hd]; exact hS
    · exact ⟨rfl, rfl, rfl, rfl, rfl, rfl, rfl, rfl, rfl, rfl, rfl⟩

theorem sweep_0_to_beta_displaced_spec (E : Ext K G ls lt) (h : Hubbard K G ls lt) (w : Nat)
    (hlt : 1 ≤ lt) (hc : h.current_tau = 0) (hS : Shape h (nlen lt w) 0 (nlen lt w)) :
    ∃ h', sweep_0_to_beta_displaced E h w = some h' ∧ h'.current_tau = (lt : Int) + 1
      ∧ Shape h' (nlen lt w) (nlen lt w) 0 ∧ DisplacedFrame h h' := by
  have hd1 : fwdDone lt w 1 = 0 := by
    unfold fwdDone; rw [if_neg (by omega)]; simp
  have hd2 : fwdDone lt w (1 + lt) = nlen lt w := by
    unfold fwdDone; rw [if_pos (by omega)]
  obtain ⟨x', hx', ⟨hc', hS'⟩, hfr⟩ := forUp_invariant (sweep_0_to_beta_displaced_body E w)
    (fun l x => FwdInv w l x ∧ DisplacedFrame h x.1) lt 1
    (fun l x hl1 hl hI => by
      obtain ⟨x', e, hI', hf⟩ :=
        sweep_0_to_beta_displaced_body_spec E w l x hl1 (by omega) hI.1
      exact ⟨x', e, hI', displacedFrame_trans hI.2 hf⟩)
    (({ h with
        current_tau := h.current_tau + 1,
        green_t0_up := h.green_tt_up,
        green_t0_dn := h.green_tt_dn,
        green_0t_up := h.green_tt_up - 1,
        green_0t_dn := h.green_tt_dn - 1 } : Hubbard K G ls lt), 1, 1)
    ⟨⟨by show h.current_tau + 1 = ((1 : Nat) : Int); rw [hc]; rfl, by
        rw [hd1]; exact hS⟩, ⟨rfl, rfl, rfl, rfl, rfl, rfl, rfl, rfl, rfl, rfl, rfl⟩⟩
  rw [hd2, Nat.sub_self] at hS'
  have hpre : (h.current_tau + 1 = 1 ∧ h.stackLeftU.empty = true ∧ h.stackLeftD.empty = true
      ∧ h.stackRightU.len = nlen lt w ∧ h.stackRightD.len = nlen lt w) := by
    obtain ⟨s1, s2, s3, s4, _⟩ := hS
    simp [SvdStack.empty, hc, s1, s2, s3, s4]
  obtain ⟨h1, tU, tD⟩ := x'
  unfold sweep_0_to_beta_displaced
  dsimp only
  rw [if_pos hpre, hx']
  refine ⟨_, rfl, ?_, hS', hfr⟩
  show h1.current_tau = _
  rw [hc']; push_cast; ring

theorem initDone_lt (lt w l : Nat) (hlt : 1 ≤ lt) (hl1 : 1 ≤ l) :
    initDone lt w l < nlen lt w := by
  rw [nlen_eq lt w hlt]; unfold initDone
  rw [if_neg (by omega)]
  exact Nat.lt_succ_of_le (Nat.sub_le _ _)

theorem initDone_push (lt w l : Nat) (hl1 : 1 ≤ l) (hl : l ≤ lt) (hc : (l - 1) % w = 0) :
    initDone lt w (l - 1) = initDone lt w l + 1 := by
  have hn := nlen_eq lt w (by omega)
  unfold initDone
  rw [if_neg (show ¬ l = 0 by omega)]
  by_cases h1 : l = 1
  · subst h1
    simp [hn]
  · rw [if_neg (show ¬ l - 1 = 0 by omega)]
    have hd := div_pred w (l - 1) (by omega)
    rw [if_pos hc] at hd
    have hm : (l - 1) / w ≤ (lt - 1) / w := Nat.div_le_div_right (by omega)
    omega

theorem initDone_keep (lt w l : Nat) (hl1 : 1 ≤ l) (hc : ¬ (l - 1) % w = 0) :
    initDone lt w (l - 1) = initDone lt w l := by
  have h1 : l - 1 ≠ 0 := by
    intro h0; rw [h0] at hc; exact hc (Nat.zero_mod w)
  unfold initDone
  rw [if_neg (show ¬ l = 0 by omega), if_neg h1]
  have hd := div_pred w (l - 1) (by omega)
  rw [if_neg hc] at hd
  omega

theorem init_stacks_body_spec (E : Ext K G ls lt) (w l : Nat) (x : Loop K G ls lt)
    (hl1 : 1 ≤ l) (hl : l ≤ lt) (hI : InitInv w l x) :
    ∃ x', init_stacks_body E w l x = some x' ∧ InitInv w (l - 1) x'
      ∧ x'.1.s = x.1.s ∧ x'.1.current_tau = x.1.current_tau
      ∧ x'.1.config_sign = x.1.config_sign
      ∧ (x'.1.stackRightU.view, x'.2.1)
          = pushIf E.svd (decide ((l - 1) % w = 0))
              (x.1.stackRightU.view, E.mult_transB_from_left x.1.s x.2.1 l 1)
      ∧ (x'.1.stackRightD.view, x'.2.2)
          = pushIf E.svd (decide ((l - 1) % w = 0))
              (x.1.stackRightD.view, E.mult_transB_from_left x.1.s x.2.2 l (-1)) := by
  have hb := initDone_lt lt w l (by omega) hl1
  obtain ⟨s1, s2, s3, s4, c1, c2, c3, c4⟩ := hI
  by_cases hcond : (l - 1) % w = 0
  · have hd := initDone_push lt w l hl1 hl hcond
    obtain ⟨rU, hU, hUl, hUs⟩ := SvdStack.push_spec E.svd x.1.stackRightU
      (E.mult_transB_from_left x.1.s x.2.1 l 1) (by omega)
    obtain ⟨rD, hD, hDl, hDs⟩ := SvdStack.push_spec E.svd x.1.stackRightD
      (E.mult_transB_from_left x.1.s x.2.2 l (-1)) (by omega)
    refine ⟨({ x.1 with stackRightU := rU, stackRightD := rD }, 1, 1), ?_, ?_, rfl, rfl, rfl,
      ?_, ?_⟩
    · simp only [init_stacks_body, if_pos hcond, hU, hD]
    · refine ⟨s1, s2, ?_, ?_, c1, c2, ?_, ?_⟩
      · show rU.len = _
        omega
      · show rD.len = _
        omega
      · show _ ≤ rU.stack.length
        rw [hUs]; simpa using c3
      · show _ ≤ rD.stack.length
        rw [hDs]; simpa using c4
    · simp only [pushIf, decide_eq_true hcond, if_true]
      exact Prod.ext (SvdStack.push_view _ _ _ _ hU) rfl
    · simp only [pushIf, decide_eq_true hcond, if_true]
      exact Prod.ext (SvdStack.push_view _ _ _ _ hD) rfl
  · have hd := initDone_keep lt w l hl1 hcond
    refine ⟨(x.1, E.mult_transB_from_left x.1.s x.2.1 l 1,
      E.mult_transB_from_left x.1.s x.2.2 l (-1)), ?_, ?_, rfl, rfl, rfl, ?_, ?_⟩
    · simp only [init_stacks_body, if_neg hcond]
    · show Shape x.1 _ _ _
      rw [hd]; exact ⟨s1, s2, s3, s4, c1, c2, c3, c4⟩
    · simp [pushIf, hcond]
    · simp [pushIf, hcond]

theorem init_stacks_loop_spec (E : Ext K G ls lt) (h : Hubbard K G ls lt) (w : Nat)
    (hlt : 1 ≤ lt) (hS : Shape h (nlen lt w) 0 0) :
    ∃ x', forDown (init_stacks_body E w) lt (h, 1, 1) = some x' ∧ InitInv w 0 x'
      ∧ x'.1.s = h.s ∧ x'.1.current_tau = h.current_tau
      ∧ x'.1.config_sign = h.config_sign := by
  have hd1 : initDone lt w lt = 0 := by
    unfold initDone
    rw [if_neg (by omega)]
    exact Nat.sub_self _
  exact forDown_invariant (init_stacks_body E w)
    (fun l x => InitInv w l x ∧ x.1.s = h.s ∧ x.1.current_tau = h.current_tau
      ∧ x.1.config_sign = h.config_sign) lt
    (fun l x hl hI => by
      obtain ⟨x', e, hI', r1, r2, r3, _⟩ :=
        init_stacks_body_spec E w (l + 1) x (by omega) (by omega) hI.1
      exact ⟨x', e, hI', r1.trans hI.2.1, r2.trans hI.2.2.1, r3.trans hI.2.2.2⟩)
    (h, 1, 1) ⟨by show Shape h _ _ _; rw [hd1]; exact hS, rfl, rfl, rfl⟩

/-- The lines of `init_stacks` around its loop. -/
theorem init_stacks_finish (E : Ext K G ls lt) (h : Hubbard K G ls lt) (w : Nat)
    (hS : Shape h (nlen lt w) 0 0) (x : Loop K G ls lt)
    (hx : forDown (init_stacks_body E w) lt (h, 1, 1) = some x) :
    init_stacks E h w = some { x.1 with
      green_tt_up := E.compute_Green_eqtime x.1.stackLeftU x.1.stackRightU,
      green_tt_dn := E.compute_Green_eqtime x.1.stackLeftD x.1.stackRightD } := by
  obtain ⟨s1, s2, s3, s4, _⟩ := hS
  have hpre : h.stackLeftU.empty = true ∧ h.stackLeftD.empty = true
      ∧ h.stackRightU.empty = true ∧ h.stackRightD.empty = true := by
    simp [SvdStack.empty, s1, s2, s3, s4]
  obtain ⟨h1, tU, tD⟩ := x
  unfold init_stacks
  rw [if_pos hpre, hx]

theorem init_stacks_spec (E : Ext K G ls lt) (h : Hubbard K G ls lt) (w : Nat)
    (hlt : 1 ≤ lt) (hS : Shape h (nlen lt w) 0 0) :
    ∃ h', init_stacks E h w = some h' ∧ Shape h' (nlen lt w) 0 (nlen lt w)
      ∧ h'.s = h.s ∧ h'.current_tau = h.current_tau ∧ h'.config_sign = h.config_sign
      ∧ h'.green_tt_up = E.compute_Green_eqtime h'.stackLeftU h'.stackRightU
      ∧ h'.green_tt_dn = E.compute_Green_eqtime h'.stackLeftD h'.stackRightD := by
  obtain ⟨x, hx, hI, r1, r2, r3⟩ := init_stacks_loop_spec E h w hlt hS
  refine ⟨_, init_stacks_finish E h w hS x hx, ?_, r1, r2, r3, rfl, rfl⟩
  have : initDone lt w 0 = nlen lt w := by unfold initDone; rw [if_pos rfl]
  unfold InitInv at hI
  rw [this] at hI
  exact hI

theorem foldl_establishes {σ α : Type} (f : σ → α → σ) (Q : α → σ → Prop)
    (hset : ∀ x a, Q a (f x a)) (hkeep : ∀ x a b, Q a x → Q a (f x b)) :
    ∀ (l : List α) (x : σ) (a : α), a ∈ l → Q a (l.foldl f x) := by
  intro l
  induction l with
  | nil => intro x a ha; exact absurd ha (List.not_mem_nil a)
  | cons b l ih =>
    intro x a ha
    rcases List.mem_cons.mp ha with hab | hal
    · subst hab
      exact foldl_keeps f (Q a) (fun y c hy => hkeep y a c hy) l (f x a) (hset x a)
    · exact ih (f x b) a hal

theorem init_field_entry_keeps (E : Ext K G ls lt) (i a : Fin ls) (k b : Fin lt)
    (h : Hubbard K G ls lt) (hab : h.s a b = 1 ∨ h.s a b = -1) :
    (init_field_entry E i h k).s a b = 1 ∨ (init_field_entry E i h k).s a b = -1 := by
  simp only [init_field_entry, setEntry]
  split
  · split <;> simp
  · exact hab

theorem init_field_entry_sets (E : Ext K G ls lt) (i : Fin ls) (k : Fin lt)
    (h : Hubbard K G ls lt) :
    (init_field_entry E i h k).s i k = 1 ∨ (init_field_entry E i h k).s i k = -1 := by
  simp only [init_field_entry, setEntry, and_self, if_true]
  split <;> simp

theorem init_field_to_random_fieldOK (E : Ext K G ls lt) (h : Hubbard K G ls lt) :
    FieldOK (init_field_to_random E h).s := by
  intro i k
  have hrow : ∀ (j : Fin ls) (x : Hubbard K G ls lt) (a : Fin ls) (b : Fin lt),
      (x.s a b = 1 ∨ x.s a b = -1) →
      (((List.finRange lt).foldl (init_field_entry E j) x).s a b = 1
        ∨ ((List.finRange lt).foldl (init_field_entry E j) x).s a b = -1) := by
    intro j x a b hx
    exact foldl_keeps (init_field_entry E j) (fun y => y.s a b = 1 ∨ y.s a b = -1)
      (fun y c hy => init_field_entry_keeps E j a c b y hy) _ x hx
  have houter := foldl_establishes
    (fun (x : Hubbard K G ls lt) (j : Fin ls) => (List.finRange lt).foldl (init_field_entry E j) x)
    (fun j x => ∀ b, x.s j b = 1 ∨ x.s j b = -1)
    (fun x j b => foldl_establishes (init_field_entry E j)
      (fun c y => y.s j c = 1 ∨ y.s j c = -1)
      (fun y c => init_field_entry_sets E j c y)
      (fun y c d hy => init_field_entry_keeps E j j d c y hy)
      (List.finRange lt) x b (List.mem_finRange b))
    (fun x j j' hx b => hrow j' x j b (hx b))
    (List.finRange ls) h i (List.mem_finRange i)
  exact houter k

theorem init_field_to_random_frame (E : Ext K G ls lt) (h : Hubbard K G ls lt) :
    SameFrame h (init_field_to_random E h) ∧ (init_field_to_random E h).nwrap = h.nwrap := by
  have hin : ∀ (j : Fin ls) (x : Hubbard K G ls lt),
      (SameFrame h x ∧ x.nwrap = h.nwrap) →
      (SameFrame h ((List.finRange lt).foldl (init_field_entry E j) x)
        ∧ ((List.finRange lt).foldl (init_field_entry E j) x).nwrap = h.nwrap) := by
    intro j x hx
    exact foldl_keeps (init_field_entry E j) (fun y => SameFrame h y ∧ y.nwrap = h.nwrap)
      (fun y c hy => hy) _ x hx
  exact foldl_keeps
    (fun (x : Hubbard K G ls lt) (j : Fin ls) => (List.finRange lt).foldl (init_field_entry E j) x)
    (fun y => SameFrame h y ∧ y.nwrap = h.nwrap) (fun x j hx => hin j x hx)
    (List.finRange ls) h ⟨⟨rfl, rfl, rfl, rfl, rfl⟩, rfl⟩

theorem shape_new (h : Hubbard K G ls lt) (c : Nat) (hc : c ≤ lt)
    (h1 : h.stackLeftU = SvdStack.new ls lt) (h2 : h.stackLeftD = SvdStack.new ls lt)
    (h3 : h.stackRightU = SvdStack.new ls lt) (h4 : h.stackRightD = SvdStack.new ls lt) :
    Shape h c 0 0 := by
  unfold Shape
  rw [h1, h2, h3, h4]
  simp [SvdStack.new, hc]

/-- The constructor returns, and what it returns meets the entry assertions of
`sweep_0_to_beta`. -/
theorem create_spec (E : Ext K G ls lt) (beta Uint : K) (w : Nat) (gen : G) (hlt : 1 ≤ lt) :
    ∃ hpre h0 h', init_stacks E hpre w = some h0
      ∧ Shape hpre (nlen lt w) 0 0 ∧ hpre.current_tau = 0
      ∧ create E beta Uint w gen = some h'
      ∧ h' = { h0 with
          config_sign := if h0.green_tt_up.det * h0.green_tt_dn.det ≥ 0 then 1 else -1 }
      ∧ h'.current_tau = 0 ∧ Shape h' (nlen lt w) 0 (nlen lt w) ∧ FieldOK h'.s := by
  let hb : Hubbard K G ls lt :=
    { alpha := E.acosh (E.exp (1 / 2 * (beta / (lt : K)) * |Uint|)),
      u_is_attractive := decide (Uint < 0),
      nwrap := w,
      current_tau := 0,
      s := 0,
      green_tt_up := 0, green_tt_dn := 0, green_t0_up := 0, green_t0_dn := 0,
      green_0t_up := 0, green_0t_dn := 0,
      vec_green_tt_up := fun _ => 0, vec_green_tt_dn := fun _ => 0,
      vec_green_t0_up := fun _ => 0, vec_green_t0_dn := fun _ => 0,
      vec_green_0t_up := fun _ => 0, vec_green_0t_dn := fun _ => 0,
      stackLeftU := SvdStack.new ls lt, stackLeftD := SvdStack.new ls lt,
      stackRightU := SvdStack.new ls lt, stackRightD := SvdStack.new ls lt,
      config_sign := 0,
      max_wrap_error_equal := 0,
      max_wrap_error_displaced := 0,
      random_seed_generate := gen }
  obtain ⟨⟨f1, f2, f3, f4, f5⟩, fn⟩ := init_field_to_random_frame E hb
  have hS : Shape (init_field_to_random E hb) (nlen lt w) 0 0 :=
    shape_new _ _ (nlen_le lt w hlt) f2 f3 f4 f5
  obtain ⟨h0, e0, hS0, r1, r2, r3, _⟩ := init_stacks_spec E (init_field_to_random E hb) w hlt hS
  have hcr : create E beta Uint w gen = some { h0 with
      config_sign := if h0.green_tt_up.det * h0.green_tt_dn.det ≥ 0 then 1 else -1 } := by
    unfold create
    dsimp only
    have hn : (init_field_to_random E hb).nwrap = w := fn
    rw [hn, e0]
  refine ⟨init_field_to_random E hb, h0, _, e0, hS, f1, hcr, rfl, ?_, ?_, ?_⟩
  · show h0.current_tau = 0
    rw [r2]; exact f1
  · exact hS0
  · show FieldOK h0.s
    rw [r1]; exact init_field_to_random_fieldOK E hb

theorem rebuilds_step (E : Ext K G ls lt) (hE : AllRejected E) (w l : Nat)
    (x y x' y' : Loop K G ls lt) (hR : Rebuilds E w (l + 1) x y)
    (hx : init_stacks_body E w (l + 1) x = some x')
    (hy : sweep_beta_to_0_body E w (l + 1) y = some y') : Rebuilds E w l x' y' := by
  obtain ⟨hl, hIx, hIy, hs, hU, hD⟩ := hR
  obtain ⟨x2, ex, hIx', sx, _, _, pxU, pxD⟩ :=
    init_stacks_body_spec E w (l + 1) x (by omega) hl hIx
  obtain ⟨y2, ey, hIy', _, hrej⟩ := sweep_beta_to_0_body_spec E w (l + 1) y (by omega) hl hIy
  rw [ex] at hx
  rw [ey] at hy
  injection hx with hx
  injection hy with hy
  subst hx
  subst hy
  obtain ⟨sy, _, pyU, pyD⟩ := hrej hE
  have hdec : decide (l % w = 0 ∧ l ≠ lt) = decide ((l + 1 - 1) % w = 0) := by
    have hne : l ≠ lt := by omega
    simp [hne]
  refine ⟨by omega, hIx', hIy', ?_, ?_, ?_⟩
  · rw [sx, sy]; exact hs
  · rw [pxU, pyU, hdec, ← hU, hs]
  · rw [pxD, pyD, hdec, ← hD, hs]

theorem view_of_len_zero {n : Nat} (st : SvdStack K n) (h : st.len = 0) : st.view = [] := by
  simp [SvdStack.view, h]

/-- After `init_stacks`, a forward and a backward sweep in which every proposal
is rejected bring back the Green's functions that `init_stacks` computed; the
field and the sign stay as they were. `c` is the sign the constructor assigns
after `init_stacks`. -/
theorem pair_after_init (E : Ext K G ls lt) (h : Hubbard K G ls lt) (w : Nat) (c : K)
    (hlt : 1 ≤ lt) (hc : h.current_tau = 0) (hS : Shape h (nlen lt w) 0 0)
    (hE : AllRejected E) (hG : GreenReadsView E) :
    ∃ h0 h1 h2, init_stacks E h w = some h0
      ∧ sweep_0_to_beta E { h0 with config_sign := c } w = some h1
      ∧ sweep_beta_to_0 E h1 w = some h2
      ∧ h2.green_tt_up = h0.green_tt_up ∧ h2.green_tt_dn = h0.green_tt_dn
      ∧ h2.s = h0.s ∧ h2.config_sign = c := by
  obtain ⟨x0, hx0, hI0, r1, r2, r3⟩ := init_stacks_loop_spec E h w hlt hS
  have e0 := init_stacks_finish E h w hS x0 hx0
  have hI0' : Shape x0.1 (nlen lt w) 0 (nlen lt w) := by
    have : initDone lt w 0 = nlen lt w := by unfold initDone; rw [if_pos rfl]
    unfold InitInv at hI0
    rw [this] at hI0
    exact hI0
  obtain ⟨h1, e1, t1, S1, _, rej1⟩ := sweep_0_to_beta_spec E
    ({ x0.1 with
        green_tt_up := E.compute_Green_eqtime x0.1.stackLeftU x0.1.stackRightU,
        green_tt_dn := E.compute_Green_eqtime x0.1.stackLeftD x0.1.stackRightD,
        config_sign := c } : Hubbard K G ls lt) w hlt (r2.trans hc) hI0'
  obtain ⟨q1, q2⟩ := rej1 hE
  obtain ⟨y, hy, hIy, _, rej2⟩ := sweep_beta_to_0_loop_spec E h1 w hlt t1 S1
  obtain ⟨p1, p2⟩ := rej2 hE
  obtain ⟨h2, e2, _, S2, s2, g2, gu, gd, vu, vd⟩ :=
    sweep_beta_to_0_finish E h1 w hlt t1 S1 y hy hIy
  have hd1 : bwdDone lt w lt = 0 := by
    unfold bwdDone
    exact Nat.sub_eq_zero_of_le (Nat.div_le_div_right (by omega))
  have hd2 : initDone lt w lt = 0 := by
    unfold initDone
    rw [if_neg (by omega)]
    exact Nat.sub_self _
  have hstart : Rebuilds E w lt (h, 1, 1)
      (({ h1 with current_tau := h1.current_tau - 1 } : Hubbard K G ls lt), 1, 1) := by
    refine ⟨Nat.le_refl lt, ?_, ⟨?_, ?_⟩, ?_, ?_, ?_⟩
    · show Shape h _ _ _
      rw [hd2]; exact hS
    · show h1.current_tau - 1 = (lt : Int)
      rw [t1]; ring
    · show Shape h1 _ _ _
      rw [hd1]; exact S1
    · show h.s = h1.s
      rw [q1]; exact r1.symm
    · show (h.stackRightU.view, (1 : Mat K ls)) = pushIf E.svd _ (h1.stackRightU.view, 1)
      rw [view_of_len_zero _ hS.2.2.1, view_of_len_zero _ S1.2.2.1]
      simp [pushIf]
    · show (h.stackRightD.view, (1 : Mat K ls)) = pushIf E.svd _ (h1.stackRightD.view, 1)
      rw [view_of_len_zero _ hS.2.2.2.1, view_of_len_zero _ S1.2.2.2.1]
      simp [pushIf]
  obtain ⟨_, _, _, _, fU, fD⟩ := forDown_related (init_stacks_body E w)
    (sweep_beta_to_0_body E w) (Rebuilds E w)
    (fun l a b a' b' hR ha hb => rebuilds_step E hE w l a b a' b' hR ha hb)
    lt _ x0 _ y hstart hx0 hy
  have hcond : decide (0 % w = 0 ∧ 0 ≠ lt) = true := by
    have : 0 ≠ lt := by omega
    simp [this]
  rw [hcond] at fU fD
  simp only [pushIf, if_true] at fU fD
  have wU : h2.stackRightU.view = x0.1.stackRightU.view := by
    rw [vu]; exact (congrArg Prod.fst fU).symm
  have wD : h2.stackRightD.view = x0.1.stackRightD.view := by
    rw [vd]; exact (congrArg Prod.fst fD).symm
  have lU : h2.stackLeftU.view = x0.1.stackLeftU.view := by
    rw [view_of_len_zero _ S2.1, view_of_len_zero _ hI0'.1]
  have lD : h2.stackLeftD.view = x0.1.stackLeftD.view := by
    rw [view_of_len_zero _ S2.2.1, view_of_len_zero _ hI0'.2.1]
  refine ⟨_, h1, h2, e0, e1, e2, ?_, ?_, ?_, ?_⟩
  · rw [gu]; exact hG _ _ _ _ lU wU
  · rw [gd]; exact hG _ _ _ _ lD wD
  · rw [s2, p1]; exact q1
  · rw [g2, p2]; exact q2

end Hubbard

/-! ### The one-site instance meets the hypotheses -/

namespace Toy

theorem state_shape : Hubbard.Shape state (Hubbard.nlen 2 1) 0 (Hubbard.nlen 2 1) := by
  simp [Hubbard.Shape, Hubbard.nlen, state, SvdStack.new]

theorem state_fieldOK : Hubbard.FieldOK state.s := fun _ _ => Or.inl rfl

theorem never_rejects : Hubbard.AllRejected (ext never) := fun _ _ => rfl

theorem green_reads_view (draw : ℚ → List Bool → Bool × List Bool) :
    Hubbard.GreenReadsView (ext draw) := by
  intro L L' R R' hL hR
  simp only [ext, stackValue, hL, hR]

end Toy

/-! ### The claims on the sweep engine -/

namespace Hubbard

variable {K G : Type} [LinearOrderedField K] {ls lt : Nat}

/-- The value `metropolis_update(l)` returns when its assertions hold: the site
loop run over all sites at field slot `tau`, then the two snapshots. -/
theorem metropolis_update_eq (E : Ext K G ls lt) (h : Hubbard K G ls lt) (l : Nat)
    (hc : h.current_tau = (l : Int)) (hl : l ≤ lt) (hlt : 0 < lt) :
    ∃ tau : Fin lt, tau.val = (if l = 0 then lt - 1 else l - 1)
      ∧ metropolis_update E h l = some
        { (List.finRange ls).foldl (metropolis_site E tau) h with
          vec_green_tt_up := Function.update
            ((List.finRange ls).foldl (metropolis_site E tau) h).vec_green_tt_up tau
            ((List.finRange ls).foldl (metropolis_site E tau) h).green_tt_up,
          vec_green_tt_dn := Function.update
            ((List.finRange ls).foldl (metropolis_site E tau) h).vec_green_tt_dn tau
            ((List.finRange ls).foldl (metropolis_site E tau) h).green_tt_dn } := by
  have ht : (if l = 0 then lt - 1 else l - 1) < lt := by split <;> omega
  refine ⟨⟨_, ht⟩, rfl, ?_⟩
  simp only [metropolis_update, hc, hl, and_self, if_true, dif_pos ht]

theorem metropolis_site_sign (E : Ext K G ls lt) (tau : Fin lt) (g : Hubbard K G ls lt)
    (i : Fin ls) :
    (metropolis_site E tau g i).config_sign =
      if (E.bernoulli (min 1 |metropolis_p E g tau i|) g.random_seed_generate).1 then
        g.config_sign * (if metropolis_p E g tau i ≥ 0 then 1 else -1)
      else g.config_sign := by
  unfold metropolis_site
  dsimp only
  split
  · simp only [metropolis_accept]
    split <;> simp
  · rfl

theorem foldl_sign (E : Ext K G ls lt) (tau : Fin lt) :
    ∀ (sites : List (Fin ls)) (g : Hubbard K G ls lt),
      (sites.foldl (metropolis_site E tau) g).config_sign
        = g.config_sign * (signFactors E tau g sites).prod := by
  intro sites
  induction sites with
  | nil => intro g; simp [signFactors]
  | cons i rest ih =>
    intro g
    rw [List.foldl_cons, ih, metropolis_site_sign]
    simp only [signFactors, List.prod_cons]
    split <;> ring

theorem signFactors_unit (E : Ext K G ls lt) (tau : Fin lt) :
    ∀ (sites : List (Fin ls)) (g : Hubbard K G ls lt),
      (signFactors E tau g sites).prod = 1 ∨ (signFactors E tau g sites).prod = -1 := by
  intro sites
  induction sites with
  | nil => intro g; simp [signFactors]
  | cons i rest ih =>
    intro g
    simp only [signFactors, List.prod_cons]
    rcases ih (metropolis_site E tau g i) with h1 | h1 <;> rw [h1] <;>
      split <;> (try split) <;> simp

end Hubbard

open Hubbard in
/-- C1. Field domain invariant: `init_field_to_random` leaves every entry of the
field in `{+1, -1}`; from a state whose field is in `{+1, -1}`,
`metropolis_update(l)` for a slice `l ≤ lt` returns whenever its assertion
`current_tau == l` holds, and whenever it returns, whatever the outcomes of the
draws, the field it leaves is in `{+1, -1}`; and so do `sweep_0_to_beta` or
`sweep_0_to_beta_displaced` followed by `sweep_beta_to_0`, which for
`nwrap = w ≥ 1` return from a state that meets the entry assertions of the
forward sweep. -/
theorem field_domain_invariant {K G : Type} [LinearOrderedField K] {ls lt : Nat}
    (E : Ext K G ls lt) (h : Hubbard K G ls lt) (w l : Nat)
    (hlt : 1 ≤ lt) (_hw : 1 ≤ w) (hl : l ≤ lt) (hs : FieldOK h.s) :
    (∀ (h0 : Hubbard K G ls lt) (i : Fin ls) (k : Fin lt),
        (init_field_to_random E h0).s i k = 1 ∨ (init_field_to_random E h0).s i k = -1)
    ∧ (∀ h', metropolis_update E h l = some h' → ∀ i k, h'.s i k = 1 ∨ h'.s i k = -1)
    ∧ (h.current_tau = (l : Int) →
        ∃ h', metropolis_update E h l = some h' ∧ ∀ i k, h'.s i k = 1 ∨ h'.s i k = -1)
    ∧ (h.current_tau = 0 → Shape h (nlen lt w) 0 (nlen lt w) →
        (∃ h1 h2, sweep_0_to_beta E h w = some h1 ∧ FieldOK h1.s
          ∧ sweep_beta_to_0 E h1 w = some h2 ∧ FieldOK h2.s)
        ∧ (∃ h1 h2, sweep_0_to_beta_displaced E h w = some h1 ∧ FieldOK h1.s
          ∧ sweep_beta_to_0 E h1 w = some h2 ∧ FieldOK h2.s)) := by
  refine ⟨fun h0 => init_field_to_random_fieldOK E h0, ?_, ?_, ?_⟩
  · intro h' e
    obtain ⟨a1, a2, a3⟩ := metropolis_update_asserts E h h' l e
    obtain ⟨h2, e2, _, hf, _⟩ := metropolis_update_spec E h l a1 a2 a3
    rw [e2] at e
    injection e with e
    subst e
    exact hf hs
  · intro hc
    obtain ⟨h2, e2, _, hf, _⟩ := metropolis_update_spec E h l hc hl (by omega)
    exact ⟨h2, e2, hf hs⟩
  · intro hc hS
    constructor
    · obtain ⟨h1, e1, t1, S1, f1, _⟩ := sweep_0_to_beta_spec E h w hlt hc hS
      obtain ⟨h2, e2, _, _, f2, _⟩ := sweep_beta_to_0_spec E h1 w hlt t1 S1
      exact ⟨h1, h2, e1, f1 hs, e2, f2 (f1 hs)⟩
    · obtain ⟨h1, e1, t1, S1, fr⟩ := sweep_0_to_beta_displaced_spec E h w hlt hc hS
      have f1 : FieldOK h1.s := by rw [fr.1]; exact hs
      obtain ⟨h2, e2, _, _, f2, _⟩ := sweep_beta_to_0_spec E h1 w hlt t1 S1
      exact ⟨h1, h2, e1, f1, e2, f2 f1⟩

open Hubbard in
/-- The hypotheses of C1 hold on the one-site instance, at slice `0`, with
`nwrap = 1`. -/
theorem field_domain_invariant_witness :
    (1 ≤ 2 ∧ 1 ≤ 1 ∧ 0 ≤ 2 ∧ FieldOK Toy.state.s)
    ∧ (∃ h1 h2, sweep_0_to_beta (Toy.ext Toy.fromTape) Toy.state 1 = some h1 ∧ FieldOK h1.s
          ∧ sweep_beta_to_0 (Toy.ext Toy.fromTape) h1 1 = some h2 ∧ FieldOK h2.s) :=
  ⟨⟨by decide, by decide, by decide, Toy.state_fieldOK⟩,
    ((field_domain_invariant (Toy.ext Toy.fromTape) Toy.state 1 0 (by decide) (by decide)
      (by decide) Toy.state_fieldOK).2.2.2 rfl Toy.state_shape).1⟩

open Hubbard in
/-- C2. Sign tracking: the constructor (with `lt ≥ 1` and `nwrap = w ≥ 1`)
returns and sets `config_sign` to `+1` or `-1`; a
visit of one site multiplies `config_sign` by `sign(p)` (`+1` when `p ≥ 0`) when
the proposal is accepted and leaves it alone when it is rejected; so
`metropolis_update(l)` multiplies it by the product of the sign factors of its
sites, and a sign in `{+1, -1}` stays in `{+1, -1}`, never `0`. -/
theorem sign_tracking {K G : Type} [LinearOrderedField K] {ls lt : Nat}
    (E : Ext K G ls lt) (h : Hubbard K G ls lt) (l : Nat) (beta Uint : K) (w : Nat) (gen : G)
    (hlt : 1 ≤ lt) (_hw : 1 ≤ w) (hc : h.current_tau = (l : Int)) (hl : l ≤ lt) :
    (∃ h0, create E beta Uint w gen = some h0 ∧ (h0.config_sign = 1 ∨ h0.config_sign = -1))
    ∧ (∀ (tau : Fin lt) (g : Hubbard K G ls lt) (i : Fin ls),
        (metropolis_site E tau g i).config_sign =
          if (E.bernoulli (min 1 |metropolis_p E g tau i|) g.random_seed_generate).1 then
            g.config_sign * (if metropolis_p E g tau i ≥ 0 then 1 else -1)
          else g.config_sign)
    ∧ ∃ (tau : Fin lt) (h' : Hubbard K G ls lt),
        tau.val = (if l = 0 then lt - 1 else l - 1)
        ∧ metropolis_update E h l = some h'
        ∧ h'.config_sign = h.config_sign * (signFactors E tau h (List.finRange ls)).prod
        ∧ ((h.config_sign = 1 ∨ h.config_sign = -1) →
            (h'.config_sign = 1 ∨ h'.config_sign = -1) ∧ h'.config_sign ≠ 0) := by
  refine ⟨?_, fun tau g i => metropolis_site_sign E tau g i, ?_⟩
  · obtain ⟨_, h0, h', _, _, _, e, hh, _⟩ := create_spec E beta Uint w gen hlt
    refine ⟨h', e, ?_⟩
    rw [hh]
    dsimp only
    split <;> simp
  · obtain ⟨tau, htau, e⟩ := metropolis_update_eq E h l hc hl (by omega)
    refine ⟨tau, _, htau, e, foldl_sign E tau _ h, ?_⟩
    intro hsign
    have hprod := signFactors_unit E tau (List.finRange ls) h
    have hval : ∀ c p : K, (c = 1 ∨ c = -1) → (p = 1 ∨ p = -1) →
        (c * p = 1 ∨ c * p = -1) ∧ c * p ≠ 0 := by
      intro c p hc' hp
      rcases hc' with rfl | rfl <;> rcases hp with rfl | rfl <;> simp
    have := hval _ _ hsign hprod
    rw [← foldl_sign E tau _ h] at this
    exact this

open Hubbard in
/-- The hypotheses of C2 hold on the one-site instance, at slice `0`, with
`nwrap = 1`. -/
theorem sign_tracking_witness :
    (1 ≤ 2 ∧ 1 ≤ 1 ∧ Toy.state.current_tau = ((0 : Nat) : Int) ∧ 0 ≤ 2)
    ∧ ∃ h0, create (Toy.ext Toy.fromTape) 1 4 1 [true, false] = some h0
        ∧ (h0.config_sign = 1 ∨ h0.config_sign = -1) :=
  ⟨⟨by decide, by decide, rfl, by decide⟩,
    (sign_tracking (Toy.ext Toy.fromTape) Toy.state 0 1 4 1 [true, false] (by decide)
      (by decide) rfl (by decide)).1⟩

open Hubbard in
/-- C3. From a state with `current_tau = 0` that meets the entry assertions of
`sweep_0_to_beta` (left stacks empty, right stacks of depth `nlen`, room for
`nlen` decompositions in each stack), `sweep_0_to_beta(nwrap)` returns with
`current_tau = lt + 1` and the following `sweep_beta_to_0(nwrap)` returns with
`current_tau = 0`. Inside the sweeps, `xs k` is the loop state of the forward
sweep before slice `k + 1` and `ys l` that of the backward sweep before slice
`l`: at every slice the call of `metropolis_update` is made with
`current_tau` equal to the slice and returns, which it does only when its
assertion `current_tau == l` holds. -/
theorem current_tau_tracking {K G : Type} [LinearOrderedField K] {ls lt : Nat}
    (E : Ext K G ls lt) (h : Hubbard K G ls lt) (nwrap : Nat)
    (hlt : 1 ≤ lt) (_hw : 1 ≤ nwrap) (hc : h.current_tau = 0)
    (hS : Shape h (nlen lt nwrap) 0 (nlen lt nwrap)) :
    ∃ h1 h2, sweep_0_to_beta E h nwrap = some h1 ∧ h1.current_tau = (lt : Int) + 1
      ∧ sweep_beta_to_0 E h1 nwrap = some h2 ∧ h2.current_tau = 0
      ∧ (∃ xs : Nat → Loop K G ls lt,
          xs 0 = (({ h with current_tau := h.current_tau + 1 } : Hubbard K G ls lt), 1, 1)
          ∧ ∀ k, k < lt → ∃ g g',
              sweep_0_to_beta_body E nwrap (k + 1) (xs k) = some (xs (k + 1))
              ∧ wrap_north E (xs k).1 k = some g ∧ g.current_tau = ((k + 1 : Nat) : Int)
              ∧ metropolis_update E g (k + 1) = some g')
      ∧ (∃ ys : Nat → Loop K G ls lt,
          ys lt = (({ h1 with current_tau := h1.current_tau - 1 } : Hubbard K G ls lt), 1, 1)
          ∧ ∀ l, l < lt → ∃ y g',
              sweep_beta_to_0_body E nwrap (l + 1) (ys (l + 1)) = some (ys l)
              ∧ sweep_beta_to_0_guard E nwrap (l + 1) (ys (l + 1)) = some y
              ∧ y.1.current_tau = ((l + 1 : Nat) : Int)
              ∧ metropolis_update E y.1 (l + 1) = some g')
      ∧ (∀ (g g' : Hubbard K G ls lt) (l : Nat),
          metropolis_update E g l = some g' → g.current_tau = (l : Int)) := by
  obtain ⟨h1, e1, t1, S1, _⟩ := sweep_0_to_beta_spec E h nwrap hlt hc hS
  obtain ⟨h2, e2, t2, _⟩ := sweep_beta_to_0_spec E h1 nwrap hlt t1 S1
  obtain ⟨x', hx'⟩ := sweep_0_to_beta_loop_runs E h nwrap hlt hc hS
  obtain ⟨xs, x0, _, hxs⟩ := forUp_calls (sweep_0_to_beta_body E nwrap) lt 1 _ x' hx'
  obtain ⟨y', hy', _⟩ := sweep_beta_to_0_loop_spec E h1 nwrap hlt t1 S1
  obtain ⟨ys, yn, _, hys⟩ := forDown_calls (sweep_beta_to_0_body E nwrap) lt _ y' hy'
  refine ⟨h1, h2, e1, t1, e2, t2, ⟨xs, x0, ?_⟩, ⟨ys, yn, ?_⟩,
    fun g g' l e => (metropolis_update_asserts E g g' l e).1⟩
  · intro k hk
    have hb := hxs k hk
    rw [show 1 + k = k + 1 by omega] at hb
    obtain ⟨g, g', w1, w2, w3⟩ := sweep_0_to_beta_body_calls E nwrap (k + 1) _ _ hb
    exact ⟨g, g', hb, w1, w2, w3⟩
  · intro l hl
    have hb := hys l hl
    obtain ⟨y, g', w1, w2, w3⟩ := sweep_beta_to_0_body_calls E nwrap (l + 1) _ _ hb
    exact ⟨y, g', hb, w1, w2, w3⟩

open Hubbard in
/-- The hypotheses of C3 hold on the one-site instance with `nwrap = 1`. -/
theorem current_tau_tracking_witness :
    (1 ≤ 2 ∧ 1 ≤ 1 ∧ Toy.state.current_tau = 0
      ∧ Shape Toy.state (nlen 2 1) 0 (nlen 2 1))
    ∧ ∃ h1 h2, sweep_0_to_beta (Toy.ext Toy.fromTape) Toy.state 1 = some h1
        ∧ h1.current_tau = ((2 : Nat) : Int) + 1
        ∧ sweep_beta_to_0 (Toy.ext Toy.fromTape) h1 1 = some h2 ∧ h2.current_tau = 0 := by
  refine ⟨⟨by decide, by decide, rfl, Toy.state_shape⟩, ?_⟩
  obtain ⟨h1, h2, e1, t1, e2, t2, _⟩ := current_tau_tracking (Toy.ext Toy.fromTape) Toy.state 1
    (by decide) (by decide) rfl Toy.state_shape
  exact ⟨h1, h2, e1, t1, e2, t2⟩

namespace Hubbard

variable {K G : Type} [LinearOrderedField K] {ls lt : Nat}

theorem visited_succ (E : Ext K G ls lt) (tau : Fin lt) (h : Hubbard K G ls lt) (k : Nat)
    (hk : k < ls) :
    visited E tau h (k + 1) = metropolis_site E tau (visited E tau h k) ⟨k, hk⟩ := by
  unfold visited
  rw [List.take_succ, List.foldl_append]
  have : (List.finRange ls)[k]? = some ⟨k, hk⟩ := by
    rw [List.getElem?_eq_getElem (by simpa using hk)]
    simp
  rw [this]
  rfl

theorem visited_all (E : Ext K G ls lt) (tau : Fin lt) (h : Hubbard K G ls lt) :
    visited E tau h ls = (List.finRange ls).foldl (metropolis_site E tau) h := by
  unfold visited
  rw [List.take_of_length_le (by simp)]

end Hubbard

open Hubbard in
/-- C5. In `metropolis_update(l)` the field slot is `tau = lt-1` for `l = 0` and
`l-1` otherwise; at site `i` the acceptance number `p` is the stated product,
repulsive or attractive, read on the Green's functions and the field as they
stand when site `i` is visited (sites `0 .. i-1` updated); the proposal is drawn
as a Bernoulli variable of parameter `min(1, |p|)`, the accepted branch is taken
exactly when the draw is true, and the call returns the state after the last
site with the two snapshots taken. -/
theorem acceptance_number {K G : Type} [LinearOrderedField K] {ls lt : Nat}
    (E : Ext K G ls lt) (h : Hubbard K G ls lt) (l : Nat)
    (hlt : 1 ≤ lt) (hc : h.current_tau = (l : Int)) (hl : l ≤ lt) :
    ∃ tau : Fin lt, tau.val = (if l = 0 then lt - 1 else l - 1)
      ∧ (∀ (g : Hubbard K G ls lt) (i : Fin ls),
          metropolis_p E g tau i =
            if g.u_is_attractive = true then
              E.exp (2 * g.alpha * g.s i tau)
                * (1 + (1 - g.green_tt_up i i) * (E.exp (-2 * g.alpha * g.s i tau) - 1))
                * (1 + (1 - g.green_tt_dn i i) * (E.exp (-2 * g.alpha * g.s i tau) - 1))
            else
              (1 + (1 - g.green_tt_up i i) * (E.exp (-2 * g.alpha * g.s i tau) - 1))
                * (1 + (1 - g.green_tt_dn i i) * (E.exp (2 * g.alpha * g.s i tau) - 1)))
      ∧ (∀ (k : Nat) (hk : k < ls),
          visited E tau h (k + 1) =
            if (E.bernoulli (min 1 |metropolis_p E (visited E tau h k) tau ⟨k, hk⟩|)
                (visited E tau h k).random_seed_generate).1 = true then
              metropolis_accept E tau ⟨k, hk⟩ (metropolis_p E (visited E tau h k) tau ⟨k, hk⟩)
                { visited E tau h k with random_seed_generate :=
                    (E.bernoulli (min 1 |metropolis_p E (visited E tau h k) tau ⟨k, hk⟩|)
                      (visited E tau h k).random_seed_generate).2 }
            else
              { visited E tau h k with random_seed_generate :=
                  (E.bernoulli (min 1 |metropolis_p E (visited E tau h k) tau ⟨k, hk⟩|)
                    (visited E tau h k).random_seed_generate).2 })
      ∧ visited E tau h 0 = h
      ∧ metropolis_update E h l = some
          { visited E tau h ls with
            vec_green_tt_up := Function.update (visited E tau h ls).vec_green_tt_up tau
              (visited E tau h ls).green_tt_up,
            vec_green_tt_dn := Function.update (visited E tau h ls).vec_green_tt_dn tau
              (visited E tau h ls).green_tt_dn } := by
  obtain ⟨tau, htau, e⟩ := metropolis_update_eq E h l hc hl (by omega)
  refine ⟨tau, htau, ?_, ?_, rfl, ?_⟩
  · intro g i
    unfold metropolis_p
    cases g.u_is_attractive <;> simp
  · intro k hk
    rw [visited_succ E tau h k hk]
    rfl
  · rw [visited_all]
    exact e

open Hubbard in
/-- The hypotheses of C5 hold on the one-site instance, at slice `0`. -/
theorem acceptance_number_witness :
    (1 ≤ 2 ∧ Toy.state.current_tau = ((0 : Nat) : Int) ∧ 0 ≤ 2)
    ∧ ∃ tau : Fin 2, tau.val = (if 0 = 0 then 2 - 1 else 0 - 1)
        ∧ metropolis_update (Toy.ext Toy.fromTape) Toy.state 0 = some
          { visited (Toy.ext Toy.fromTape) tau Toy.state 1 with
            vec_green_tt_up := Function.update
              (visited (Toy.ext Toy.fromTape) tau Toy.state 1).vec_green_tt_up tau
              (visited (Toy.ext Toy.fromTape) tau Toy.state 1).green_tt_up,
            vec_green_tt_dn := Function.update
              (visited (Toy.ext Toy.fromTape) tau Toy.state 1).vec_green_tt_dn tau
              (visited (Toy.ext Toy.fromTape) tau Toy.state 1).green_tt_dn } := by
  refine ⟨⟨by decide, rfl, by decide⟩, ?_⟩
  obtain ⟨tau, h1, _, _, _, h5⟩ :=
    acceptance_number (Toy.ext Toy.fromTape) Toy.state 0 (by decide) rfl (by decide)
  exact ⟨tau, h1, h5⟩

/-- C6, refuted as stated: with `U < 0`, `alpha = 1`, `s(i,tau) = 1`,
`Gup(i,i) = 0` and `Gdn(i,i) = 1`, the spin-down factor of the code is the
spin-up factor `1 - e^2`, not the stated `(e^{-2} - 1) / (1 + (1 - Gdn(i,i)) (e^{-2} - 1))`,
which is `e^{-2} - 1`. -/
theorem factorD_attractive_reads_gup :
    Hubbard.factorD Real.exp true 1 1 1 (Hubbard.factorU Real.exp 1 0 1)
      ≠ (Real.exp (-2 * 1 * 1) - 1) / (1 + (1 - 1) * (Real.exp (-2 * 1 * 1) - 1)) := by
  have h1 : Hubbard.factorD Real.exp true 1 1 1 (Hubbard.factorU Real.exp 1 0 1)
      = (Real.exp (-2) - 1) / Real.exp (-2) := by
    simp [Hubbard.factorD, Hubbard.factorU]
  have h2 : (Real.exp (-2 * 1 * 1) - 1) / (1 + (1 - 1) * (Real.exp (-2 * 1 * 1) - 1))
      = Real.exp (-2) - 1 := by
    norm_num
  rw [h1, h2]
  have hpos : 0 < Real.exp (-2) := Real.exp_pos _
  have hlt1 : Real.exp (-2) < 1 := by
    have := Real.exp_lt_exp.mpr (show (-2 : ℝ) < 0 by norm_num)
    rw [Real.exp_zero] at this
    exact this
  intro heq
  rw [div_eq_iff (ne_of_gt hpos)] at heq
  nlinarith

open Hubbard in
/-- C6, amended. On an accepted flip at site `i` the spin-up factor is
`(e^{-2 alpha s} - 1) / (1 + (1 - Gup(i,i)) (e^{-2 alpha s} - 1))`; the spin-down
factor is `(e^{+2 alpha s} - 1) / (1 + (1 - Gdn(i,i)) (e^{+2 alpha s} - 1))` when
`U ≥ 0`, and when `U < 0` it is the spin-up factor, computed from `Gup(i,i)`; in a
state where `Gup(i,i) = Gdn(i,i)` this is the stated formula on `Gdn(i,i)` with
`Delta_dn = -2`. -/
theorem accepted_flip_factors {K G : Type} [LinearOrderedField K] {ls lt : Nat}
    (E : Ext K G ls lt) (tau : Fin lt) (i : Fin ls) (p : K) (h : Hubbard K G ls lt) :
    (metropolis_accept E tau i p h).green_tt_up =
        rank_one_update h.green_tt_up
          ((E.exp (-2 * h.alpha * h.s i tau) - 1)
            / (1 + (1 - h.green_tt_up i i) * (E.exp (-2 * h.alpha * h.s i tau) - 1))) i
    ∧ (metropolis_accept E tau i p h).green_tt_dn =
        rank_one_update h.green_tt_dn
          (if h.u_is_attractive = true then
            (E.exp (-2 * h.alpha * h.s i tau) - 1)
              / (1 + (1 - h.green_tt_up i i) * (E.exp (-2 * h.alpha * h.s i tau) - 1))
          else
            (E.exp (2 * h.alpha * h.s i tau) - 1)
              / (1 + (1 - h.green_tt_dn i i) * (E.exp (2 * h.alpha * h.s i tau) - 1))) i
    ∧ (h.green_tt_up i i = h.green_tt_dn i i →
        (metropolis_accept E tau i p h).green_tt_dn =
          rank_one_update h.green_tt_dn
            ((E.exp ((if h.u_is_attractive = true then -2 else 2) * h.alpha * h.s i tau) - 1)
              / (1 + (1 - h.green_tt_dn i i)
                  * (E.exp ((if h.u_is_attractive = true then -2 else 2) * h.alpha * h.s i tau)
                      - 1))) i) := by
  refine ⟨rfl, ?_, ?_⟩
  · simp only [metropolis_accept, factorD, factorU]
    cases h.u_is_attractive <;> simp
  · intro hdiag
    simp only [metropolis_accept, factorD, factorU, hdiag]
    cases h.u_is_attractive <;> simp

open Hubbard in
/-- The hypothesis of the amended C6 holds on the one-site instance, where both
diagonal elements are `1/2`. -/
theorem accepted_flip_factors_witness :
    Toy.state.green_tt_up 0 0 = Toy.state.green_tt_dn 0 0
    ∧ (metropolis_accept (Toy.ext Toy.fromTape) 1 0 1 Toy.state).green_tt_dn =
        rank_one_update Toy.state.green_tt_dn
          (((Toy.ext Toy.fromTape).exp
              ((if Toy.state.u_is_attractive = true then -2 else 2)
                * Toy.state.alpha * Toy.state.s 0 1) - 1)
            / (1 + (1 - Toy.state.green_tt_dn 0 0)
                * ((Toy.ext Toy.fromTape).exp
                    ((if Toy.state.u_is_attractive = true then -2 else 2)
                      * Toy.state.alpha * Toy.state.s 0 1) - 1))) 0 :=
  ⟨rfl, (accepted_flip_factors (Toy.ext Toy.fromTape) 1 0 1 Toy.state).2.2 rfl⟩

open Hubbard in
/-- C7. Idempotence of the sweep pair, for `lt ≥ 1` and `nwrap ≥ 1`. The
constructor draws the field with any Bernoulli draw `draw0` from any generator
state, so that `h0` is any state the constructor can produce; the two sweeps are
run with draws that reject every Metropolis proposal, the other collaborators
being those of the constructor, and the Green builder reads a stack through its
decompositions in use. Then `sweep_0_to_beta(nwrap)` followed by
`sweep_beta_to_0(nwrap)` returns, with `green_tt_up` and `green_tt_dn` equal to
their values before the pair and `s` and `config_sign` unchanged. -/
theorem sweep_pair_idempotent {K G : Type} [LinearOrderedField K] {ls lt : Nat}
    (E : Ext K G ls lt) (draw0 : K → G → Bool × G) (beta Uint : K) (nwrap : Nat) (gen : G)
    (hlt : 1 ≤ lt) (_hw : 1 ≤ nwrap) (hE : AllRejected E) (hG : GreenReadsView E) :
    ∃ h0 h1 h2, create { E with bernoulli := draw0 } beta Uint nwrap gen = some h0
      ∧ sweep_0_to_beta E h0 nwrap = some h1
      ∧ sweep_beta_to_0 E h1 nwrap = some h2
      ∧ h2.green_tt_up = h0.green_tt_up ∧ h2.green_tt_dn = h0.green_tt_dn
      ∧ h2.s = h0.s ∧ h2.config_sign = h0.config_sign := by
  obtain ⟨hpre, g0, h', e0, hS, hc, ecr, hh, _⟩ :=
    create_spec { E with bernoulli := draw0 } beta Uint nwrap gen hlt
  have e0' : init_stacks E hpre nwrap = some g0 := e0
  obtain ⟨a0, h1, h2, ea, e1, e2, gu, gd, hs, hg⟩ := pair_after_init E hpre nwrap
    (if g0.green_tt_up.det * g0.green_tt_dn.det ≥ 0 then 1 else -1) hlt hc hS hE hG
  rw [e0'] at ea
  injection ea with ea
  subst ea
  subst hh
  exact ⟨_, h1, h2, ecr, e1, e2, gu, gd, hs, hg⟩

open Hubbard in
/-- The hypotheses of C7 hold on the one-site instance: the constructor draws
the field from the tape `[true, false]`, the sweeps run with the draw that
rejects every proposal. -/
theorem sweep_pair_idempotent_witness :
    (1 ≤ 2 ∧ 1 ≤ 1 ∧ AllRejected (Toy.ext Toy.never) ∧ GreenReadsView (Toy.ext Toy.never))
    ∧ ∃ h0 h1 h2,
      create { Toy.ext Toy.never with bernoulli := Toy.fromTape } 1 4 1 [true, false] = some h0
      ∧ sweep_0_to_beta (Toy.ext Toy.never) h0 1 = some h1
      ∧ sweep_beta_to_0 (Toy.ext Toy.never) h1 1 = some h2
      ∧ h2.green_tt_up = h0.green_tt_up ∧ h2.green_tt_dn = h0.green_tt_dn
      ∧ h2.s = h0.s ∧ h2.config_sign = h0.config_sign :=
  ⟨⟨by decide, by decide, Toy.never_rejects, Toy.green_reads_view Toy.never⟩,
    sweep_pair_idempotent (Toy.ext Toy.never) Toy.fromTape 1 4 1 [true, false] (by decide)
      (by decide) Toy.never_rejects (Toy.green_reads_view Toy.never)⟩

open Hubbard in
/-- C8. From a state that meets its entry assertions,
`sweep_0_to_beta_displaced(nwrap)` returns and leaves the auxiliary field as it
was at every `(i, l)`, as well as `green_tt_up`, `green_tt_dn`, the `vec_green_tt`
snapshots and `config_sign`; the remaining members it leaves alone are
`max_wrap_error_equal`, the generator and the model constants, so nothing but
the displaced Green's functions, their snapshots, the four stacks, `current_tau`
and `max_wrap_error_displaced` can differ. -/
theorem displaced_sweep_frame {K G : Type} [LinearOrderedField K] {ls lt : Nat}
    (E : Ext K G ls lt) (h : Hubbard K G ls lt) (nwrap : Nat)
    (hlt : 1 ≤ lt) (_hw : 1 ≤ nwrap) (hc : h.current_tau = 0)
    (hS : Shape h (nlen lt nwrap) 0 (nlen lt nwrap)) :
    ∃ h', sweep_0_to_beta_displaced E h nwrap = some h'
      ∧ (∀ i l, h'.s i l = h.s i l)
      ∧ h'.green_tt_up = h.green_tt_up ∧ h'.green_tt_dn = h.green_tt_dn
      ∧ h'.vec_green_tt_up = h.vec_green_tt_up ∧ h'.vec_green_tt_dn = h.vec_green_tt_dn
      ∧ h'.config_sign = h.config_sign
      ∧ h'.max_wrap_error_equal = h.max_wrap_error_equal
      ∧ h'.random_seed_generate = h.random_seed_generate
      ∧ h'.alpha = h.alpha ∧ h'.u_is_attractive = h.u_is_attractive ∧ h'.nwrap = h.nwrap := by
  obtain ⟨h', e, _, _, f1, f2, f3, f4, f5, f6, f7, f8, f9, f10, f11⟩ :=
    sweep_0_to_beta_displaced_spec E h nwrap hlt hc hS
  exact ⟨h', e, fun i l => by rw [f1], f2, f3, f4, f5, f6, f7, f8, f9, f10, f11⟩

open Hubbard in
/-- The hypotheses of C8 hold on the one-site instance with `nwrap = 1`. -/
theorem displaced_sweep_frame_witness :
    (1 ≤ 2 ∧ 1 ≤ 1 ∧ Toy.state.current_tau = 0 ∧ Shape Toy.state (nlen 2 1) 0 (nlen 2 1))
    ∧ ∃ h', sweep_0_to_beta_displaced (Toy.ext Toy.fromTape) Toy.state 1 = some h'
      ∧ (∀ i l, h'.s i l = Toy.state.s i l) := by
  refine ⟨⟨by decide, by decide, rfl, Toy.state_shape⟩, ?_⟩
  obtain ⟨h', e, hs, _⟩ := displaced_sweep_frame (Toy.ext Toy.fromTape) Toy.state 1
    (by decide) (by decide) rfl Toy.state_shape
  exact ⟨h', e, hs⟩

/-! ### The claim on `SvdStack` -/

namespace SvdStack

variable {K : Type} [CommRing K] {n : Nat}

theorem matrixV_loop_eq (st : SvdStack K n) :
    ∀ (cnt i : Nat) (r : Mat K n), i + cnt ≤ st.stack.length →
      matrixV_loop st cnt i r
        = some (r * (((st.stack.drop i).take cnt).map SVD.matrixV).prod) := by
  intro cnt
  induction cnt with
  | zero => intro i r _; simp [matrixV_loop]
  | succ cnt ih =>
    intro i r hi
    have hlt : i < st.stack.length := by omega
    rw [matrixV_loop, List.getElem?_eq_getElem hlt]
    dsimp only
    rw [ih (i + 1) _ (by omega), List.drop_eq_getElem_cons hlt, List.take_succ_cons,
      List.map_cons, List.prod_cons, Matrix.mul_assoc]

theorem matrixV_eq (st : SvdStack K n) (h0 : 0 < st.len) (hl : st.len ≤ st.stack.length) :
    st.matrixV = some (Vprod st.view) := by
  have hlt : 0 < st.stack.length := by omega
  unfold matrixV
  rw [if_pos h0, List.getElem?_eq_getElem hlt]
  dsimp only
  rw [matrixV_loop_eq st _ _ _ (by omega)]
  congr 1
  unfold Vprod view
  obtain ⟨k, hk⟩ : ∃ k, st.len = k + 1 := ⟨st.len - 1, by omega⟩
  rw [hk]
  have key : ∀ (l : List (SVD K n)) (h : 0 < l.length),
      l[0].matrixV * (List.map SVD.matrixV (List.take (k + 1 - 1) (List.drop 1 l))).prod
        = (List.map SVD.matrixV (List.take (k + 1) l)).prod := by
    intro l h
    cases l with
    | nil => simp at h
    | cons d tl => simp
  exact key _ hlt

theorem top_eq (st : SvdStack K n) (h0 : 0 < st.len) (hl : st.len ≤ st.stack.length) :
    ∃ d, st.view.getLast? = some d ∧ st.matrixU = some d.matrixU
      ∧ st.singularValues = some d.singularValues := by
  have hlt : st.len - 1 < st.stack.length := by omega
  refine ⟨st.stack[st.len - 1], ?_, ?_, ?_⟩
  · rw [List.getLast?_eq_getElem?]
    simp only [view, List.length_take, Nat.min_eq_left hl]
    rw [List.getElem?_take_of_lt (by omega)]
    exact List.getElem?_eq_getElem hlt
  · simp [matrixU, h0, List.getElem?_eq_getElem hlt]
  · simp [singularValues, h0, List.getElem?_eq_getElem hlt]

theorem stands_first (svd : Mat K n → SVD K n)
    (hsvd : ∀ A, (svd A).matrixU * Matrix.diagonal (svd A).singularValues
      * (svd A).matrixV.transpose = A) (A : Mat K n) :
    Stands ([] ++ [nextSVD svd [] A]) A := by
  refine ⟨svd A, by simp [nextSVD], ?_⟩
  simp [Vprod, nextSVD, hsvd]

theorem stands_push (svd : Mat K n → SVD K n)
    (hsvd : ∀ A, (svd A).matrixU * Matrix.diagonal (svd A).singularValues
      * (svd A).matrixV.transpose = A) (v : List (SVD K n)) (P A : Mat K n)
    (hv : Stands v P) : Stands (v ++ [nextSVD svd v A]) (A * P) := by
  obtain ⟨d, hd, hP⟩ := hv
  refine ⟨nextSVD svd v A, by simp, ?_⟩
  have hnext : nextSVD svd v A = svd ((A * d.matrixU) * Matrix.diagonal d.singularValues) := by
    simp [nextSVD, hd]
  rw [hnext]
  have hV : Vprod (v ++ [svd ((A * d.matrixU) * Matrix.diagonal d.singularValues)])
      = Vprod v * (svd ((A * d.matrixU) * Matrix.diagonal d.singularValues)).matrixV := by
    simp [Vprod]
  rw [hV, Matrix.transpose_mul, ← Matrix.mul_assoc, hsvd, ← hP]
  simp only [Matrix.mul_assoc]

theorem pushAll_stands (svd : Mat K n → SVD K n)
    (hsvd : ∀ A, (svd A).matrixU * Matrix.diagonal (svd A).singularValues
      * (svd A).matrixV.transpose = A) :
    ∀ (As : List (Mat K n)) (st : SvdStack K n) (P : Mat K n),
      st.len + As.length ≤ st.stack.length → Stands st.view P →
      ∃ st', pushAll svd st As = some st' ∧ st'.len = st.len + As.length
        ∧ st'.stack.length = st.stack.length ∧ Stands st'.view (As.reverse.prod * P) := by
  intro As
  induction As with
  | nil => intro st P _ hv; exact ⟨st, rfl, rfl, rfl, by simpa using hv⟩
  | cons A rest ih =>
    intro st P hcap hv
    simp only [List.length_cons] at hcap
    obtain ⟨st1, e1, l1, s1⟩ := push_spec svd st A (by omega)
    have v1 := push_view svd st st1 A e1
    have hlen : st1.stack.length = st.stack.length := by rw [s1]; simp
    obtain ⟨st', e', l', s', hv'⟩ := ih st1 (A * P) (by rw [hlen, l1]; omega)
      (by rw [v1]; exact stands_push svd hsvd _ P A hv)
    refine ⟨st', ?_, ?_, ?_, ?_⟩
    · simp only [pushAll, e1]; exact e'
    · rw [l', l1]; simp only [List.length_cons]; omega
    · rw [s', hlen]
    · rw [List.reverse_cons, List.prod_append, List.prod_singleton, Matrix.mul_assoc]
      exact hv'

end SvdStack

/-- C4. UDV product representation, in exact arithmetic with `svd(A)` returning
`(U, Σ, V)` such that `U * diag(Σ) * Vᵀ = A`: after the matrices `A_0, …, A_k`
of a non-empty list have been pushed in this order onto an empty `SvdStack`
with room for them, `matrixU() * diag(singularValues()) * matrixV()ᵀ` is
`A_k * … * A_1 * A_0`. -/
theorem udv_product {K : Type} [CommRing K] {n : Nat} (svd : Mat K n → SVD K n)
    (hsvd : ∀ A, (svd A).matrixU * Matrix.diagonal (svd A).singularValues
      * (svd A).matrixV.transpose = A)
    (st0 : SvdStack K n) (As : List (Mat K n)) (hempty : st0.empty = true) (hne : As ≠ [])
    (hcap : As.length ≤ st0.stack.length) :
    ∃ st U S V, SvdStack.pushAll svd st0 As = some st
      ∧ st.matrixU = some U ∧ st.singularValues = some S ∧ st.matrixV = some V
      ∧ U * Matrix.diagonal S * V.transpose = As.reverse.prod := by
  obtain ⟨A, rest, rfl⟩ : ∃ A rest, As = A :: rest := by
    cases As with
    | nil => exact absurd rfl hne
    | cons A rest => exact ⟨A, rest, rfl⟩
  simp only [List.length_cons] at hcap
  have h0 : st0.len = 0 := by simpa [SvdStack.empty] using hempty
  obtain ⟨st1, e1, l1, s1⟩ := SvdStack.push_spec svd st0 A (by omega)
  have v1 := SvdStack.push_view svd _ st1 A e1
  have hlen : st1.stack.length = st0.stack.length := by rw [s1]; simp
  have hl1 : st1.len = 1 := by rw [l1, h0]
  have hview0 : st0.view = [] := by simp [SvdStack.view, h0]
  rw [hview0] at v1
  obtain ⟨st, e, l, sl, d, hd, hP⟩ := SvdStack.pushAll_stands svd hsvd rest st1 A
    (by rw [hlen, hl1]; omega) (by rw [v1]; exact SvdStack.stands_first svd hsvd A)
  have hpos : 0 < st.len := by rw [l, hl1]; omega
  have hle : st.len ≤ st.stack.length := by rw [l, sl, hlen, hl1]; omega
  obtain ⟨d', hd', hU, hS⟩ := SvdStack.top_eq st hpos hle
  rw [hd] at hd'
  injection hd' with hd'
  subst hd'
  refine ⟨st, d.matrixU, d.singularValues, SvdStack.Vprod st.view, ?_, hU, hS,
    SvdStack.matrixV_eq st hpos hle, ?_⟩
  · simp only [SvdStack.pushAll, e1]; exact e
  · rw [hP, List.reverse_cons, List.prod_append, List.prod_singleton]

/-- The hypotheses of C4 hold for three 2-by-2 matrices and the decomposition
`A = A * diag(1, 1) * 1ᵀ`. -/
theorem udv_product_witness :
    ((SvdStack.new 2 3 : SvdStack ℚ 2).empty = true
      ∧ [!![1, 2; 3, 4], !![0, 1; 1, 0], !![2, 0; 0, 5]] ≠ ([] : List (Mat ℚ 2)))
    ∧ ∃ st U S V,
        SvdStack.pushAll (fun A : Mat ℚ 2 => (⟨A, fun _ => 1, 1⟩ : SVD ℚ 2)) (SvdStack.new 2 3)
          [!![1, 2; 3, 4], !![0, 1; 1, 0], !![2, 0; 0, 5]] = some st
        ∧ st.matrixU = some U ∧ st.singularValues = some S ∧ st.matrixV = some V
        ∧ U * Matrix.diagonal S * V.transpose
          = ([!![1, 2; 3, 4], !![0, 1; 1, 0], !![2, 0; 0, 5]] : List (Mat ℚ 2)).reverse.prod :=
  ⟨⟨rfl, by simp⟩,
    udv_product (fun A : Mat ℚ 2 => (⟨A, fun _ => 1, 1⟩ : SVD ℚ 2))
      (fun A => by simp [Matrix.diagonal_one]) (SvdStack.new 2 3) _ rfl (by simp)
      (by simp [SvdStack.new])⟩

/-! ### The claims on the equal-time measurements -/

namespace eqtimeMeasure

variable {K : Type} [Field K]

theorem analyse_sums (x : Nat → K) : ∀ n : Nat,
    (List.range n).foldl (fun (a : K × K) bin => (a.1 + x bin, a.2 + x bin ^ 2)) (0, 0)
      = (∑ k in Finset.range n, x k, ∑ k in Finset.range n, x k ^ 2) := by
  intro n
  induction n with
  | zero => simp
  | succ n ih =>
    rw [List.range_succ, List.foldl_append, ih]
    simp [Finset.sum_range_succ]

end eqtimeMeasure

namespace eqtimeMeasure

theorem wrapInt_of_fits (x : Int) (h0 : 0 ≤ x) (h1 : x < 2147483648) : wrapInt x = x := by
  unfold wrapInt
  rw [Int.emod_eq_of_lt (by omega) (by omega)]
  omega

/-- In the range where no product of `normalizeStats` leaves the `int`s, for
`n_equal_time > 0` and a non-zero accumulated sign, every divisor is the stated
prefactor: with `average_sign = AverageSign / n_equal_time`, `DoubleOccu` and
`KineticEnergy` are divided by `ls * lt * n_equal_time * average_sign`,
`MomentumDist` and `localSpinCorr` by `lt * n_equal_time * average_sign`,
`StructFactor` by `ls^2 * lt * n_equal_time * average_sign`, and `AverageSign`
becomes `average_sign`. -/
theorem normalizeStats_prefactors {K : Type} [Field K] (ls lt : Nat) (m : eqtimeMeasure K)
    (hn : 0 < m.n_equal_time) (_hsign : m.AverageSign ≠ 0) (hls : 1 ≤ ls) (hlt : 1 ≤ lt)
    (hfit : (ls : Int) * ls * lt * m.n_equal_time < 2147483648) :
    (normalizeStats ls lt m).AverageSign = m.AverageSign / (m.n_equal_time : K)
    ∧ (normalizeStats ls lt m).DoubleOccu
        = m.DoubleOccu / ((ls : K) * (lt : K) * (m.n_equal_time : K)
            * (m.AverageSign / (m.n_equal_time : K)))
    ∧ (normalizeStats ls lt m).KineticEnergy
        = m.KineticEnergy / ((ls : K) * (lt : K) * (m.n_equal_time : K)
            * (m.AverageSign / (m.n_equal_time : K)))
    ∧ (normalizeStats ls lt m).MomentumDist
        = m.MomentumDist / ((lt : K) * (m.n_equal_time : K)
            * (m.AverageSign / (m.n_equal_time : K)))
    ∧ (normalizeStats ls lt m).localSpinCorr
        = m.localSpinCorr / ((lt : K) * (m.n_equal_time : K)
            * (m.AverageSign / (m.n_equal_time : K)))
    ∧ (normalizeStats ls lt m).StructFactor
        = m.StructFactor / ((ls : K) ^ 2 * (lt : K) * (m.n_equal_time : K)
            * (m.AverageSign / (m.n_equal_time : K)))
    ∧ (normalizeStats ls lt m).n_equal_time = m.n_equal_time := by
  have a1 : (1 : Int) ≤ ls := by exact_mod_cast hls
  have b1 : (1 : Int) ≤ lt := by exact_mod_cast hlt
  have c1 : (1 : Int) ≤ m.n_equal_time := hn
  have p0 : (0 : Int) ≤ (ls : Int) * ls := by positivity
  have p1 : (0 : Int) ≤ (ls : Int) * ls * lt := by positivity
  have q0 : (0 : Int) ≤ (ls : Int) * lt := by positivity
  have r0 : (0 : Int) ≤ (lt : Int) * m.n_equal_time := by positivity
  have f3 : (ls : Int) * ls * lt ≤ (ls : Int) * ls * lt * m.n_equal_time :=
    le_mul_of_one_le_right p1 c1
  have f2 : (ls : Int) * ls ≤ (ls : Int) * ls * lt := le_mul_of_one_le_right p0 b1
  have g2 : (ls : Int) * lt * m.n_equal_time ≤ (ls : Int) * ls * lt * m.n_equal_time := by
    have : (ls : Int) * lt * m.n_equal_time = 1 * ((ls : Int) * lt * m.n_equal_time) := by ring
    rw [this, show (ls : Int) * ls * lt * m.n_equal_time
      = (ls : Int) * ((ls : Int) * lt * m.n_equal_time) by ring]
    exact mul_le_mul_of_nonneg_right a1 (by positivity)
  have g1 : (ls : Int) * lt ≤ (ls : Int) * lt * m.n_equal_time := le_mul_of_one_le_right q0 c1
  have k1 : (lt : Int) * m.n_equal_time ≤ (ls : Int) * lt * m.n_equal_time := by
    have : (lt : Int) * m.n_equal_time = 1 * ((lt : Int) * m.n_equal_time) := by ring
    rw [this, show (ls : Int) * lt * m.n_equal_time
      = (ls : Int) * ((lt : Int) * m.n_equal_time) by ring]
    exact mul_le_mul_of_nonneg_right a1 r0
  have w1 : wrapInt ((ls : Int) * lt) = (ls : Int) * lt := wrapInt_of_fits _ q0 (by omega)
  have w2 : wrapInt ((ls : Int) * lt * m.n_equal_time) = (ls : Int) * lt * m.n_equal_time :=
    wrapInt_of_fits _ (by positivity) (by omega)
  have w3 : wrapInt ((ls : Int) * ls) = (ls : Int) * ls := wrapInt_of_fits _ p0 (by omega)
  have w4 : wrapInt ((ls : Int) * ls * lt) = (ls : Int) * ls * lt :=
    wrapInt_of_fits _ p1 (by omega)
  have w5 : wrapInt ((ls : Int) * ls * lt * m.n_equal_time)
      = (ls : Int) * ls * lt * m.n_equal_time := wrapInt_of_fits _ (by positivity) hfit
  have w6 : wrapInt ((lt : Int) * m.n_equal_time) = (lt : Int) * m.n_equal_time :=
    wrapInt_of_fits _ r0 (by omega)
  refine ⟨rfl, ?_, ?_, ?_, ?_, ?_, rfl⟩ <;>
    (simp only [normalizeStats, w1, w2, w3, w4, w5, w6]; push_cast; ring)

end eqtimeMeasure

open eqtimeMeasure in
/-- C9, the code at the failing input. On a model with `ls = 256` sites and
`lt = 80` slices, after `n_equal_time = 1000` measurements of sign `+1` (the
accumulated `AverageSign` is `1000`) and with `5242880000` accumulated in
`StructFactor`: the stated prefactor `ls² · lt · n_equal_time · average_sign` is
`5242880000` and would give `1`; the `int` product `ls * ls * lt * n_equal_time`
of the source does not fit in 32 bits and comes out as `947912704`, by which
`StructFactor` is divided instead. The products of the other observables fit. -/
theorem normalizeStats_overflows :
    (normalizeStats 256 80 (⟨1000, 0, 0, 5242880000, 0, 0, 1000⟩ : eqtimeMeasure ℚ)).StructFactor
        = 5242880000 / 947912704
    ∧ (5242880000 : ℚ) / ((256 : ℚ) ^ 2 * 80 * 1000 * (1000 / 1000)) = 1
    ∧ wrapInt (wrapInt (wrapInt (256 * 256) * 80) * 1000) = 947912704
    ∧ wrapInt (wrapInt (256 * 80) * 1000) = 256 * 80 * 1000
    ∧ wrapInt (80 * 1000) = 80 * 1000 := by
  refine ⟨?_, by norm_num, by decide, by decide, by decide⟩
  have e : wrapInt (wrapInt (wrapInt (((256 : Nat) : Int) * ((256 : Nat) : Int))
      * ((80 : Nat) : Int)) * 1000) = 947912704 := by decide
  simp only [normalizeStats, e]
  norm_num

open eqtimeMeasure in
/-- C10. `analyse_equal_time_Stats` over the reals, for `nbin ≥ 2` bins
`x_0 … x_{nbin-1}`: the stored mean is `(1/nbin) Σ x_k`, the stored error is
`sqrt(((1/nbin) Σ x_k² - mean²) / (nbin - 1))`, the quantity under the square
root is non-negative, and the error is `0` when all bins are equal. -/
theorem analyse_equal_time_Stats_correct (nbin : Nat) (x : Nat → ℝ) (hn : 2 ≤ nbin) :
    (analyse_equal_time_Stats Real.sqrt nbin x).1
        = (1 / (nbin : ℝ)) * ∑ k in Finset.range nbin, x k
    ∧ (analyse_equal_time_Stats Real.sqrt nbin x).2
        = Real.sqrt (((1 / (nbin : ℝ)) * (∑ k in Finset.range nbin, x k ^ 2)
            - ((1 / (nbin : ℝ)) * ∑ k in Finset.range nbin, x k) ^ 2) / ((nbin : ℝ) - 1))
    ∧ 0 ≤ ((1 / (nbin : ℝ)) * (∑ k in Finset.range nbin, x k ^ 2)
            - ((1 / (nbin : ℝ)) * ∑ k in Finset.range nbin, x k) ^ 2) / ((nbin : ℝ) - 1)
    ∧ ((∀ k, k < nbin → x k = x 0) → (analyse_equal_time_Stats Real.sqrt nbin x).2 = 0) := by
  have hn0 : (0 : ℝ) < nbin := by exact_mod_cast (show 0 < nbin by omega)
  have hn1 : (0 : ℝ) < (nbin : ℝ) - 1 := by
    have : (2 : ℝ) ≤ nbin := by exact_mod_cast hn
    linarith
  have hcs := sq_sum_le_card_mul_sum_sq (s := Finset.range nbin) (f := x)
  rw [Finset.card_range] at hcs
  have hvar : 0 ≤ (1 / (nbin : ℝ)) * (∑ k in Finset.range nbin, x k ^ 2)
      - ((1 / (nbin : ℝ)) * ∑ k in Finset.range nbin, x k) ^ 2 := by
    have h1 : ((1 / (nbin : ℝ)) * ∑ k in Finset.range nbin, x k) ^ 2
        = (∑ k in Finset.range nbin, x k) ^ 2 / (nbin : ℝ) ^ 2 := by
      field_simp
    have h2 : (1 / (nbin : ℝ)) * (∑ k in Finset.range nbin, x k ^ 2)
        = ((nbin : ℝ) * ∑ k in Finset.range nbin, x k ^ 2) / (nbin : ℝ) ^ 2 := by
      field_simp
      ring
    rw [h1, h2, sub_nonneg]
    exact div_le_div_of_nonneg_right hcs (by positivity)
  have e1 : ∀ a b c : ℝ, a / c - (b / c) ^ 2 = 1 / c * a - (1 / c * b) ^ 2 := by
    intro a b c; ring
  have e2 : ∀ b c : ℝ, b / c = 1 / c * b := by
    intro b c; ring
  have hval : analyse_equal_time_Stats Real.sqrt nbin x
      = ((1 / (nbin : ℝ)) * ∑ k in Finset.range nbin, x k,
         Real.sqrt ((1 / (nbin : ℝ)) * (∑ k in Finset.range nbin, x k ^ 2)
            - ((1 / (nbin : ℝ)) * ∑ k in Finset.range nbin, x k) ^ 2)
          / Real.sqrt ((nbin : ℝ) - 1)) := by
    simp only [analyse_equal_time_Stats, analyse_sums]
    rw [e1, e2 (∑ k in Finset.range nbin, x k)]
    push_cast
    rfl
  have herr : (analyse_equal_time_Stats Real.sqrt nbin x).2
      = Real.sqrt (((1 / (nbin : ℝ)) * (∑ k in Finset.range nbin, x k ^ 2)
            - ((1 / (nbin : ℝ)) * ∑ k in Finset.range nbin, x k) ^ 2) / ((nbin : ℝ) - 1)) := by
    rw [hval, Real.sqrt_div hvar]
  refine ⟨by rw [hval], herr, div_nonneg hvar (le_of_lt hn1), ?_⟩
  intro hall
  rw [herr]
  have hs1 : ∑ k in Finset.range nbin, x k = (nbin : ℝ) * x 0 := by
    rw [Finset.sum_congr rfl (fun k hk => hall k (Finset.mem_range.mp hk))]
    simp
  have hs2 : ∑ k in Finset.range nbin, x k ^ 2 = (nbin : ℝ) * x 0 ^ 2 := by
    rw [Finset.sum_congr rfl (fun k hk => by rw [hall k (Finset.mem_range.mp hk)])]
    simp
  rw [hs1, hs2]
  have : (1 / (nbin : ℝ)) * ((nbin : ℝ) * x 0 ^ 2) - ((1 / (nbin : ℝ)) * ((nbin : ℝ) * x 0)) ^ 2
      = 0 := by
    field_simp
  rw [this]
  simp

open eqtimeMeasure in
/-- The hypothesis of C10 holds for the two bins `1` and `3`. -/
theorem analyse_equal_time_Stats_correct_witness :
    2 ≤ 2
    ∧ (analyse_equal_time_Stats Real.sqrt 2 (fun k => if k = 0 then 1 else 3)).1
        = (1 / ((2 : Nat) : ℝ)) * ∑ k in Finset.range 2, (if k = 0 then (1 : ℝ) else 3) :=
  ⟨by decide,
    (analyse_equal_time_Stats_correct 2 (fun k => if k = 0 then 1 else 3) (by decide)).1⟩

/-! ### The claim on the wraps -/

namespace Toy

theorem pos_B (s : Matrix (Fin 1) (Fin 2) ℚ) (l : Nat) (σ : Int) : B s l σ ≠ 0 := by
  unfold B
  split
  · split <;> norm_num
  · norm_num

theorem inv_Bmat (s : Matrix (Fin 1) (Fin 2) ℚ) (l : Nat) (σ : Int) :
    (Bmat s l σ)⁻¹ = (B s l σ)⁻¹ • 1 := by
  apply Matrix.inv_eq_left_inv
  unfold Bmat
  rw [Matrix.smul_mul, Matrix.mul_smul, Matrix.one_mul, smul_smul,
    inv_mul_cancel₀ (pos_B s l σ), one_smul]

theorem actsAs (draw : ℚ → List Bool → Bool × List Bool) : Hubbard.ActsAs (ext draw) Bmat := by
  intro s M τ σ
  refine ⟨?_, ?_, ?_, ?_, ?_⟩
  · unfold Bmat
    rw [Matrix.det_smul, Matrix.det_one, mul_one, Fintype.card_fin, pow_one]
    exact isUnit_iff_ne_zero.mpr (pos_B s τ σ)
  · simp [ext, Bmat]
  · simp [ext, Bmat]
  · rw [inv_Bmat]; simp [ext]
  · rw [inv_Bmat]; simp [ext]

end Toy

open Hubbard in
/-- C20. With the B-matrix operators read as products by an invertible matrix
`B s τ σ`: `wrap_north(l)` returns for `l ≤ lt` and replaces each Green's
function `G` by `B · G · B⁻¹` at the slice `1` when `l = lt` and `l + 1`
otherwise; `wrap_south(l)` returns and replaces `G` by `B⁻¹ · G · B` at the
slice `lt` when `l = 0` and `l` otherwise; for `1 ≤ l ≤ lt`, `wrap_south(l)`
after `wrap_north(l - 1)` gives back the state it started from, in particular
`green_tt_up` and `green_tt_dn`; `wrap_north(lt)` is `wrap_north(0)` and
`wrap_south(0)` is `wrap_south(lt)`. -/
theorem wraps_mutually_inverse {K G : Type} [LinearOrderedField K] {ls lt : Nat}
    (E : Ext K G ls lt) (B : Matrix (Fin ls) (Fin lt) K → Nat → Int → Mat K ls)
    (hB : ActsAs E B) (h : Hubbard K G ls lt) (l : Nat) (hl1 : 1 ≤ l) (hl : l ≤ lt) :
    (∀ k, k ≤ lt → ∃ h', wrap_north E h k = some h'
        ∧ h'.green_tt_up
            = B h.s (northSlice lt k) 1 * h.green_tt_up * (B h.s (northSlice lt k) 1)⁻¹
        ∧ h'.green_tt_dn
            = B h.s (northSlice lt k) (-1) * h.green_tt_dn * (B h.s (northSlice lt k) (-1))⁻¹)
    ∧ (∀ k, k ≤ lt → ∃ h', wrap_south E h k = some h'
        ∧ h'.green_tt_up
            = (B h.s (southSlice lt k) 1)⁻¹ * h.green_tt_up * B h.s (southSlice lt k) 1
        ∧ h'.green_tt_dn
            = (B h.s (southSlice lt k) (-1))⁻¹ * h.green_tt_dn * B h.s (southSlice lt k) (-1))
    ∧ northSlice lt (l - 1) = l ∧ southSlice lt l = l
    ∧ (∃ h1, wrap_north E h (l - 1) = some h1 ∧ wrap_south E h1 l = some h)
    ∧ wrap_north E h lt = wrap_north E h 0
    ∧ wrap_south E h 0 = wrap_south E h lt := by
  have hn : northSlice lt (l - 1) = l := by
    unfold northSlice; rw [if_neg (by omega)]; omega
  have hs : southSlice lt l = l := by
    unfold southSlice; rw [if_neg (by omega)]
  refine ⟨fun k hk => ?_, fun k hk => ?_, hn, hs, ?_, ?_, ?_⟩
  · refine ⟨_, by unfold wrap_north; rw [if_pos hk], ?_, ?_⟩
    · show E.mult_invB_from_right h.s (E.mult_B_from_left h.s h.green_tt_up _ 1) _ 1 = _
      rw [(hB _ _ _ _).2.2.2.2, (hB _ _ _ _).2.1]; rfl
    · show E.mult_invB_from_right h.s (E.mult_B_from_left h.s h.green_tt_dn _ (-1)) _ (-1) = _
      rw [(hB _ _ _ _).2.2.2.2, (hB _ _ _ _).2.1]; rfl
  · refine ⟨_, by unfold wrap_south; rw [if_pos hk], ?_, ?_⟩
    · show E.mult_invB_from_left h.s (E.mult_B_from_right h.s h.green_tt_up _ 1) _ 1 = _
      rw [(hB _ _ _ _).2.2.2.1, (hB _ _ _ _).2.2.1, ← Matrix.mul_assoc]; rfl
    · show E.mult_invB_from_left h.s (E.mult_B_from_right h.s h.green_tt_dn _ (-1)) _ (-1) = _
      rw [(hB _ _ _ _).2.2.2.1, (hB _ _ _ _).2.2.1, ← Matrix.mul_assoc]; rfl
  · have key : ∀ (M : Mat K ls) (σ : Int),
        E.mult_invB_from_left h.s (E.mult_B_from_right h.s
          (E.mult_invB_from_right h.s (E.mult_B_from_left h.s M l σ) l σ) l σ) l σ = M := by
      intro M σ
      have hu := (hB h.s M l σ).1
      rw [(hB _ _ _ _).2.2.2.1, (hB _ _ _ _).2.2.1, (hB _ _ _ _).2.2.2.2, (hB _ _ _ _).2.1,
        Matrix.mul_assoc (B h.s l σ * M), Matrix.nonsing_inv_mul _ hu, Matrix.mul_one,
        ← Matrix.mul_assoc, Matrix.nonsing_inv_mul _ hu, Matrix.one_mul]
    refine ⟨_, by unfold wrap_north; rw [if_pos (by omega)], ?_⟩
    unfold wrap_south
    rw [if_pos hl]
    have e1 : (if l - 1 = lt then 1 else l - 1 + 1) = l := hn
    have e2 : (if l = 0 then lt else l) = l := hs
    simp only [e1, e2, key]
  · unfold wrap_north
    rw [if_pos le_rfl, if_pos (Nat.zero_le _)]
    by_cases h0 : 0 = lt
    · subst h0; rfl
    · simp [h0]
  · unfold wrap_south
    rw [if_pos le_rfl, if_pos (Nat.zero_le _)]
    by_cases h0 : lt = 0
    · subst h0; rfl
    · simp [h0]

open Hubbard in
/-- The hypotheses of C20 hold on the one-site instance at slice `l = 2`. -/
theorem wraps_mutually_inverse_witness :
    (ActsAs (Toy.ext Toy.fromTape) Toy.Bmat ∧ 1 ≤ 2 ∧ 2 ≤ 2)
    ∧ ∃ h1, wrap_north (Toy.ext Toy.fromTape) Toy.state (2 - 1) = some h1
      ∧ wrap_south (Toy.ext Toy.fromTape) h1 2 = some Toy.state :=
  ⟨⟨Toy.actsAs Toy.fromTape, by decide, by decide⟩,
    (wraps_mutually_inverse (Toy.ext Toy.fromTape) Toy.Bmat (Toy.actsAs Toy.fromTape)
      Toy.state 2 (by decide) (by decide)).2.2.2.2.1⟩

/-! ### The claims on the stack depths between sweeps -/

namespace Hubbard

variable {K G : Type} [LinearOrderedField K] {ls lt : Nat}

theorem nlen_eq_ceil (lt w : Nat) (hw : 1 ≤ w) : nlen lt w = (lt + w - 1) / w := by
  have h1 := Nat.div_add_mod' lt w
  have h2 := Nat.mod_lt lt (show w > 0 by omega)
  unfold nlen
  symm
  split
  · apply Nat.div_eq_of_lt_le
    · omega
    · rw [Nat.succ_mul]; omega
  · apply Nat.div_eq_of_lt_le
    · rw [Nat.succ_mul]; omega
    · rw [Nat.succ_mul, Nat.succ_mul]; omega

theorem card_push_slices (w : Nat) (hw : 1 ≤ w) : ∀ lt : Nat,
    ((Finset.Icc 1 lt).filter (fun l => (l - 1) % w = 0)).card = nlen lt w := by
  intro lt
  induction lt with
  | zero => simp [nlen]
  | succ n ih =>
    have hins : Finset.Icc 1 (n + 1) = insert (n + 1) (Finset.Icc 1 n) := by
      ext a; simp only [Finset.mem_Icc, Finset.mem_insert]; omega
    have hnot : n + 1 ∉ (Finset.Icc 1 n).filter (fun l => (l - 1) % w = 0) := by
      simp only [Finset.mem_filter, Finset.mem_Icc]; omega
    have hstep : nlen (n + 1) w = nlen n w + (if n % w = 0 then 1 else 0) := by
      rw [nlen_eq_ceil _ _ hw, nlen_eq_ceil _ _ hw, div_pred w (n + 1 + w - 1) (by omega)]
      have e1 : n + 1 + w - 1 - 1 = n + w - 1 := by omega
      have e2 : (n + 1 + w - 1) % w = n % w := by
        rw [show n + 1 + w - 1 = n + w by omega, Nat.add_mod_right]
      rw [e1, e2]
    rw [hins, Finset.filter_insert, hstep]
    by_cases hc : n % w = 0
    · rw [if_pos (by simpa using hc), Finset.card_insert_of_not_mem hnot, ih, if_pos hc]
    · rw [if_neg (by simpa using hc), ih, if_neg hc]; rfl

theorem empty_of_len {n : Nat} (st : SvdStack K n) (h : st.len = 0) : st.empty = true := by
  simp [SvdStack.empty, h]

end Hubbard

open Hubbard in
/-- C15. Stack hand-over between the sweeps, for `lt ≥ 1` and `nwrap ≥ 1`, with
`nlen = ⌈lt / nwrap⌉`: from a state with `current_tau = 0`, empty left stacks
and right stacks of depth `nlen` (each storage with room for `nlen`),
`sweep_0_to_beta(nwrap)` returns with empty right stacks and left stacks of
depth `nlen`; the following `sweep_beta_to_0(nwrap)` then passes its entry
assertions and returns with empty left stacks and right stacks of depth `nlen`
again; and the next `sweep_0_to_beta(nwrap)` passes its entry assertions and
returns. -/
theorem stack_handover {K G : Type} [LinearOrderedField K] {ls lt : Nat}
    (E : Ext K G ls lt) (h : Hubbard K G ls lt) (nwrap : Nat)
    (hlt : 1 ≤ lt) (hw : 1 ≤ nwrap) (hc : h.current_tau = 0)
    (hS : Shape h (nlen lt nwrap) 0 (nlen lt nwrap)) :
    nlen lt nwrap = (lt + nwrap - 1) / nwrap
    ∧ ∃ h1 h2 h3, sweep_0_to_beta E h nwrap = some h1
      ∧ h1.stackRightU.empty = true ∧ h1.stackRightD.empty = true
      ∧ h1.stackLeftU.len = nlen lt nwrap ∧ h1.stackLeftD.len = nlen lt nwrap
      ∧ sweep_beta_to_0 E h1 nwrap = some h2
      ∧ h2.stackLeftU.empty = true ∧ h2.stackLeftD.empty = true
      ∧ h2.stackRightU.len = nlen lt nwrap ∧ h2.stackRightD.len = nlen lt nwrap
      ∧ sweep_0_to_beta E h2 nwrap = some h3 := by
  obtain ⟨h1, e1, c1, S1, _⟩ := sweep_0_to_beta_spec E h nwrap hlt hc hS
  obtain ⟨h2, e2, c2, S2, _⟩ := sweep_beta_to_0_spec E h1 nwrap hlt c1 S1
  obtain ⟨h3, e3, _⟩ := sweep_0_to_beta_spec E h2 nwrap hlt c2 S2
  exact ⟨nlen_eq_ceil lt nwrap hw, h1, h2, h3, e1, empty_of_len _ S1.2.2.1,
    empty_of_len _ S1.2.2.2.1, S1.1, S1.2.1, e2, empty_of_len _ S2.1, empty_of_len _ S2.2.1,
    S2.2.2.1, S2.2.2.2.1, e3⟩

open Hubbard in
/-- The hypotheses of C15 hold on the one-site instance with `nwrap = 1`. -/
theorem stack_handover_witness :
    (1 ≤ 2 ∧ 1 ≤ 1 ∧ Toy.state.current_tau = 0 ∧ Shape Toy.state (nlen 2 1) 0 (nlen 2 1))
    ∧ ∃ h1 h2, sweep_0_to_beta (Toy.ext Toy.fromTape) Toy.state 1 = some h1
      ∧ h1.stackRightU.empty = true ∧ h1.stackLeftU.len = 2
      ∧ sweep_beta_to_0 (Toy.ext Toy.fromTape) h1 1 = some h2
      ∧ h2.stackLeftU.empty = true ∧ h2.stackRightU.len = 2 := by
  refine ⟨⟨by decide, by decide, rfl, Toy.state_shape⟩, ?_⟩
  obtain ⟨_, h1, h2, _, e1, r1, _, l1, _, e2, l2, _, r2, _⟩ :=
    stack_handover (Toy.ext Toy.fromTape) Toy.state 1 (by decide) (by decide) rfl
      Toy.state_shape
  exact ⟨h1, h2, e1, r1, l1, e2, l2, r2⟩

open Hubbard in
/-- C16. The constructor establishes the entry condition of the forward sweep,
for `lt ≥ 1` and `nwrap ≥ 1`: `init_stacks(nwrap)` run on four empty stacks (each
storage with room for `⌈lt / nwrap⌉`) returns with empty left stacks and both
right stacks of depth `⌈lt / nwrap⌉`, which is the number of `l` in `[1, lt]`
with `(l - 1) mod nwrap = 0`, and leaves `current_tau` alone; the constructor
returns such a state with `current_tau = 0`, and the first
`sweep_0_to_beta(nwrap)` on it passes its entry assertions and returns. -/
theorem constructor_establishes_forward_precondition
    {K G : Type} [LinearOrderedField K] {ls lt : Nat}
    (E : Ext K G ls lt) (beta Uint : K) (nwrap : Nat) (gen : G)
    (hlt : 1 ≤ lt) (hw : 1 ≤ nwrap) :
    ((Finset.Icc 1 lt).filter (fun l => (l - 1) % nwrap = 0)).card = (lt + nwrap - 1) / nwrap
    ∧ (∀ h : Hubbard K G ls lt, Shape h ((lt + nwrap - 1) / nwrap) 0 0 →
        ∃ h', init_stacks E h nwrap = some h'
          ∧ h'.stackLeftU.empty = true ∧ h'.stackLeftD.empty = true
          ∧ h'.stackRightU.len = (lt + nwrap - 1) / nwrap
          ∧ h'.stackRightD.len = (lt + nwrap - 1) / nwrap
          ∧ h'.current_tau = h.current_tau)
    ∧ ∃ h' h'', create E beta Uint nwrap gen = some h'
      ∧ h'.current_tau = 0
      ∧ h'.stackLeftU.empty = true ∧ h'.stackLeftD.empty = true
      ∧ h'.stackRightU.len = (lt + nwrap - 1) / nwrap
      ∧ h'.stackRightD.len = (lt + nwrap - 1) / nwrap
      ∧ sweep_0_to_beta E h' nwrap = some h'' := by
  have hn := nlen_eq_ceil lt nwrap hw
  rw [← hn]
  refine ⟨card_push_slices nwrap hw lt, fun h hS => ?_, ?_⟩
  · obtain ⟨h', e, S, _, c, _⟩ := init_stacks_spec E h nwrap hlt hS
    exact ⟨h', e, empty_of_len _ S.1, empty_of_len _ S.2.1, S.2.2.1, S.2.2.2.1, c⟩
  · obtain ⟨_, _, h', _, _, _, e, _, c, S, _⟩ := create_spec E beta Uint nwrap gen hlt
    obtain ⟨h'', e', _⟩ := sweep_0_to_beta_spec E h' nwrap hlt c S
    exact ⟨h', h'', e, c, empty_of_len _ S.1, empty_of_len _ S.2.1, S.2.2.1, S.2.2.2.1, e'⟩

open Hubbard in
/-- The hypotheses of C16 hold on the one-site instance with `lt = 2` and
`nwrap = 1`: the constructor returns with right stacks of depth two. -/
theorem constructor_establishes_forward_precondition_witness :
    (1 ≤ 2 ∧ 1 ≤ 1)
    ∧ ∃ h', create (Toy.ext Toy.fromTape) 1 4 1 [true, false] = some h'
      ∧ h'.current_tau = 0 ∧ h'.stackLeftU.empty = true ∧ h'.stackRightU.len = 2 := by
  refine ⟨⟨by decide, by decide⟩, ?_⟩
  obtain ⟨_, _, h', _, e, c, l, _, r, _⟩ :=
    constructor_establishes_forward_precondition (Toy.ext Toy.fromTape) 1 4 1 [true, false]
      (by decide) (by decide)
  exact ⟨h', e, c, l, r⟩

/-! ### The claim on the displaced wrap error -/

namespace Hubbard

variable {K G : Type} [LinearOrderedField K] {ls lt : Nat}

/-- What the stabilisation block of the displaced sweep makes of
`max_wrap_error_displaced`: the maximum of its value before and of three
discrepancies, those of `green_t0_up`, `green_t0_dn` and `green_0t_up`. -/
theorem displaced_tracker (E : Ext K G ls lt) (h h' : Hubbard K G ls lt) (tU tD : Mat K ls)
    (e : sweep_0_to_beta_displaced_stabilize E h tU tD = some h') :
    h.max_wrap_error_displaced ≤ h'.max_wrap_error_displaced
    ∧ E.matrix_compare_error h'.green_t0_up h.green_t0_up ≤ h'.max_wrap_error_displaced
    ∧ E.matrix_compare_error h'.green_t0_dn h.green_t0_dn ≤ h'.max_wrap_error_displaced
    ∧ E.matrix_compare_error h'.green_0t_up h.green_0t_up ≤ h'.max_wrap_error_displaced
    ∧ h'.max_wrap_error_displaced
        = max (max h.max_wrap_error_displaced
            (max (E.matrix_compare_error h'.green_t0_up h.green_t0_up)
              (E.matrix_compare_error h'.green_t0_dn h.green_t0_dn)))
          (max (E.matrix_compare_error h'.green_0t_up h.green_0t_up) 0) := by
  unfold sweep_0_to_beta_displaced_stabilize at e
  split at e
  · injection e with e
    subst e
    dsimp only
    refine ⟨?_, ?_, ?_, ?_, rfl⟩
    · exact le_max_of_le_left (le_max_left _ _)
    · exact le_max_of_le_left (le_max_of_le_right (le_max_left _ _))
    · exact le_max_of_le_left (le_max_of_le_right (le_max_right _ _))
    · exact le_max_of_le_right (le_max_left _ _)
  · exact absurd e (by simp)

end Hubbard

open Hubbard in
/-- C17, the code at the failing input. On the one-site instance, at the
stabilisation of slice `l = 1` entered with `max_wrap_error_displaced = 0`, the
block returns with `max_wrap_error_displaced = 4/5`, while the discrepancy
between the freshly rebuilt `green_0t_dn` (the value stored by the block) and
the propagated one is `13/10`. -/
theorem displaced_tracker_misses_0t_dn :
    ∃ h', sweep_0_to_beta_displaced_stabilize (Toy.ext Toy.never) Toy.propagated
        (fun _ _ => 2) (fun _ _ => 1 / 2) = some h'
      ∧ Toy.propagated.max_wrap_error_displaced = 0
      ∧ h'.max_wrap_error_displaced = 4 / 5
      ∧ (Toy.ext Toy.never).matrix_compare_error h'.green_0t_dn Toy.propagated.green_0t_dn
          = 13 / 10 := by
  refine ⟨_, rfl, rfl, ?_, ?_⟩
  · simp [Toy.ext, Toy.propagated, Toy.state, Toy.stackValue, SvdStack.view, SvdStack.new,
      SVD.blank]
    norm_num
    rw [abs_of_pos (by norm_num : (0 : ℚ) < 4 / 5), abs_of_pos (by norm_num : (0 : ℚ) < 27 / 40),
      abs_of_pos (by norm_num : (0 : ℚ) < 11 / 20),
      max_eq_left (by norm_num : (27 : ℚ) / 40 ≤ 4 / 5),
      max_eq_left (by norm_num : (11 : ℚ) / 20 ≤ 4 / 5)]
  · simp [Toy.ext, Toy.propagated, Toy.state, Toy.stackValue, SvdStack.view, SvdStack.new,
      SVD.blank]
    norm_num

/-! ### The claim on the structure factor -/

namespace eqtimeMeasure

variable {K G : Type} [LinearOrderedField K] {lt : Nat}

theorem foldl_add {α : Type} (f : α → K) (g : K → α → K) (hg : ∀ a x, g a x = a + f x) :
    ∀ (l : List α) (a : K), l.foldl g a = a + (l.map f).sum := by
  intro l
  induction l with
  | nil => intro a; simp
  | cons x l ih => intro a; rw [List.foldl_cons, ih, hg, List.map_cons, List.sum_cons, add_assoc]

theorem finRange_foldl_add {n : Nat} (f : Fin n → K) (g : K → Fin n → K)
    (hg : ∀ a x, g a x = a + f x) (a : K) :
    (List.finRange n).foldl g a = a + ∑ x, f x := by
  rw [foldl_add f g hg, Fin.sum_univ_def]

theorem site_mod (ll : Nat) (x y : Fin ll) : (site ll x y).1 % ll = x.1 := by
  show (x.1 + ll * y.1) % ll = x.1
  rw [Nat.add_mul_mod_self_left, Nat.mod_eq_of_lt x.2]

theorem site_div (ll : Nat) (x y : Fin ll) : (site ll x y).1 / ll = y.1 := by
  show (x.1 + ll * y.1) / ll = y.1
  have hpos : 0 < ll := Nat.lt_of_le_of_lt (Nat.zero_le _) x.2
  rw [Nat.add_mul_div_left _ _ hpos, Nat.div_eq_of_lt x.2, Nat.zero_add]

theorem sum_sites (ll : Nat) (F : Fin (ll * ll) → K) :
    ∑ x : Fin ll, ∑ y : Fin ll, F (site ll x y) = ∑ i, F i := by
  rw [← (finProdFinEquiv : Fin ll × Fin ll ≃ Fin (ll * ll)).sum_comp, Fintype.sum_prod_type,
    Finset.sum_comm]
  rfl

theorem conj_inner {n : Nat} (gu gd : Mat K n) (i : Fin n) :
    ∀ (js : List (Fin n)) (c : Mat K n × Mat K n) (a b : Fin n),
      ((js.foldl (fun (c : Mat K n × Mat K n) j =>
          (Hubbard.setEntry c.1 j i (- gu i j), Hubbard.setEntry c.2 j i (- gd i j))) c).1 a b
        = if b = i ∧ a ∈ js then - gu i a else c.1 a b)
      ∧ ((js.foldl (fun (c : Mat K n × Mat K n) j =>
          (Hubbard.setEntry c.1 j i (- gu i j), Hubbard.setEntry c.2 j i (- gd i j))) c).2 a b
        = if b = i ∧ a ∈ js then - gd i a else c.2 a b) := by
  intro js
  induction js with
  | nil => intro c a b; simp
  | cons j js ih =>
    intro c a b
    rw [List.foldl_cons]
    obtain ⟨h1, h2⟩ := ih (Hubbard.setEntry c.1 j i (- gu i j), Hubbard.setEntry c.2 j i (- gd i j)) a b
    rw [h1, h2]
    simp only [Hubbard.setEntry, List.mem_cons]
    constructor
    · by_cases hb : b = i
      · by_cases ha : a ∈ js
        · simp [hb, ha]
        · by_cases haj : a = j
          · simp [hb, ha, haj]
          · simp [hb, ha, haj]
      · simp [hb]
    · by_cases hb : b = i
      · by_cases ha : a ∈ js
        · simp [hb, ha]
        · by_cases haj : a = j
          · simp [hb, ha, haj]
          · simp [hb, ha, haj]
      · simp [hb]


theorem conj_step {n : Nat} (gu gd : Mat K n) (i : Fin n) (c : Mat K n × Mat K n)
    (a b : Fin n) :
    let c1 := (List.finRange n).foldl (fun (c : Mat K n × Mat K n) j =>
      (Hubbard.setEntry c.1 j i (- gu i j), Hubbard.setEntry c.2 j i (- gd i j))) c
    ((Hubbard.setEntry c1.1 i i (c1.1 i i + 1)) a b
        = if b = i then (if a = b then 1 else 0) - gu b a else c.1 a b)
      ∧ ((Hubbard.setEntry c1.2 i i (c1.2 i i + 1)) a b
        = if b = i then (if a = b then 1 else 0) - gd b a else c.2 a b) := by
  intro c1
  have h1 := fun a b => (conj_inner gu gd i (List.finRange n) c a b).1
  have h2 := fun a b => (conj_inner gu gd i (List.finRange n) c a b).2
  simp only [List.mem_finRange, and_true] at h1 h2
  show (Hubbard.setEntry _ i i _ a b = _) ∧ (Hubbard.setEntry _ i i _ a b = _)
  simp only [Hubbard.setEntry]
  rw [h1, h1, h2, h2]
  constructor
  · by_cases hb : b = i
    · by_cases ha : a = i
      · subst hb; subst ha; simp; ring
      · have : ¬ a = b := by rw [hb]; exact ha
        simp [hb, ha]
    · simp [hb]
  · by_cases hb : b = i
    · by_cases ha : a = i
      · subst hb; subst ha; simp; ring
      · have : ¬ a = b := by rw [hb]; exact ha
        simp [hb, ha]
    · simp [hb]

theorem conj_outer {n : Nat} (gu gd : Mat K n) :
    ∀ (is : List (Fin n)) (c : Mat K n × Mat K n) (a b : Fin n),
      ((is.foldl (fun c i =>
          let c1 := (List.finRange n).foldl (fun (c : Mat K n × Mat K n) j =>
            (Hubbard.setEntry c.1 j i (- gu i j), Hubbard.setEntry c.2 j i (- gd i j))) c
          (Hubbard.setEntry c1.1 i i (c1.1 i i + 1), Hubbard.setEntry c1.2 i i (c1.2 i i + 1)))
          c).1 a b = if b ∈ is then (if a = b then 1 else 0) - gu b a else c.1 a b)
      ∧ ((is.foldl (fun c i =>
          let c1 := (List.finRange n).foldl (fun (c : Mat K n × Mat K n) j =>
            (Hubbard.setEntry c.1 j i (- gu i j), Hubbard.setEntry c.2 j i (- gd i j))) c
          (Hubbard.setEntry c1.1 i i (c1.1 i i + 1), Hubbard.setEntry c1.2 i i (c1.2 i i + 1)))
          c).2 a b = if b ∈ is then (if a = b then 1 else 0) - gd b a else c.2 a b) := by
  intro is
  induction is with
  | nil => intro c a b; simp
  | cons i is ih =>
    intro c a b
    rw [List.foldl_cons]
    obtain ⟨h1, h2⟩ := ih _ a b
    rw [h1, h2]
    obtain ⟨s1, s2⟩ := conj_step gu gd i c a b
    dsimp only at s1 s2 ⊢
    rw [s1, s2]
    simp only [List.mem_cons]
    constructor
    · by_cases hb : b ∈ is
      · simp [hb]
      · simp [hb]
    · by_cases hb : b ∈ is
      · simp [hb]
      · simp [hb]

theorem conj_loop_apply {n : Nat} (gu gd : Mat K n) (a b : Fin n) :
    (conj_loop gu gd).1 a b = (if a = b then 1 else 0) - gu b a
      ∧ (conj_loop gu gd).2 a b = (if a = b then 1 else 0) - gd b a := by
  have h := conj_outer gu gd (List.finRange n) (1, 1) a b
  simp only [List.mem_finRange, if_true] at h
  exact h


theorem fourier_site (cos : K → K) (hcos : ∀ x, cos (-x) = cos x) (p : Fin 2 → K) (ll : Nat)
    (xi yi xj yj : Fin ll) :
    fourier cos p xi.1 yi.1 xj.1 yj.1
      = cos (((((site ll xi yi).1 % ll : Nat) : K) - (((site ll xj yj).1 % ll : Nat) : K)) * p 0
          + ((((site ll xi yi).1 / ll : Nat) : K) - (((site ll xj yj).1 / ll : Nat) : K)) * p 1) := by
  rw [site_mod, site_mod, site_div, site_div]
  unfold fourier
  rw [hcos]
  push_cast
  rfl

end eqtimeMeasure

open eqtimeMeasure in
/-- C11. `meas_Struct_Factor` at a slice `t < lt` returns, and adds to
`StructFactor` the number `config_sign · (1/4) · Σ_{i,j} cos((r_i - r_j) · p) ·
[guc(i,i) guc(j,j) + guc(i,j) gu(i,j) + gdc(i,i) gdc(j,j) + gdc(i,j) gd(i,j)
- gdc(i,i) guc(j,j) - guc(i,i) gdc(j,j)]`, the sum over all pairs of sites
`i, j < ll · ll` with `r_i = (i mod ll, i div ll)`, where `gu`, `gd` are the
snapshots of slice `t` and the matrices `guc`, `gdc` built by the double loop
are `guc(i,j) = δ_ij - gu(j,i)`, `gdc(i,j) = δ_ij - gd(j,i)`. The cosine is a
parameter, taken to be even. -/
theorem meas_Struct_Factor_formula {K G : Type} [LinearOrderedField K] {lt : Nat}
    (cos : K → K) (ll : Nat) (h : Hubbard K G (ll * ll) lt) (t : Nat) (p : Fin 2 → K)
    (m : eqtimeMeasure K) (gu gd guc gdc : Mat K (ll * ll))
    (ht : t < lt) (hcos : ∀ x, cos (-x) = cos x)
    (hu : gu = h.vec_green_tt_up ⟨t, ht⟩) (hd : gd = h.vec_green_tt_dn ⟨t, ht⟩)
    (hc : (guc, gdc) = conj_loop gu gd) :
    (∀ i j, guc i j = (if i = j then 1 else 0) - gu j i)
    ∧ (∀ i j, gdc i j = (if i = j then 1 else 0) - gd j i)
    ∧ meas_Struct_Factor cos ll h t p m = some { m with
        StructFactor := m.StructFactor + h.config_sign * (1 / 4) *
          ∑ i : Fin (ll * ll), ∑ j : Fin (ll * ll),
            cos ((((i.1 % ll : Nat) : K) - ((j.1 % ll : Nat) : K)) * p 0
                + (((i.1 / ll : Nat) : K) - ((j.1 / ll : Nat) : K)) * p 1)
              * (guc i i * guc j j + guc i j * gu i j
                + gdc i i * gdc j j + gdc i j * gd i j
                - gdc i i * guc j j - guc i i * gdc j j) } := by
  have hg : guc = (conj_loop gu gd).1 := congrArg Prod.fst hc
  have hg' : gdc = (conj_loop gu gd).2 := congrArg Prod.snd hc
  refine ⟨fun i j => by rw [hg]; exact (conj_loop_apply gu gd i j).1,
    fun i j => by rw [hg']; exact (conj_loop_apply gu gd i j).2, ?_⟩
  unfold meas_Struct_Factor
  rw [dif_pos ht]
  dsimp only
  rw [← hu, ← hd, ← hg, ← hg']
  have e4 : ∀ (xi yi xj : Fin ll) (a : K),
      (List.finRange ll).foldl (fun a (yj : Fin ll) =>
        a + h.config_sign * structfactor (fourier cos p xi.1 yi.1 xj.1 yj.1) gu gd guc gdc
          (site ll xi yi) (site ll xj yj)) a
        = a + ∑ yj : Fin ll, h.config_sign * structfactor (fourier cos p xi.1 yi.1 xj.1 yj.1)
            gu gd guc gdc (site ll xi yi) (site ll xj yj) :=
    fun xi yi xj a => finRange_foldl_add _ _ (fun _ _ => rfl) a
  have e3 : ∀ (xi yi : Fin ll) (a : K),
      (List.finRange ll).foldl (fun a (xj : Fin ll) => (List.finRange ll).foldl
        (fun a (yj : Fin ll) =>
          a + h.config_sign * structfactor (fourier cos p xi.1 yi.1 xj.1 yj.1) gu gd guc gdc
            (site ll xi yi) (site ll xj yj)) a) a
        = a + ∑ xj : Fin ll, ∑ yj : Fin ll,
            h.config_sign * structfactor (fourier cos p xi.1 yi.1 xj.1 yj.1)
              gu gd guc gdc (site ll xi yi) (site ll xj yj) :=
    fun xi yi a => finRange_foldl_add _ _ (fun a xj => e4 xi yi xj a) a
  have e2 : ∀ (xi : Fin ll) (a : K),
      (List.finRange ll).foldl (fun a (yi : Fin ll) => (List.finRange ll).foldl
        (fun a (xj : Fin ll) => (List.finRange ll).foldl
        (fun a (yj : Fin ll) =>
          a + h.config_sign * structfactor (fourier cos p xi.1 yi.1 xj.1 yj.1) gu gd guc gdc
            (site ll xi yi) (site ll xj yj)) a) a) a
        = a + ∑ yi : Fin ll, ∑ xj : Fin ll, ∑ yj : Fin ll,
            h.config_sign * structfactor (fourier cos p xi.1 yi.1 xj.1 yj.1)
              gu gd guc gdc (site ll xi yi) (site ll xj yj) :=
    fun xi a => finRange_foldl_add _ _ (fun a yi => e3 xi yi a) a
  rw [finRange_foldl_add _ _ (fun a xi => e2 xi a) m.StructFactor]
  obtain ⟨H, hH⟩ : ∃ H : Fin (ll * ll) → Fin (ll * ll) → K, ∀ i j, H i j =
      h.config_sign * structfactor
        (cos ((((i.1 % ll : Nat) : K) - ((j.1 % ll : Nat) : K)) * p 0
            + (((i.1 / ll : Nat) : K) - ((j.1 / ll : Nat) : K)) * p 1))
        gu gd guc gdc i j := ⟨_, fun _ _ => rfl⟩
  have key : ∀ xi yi xj yj : Fin ll,
      h.config_sign * structfactor (fourier cos p xi.1 yi.1 xj.1 yj.1) gu gd guc gdc
          (site ll xi yi) (site ll xj yj) = H (site ll xi yi) (site ll xj yj) := by
    intro xi yi xj yj
    rw [hH, fourier_site cos hcos]
  simp only [key]
  have s1 : ∀ xi yi : Fin ll,
      ∑ xj : Fin ll, ∑ yj : Fin ll, H (site ll xi yi) (site ll xj yj)
        = ∑ j, H (site ll xi yi) j :=
    fun xi yi => sum_sites ll (H (site ll xi yi))
  simp only [s1]
  rw [sum_sites ll (fun i => ∑ j, H i j)]
  simp only [hH]
  congr 2
  rw [Finset.mul_sum]
  congr 1
  apply Finset.sum_congr rfl
  intro i _
  rw [Finset.mul_sum]
  apply Finset.sum_congr rfl
  intro j _
  simp only [structfactor]
  ring

open eqtimeMeasure in
/-- The hypotheses of C11 hold on the one-site instance at slice `t = 0`, with
the even function `1 - x² / 2` for the cosine. -/
theorem meas_Struct_Factor_formula_witness :
    ((0 : Nat) < 2 ∧ ∀ x : ℚ, 1 - (-x) ^ 2 / 2 = 1 - x ^ 2 / 2)
    ∧ ∃ m', meas_Struct_Factor (fun x : ℚ => 1 - x ^ 2 / 2) 1 Toy.state 0 (fun _ => 1)
        (clear ⟨0, 0, 0, 0, 0, 0, 0⟩) = some m' :=
  ⟨⟨by decide, fun x => by ring⟩, _,
    (meas_Struct_Factor_formula (fun x : ℚ => 1 - x ^ 2 / 2) 1 Toy.state 0 (fun _ => 1)
      (clear ⟨0, 0, 0, 0, 0, 0, 0⟩) _ _ _ _ (by decide) (fun x => by ring) rfl rfl rfl).2.2⟩

/-! ### The claim on the bin storage -/

namespace EqtimeObj

variable {K : Type}

/-- After `initial()` on an object whose map has no entries, each of the six
vectors has no element, and no call `write_Stats_to_bins(k)` finds the element
it assigns to. -/
theorem initial_of_empty (o : EqtimeObj K) (he : ∀ name, o.obs_bin_eqtime name = none)
    (k : Nat) :
    (∀ name, name ∈ names →
        (initial o).obs_bin_eqtime name = some ⟨[], max 0 o.nbin⟩)
    ∧ write_Stats_to_bins k (initial o) = none := by
  constructor
  · intro name hn
    simp only [names, List.mem_cons, List.mem_singleton, List.not_mem_nil, or_false] at hn
    rcases hn with rfl | rfl | rfl | rfl | rfl | rfl <;>
      simp [initial, reserve_bin, bin, he, Function.update, Vec.reserve, Vec.nil]
  · simp [write_Stats_to_bins, write_bin, initial, reserve_bin, bin, he, Function.update,
      Vec.reserve, Vec.nil, Vec.assign]

end EqtimeObj

/-- C18, the code at the failing input. On a measurement object with `nbin = 1`
whose map has no entries, `initial()` leaves each of the six vectors without any
element, with storage reserved for one; `write_Stats_to_bins(0)` then assigns to
an element that does not exist. -/
theorem bins_reserved_not_sized :
    (∀ name, name ∈ EqtimeObj.names →
      (((Toy.fresh).initial).bin name).size = 0 ∧ (((Toy.fresh).initial).bin name).capacity = 1)
    ∧ (Toy.fresh).nbin = 1
    ∧ EqtimeObj.write_Stats_to_bins 0 (Toy.fresh).initial = none := by
  obtain ⟨h1, h2⟩ := EqtimeObj.initial_of_empty Toy.fresh (fun _ => rfl) 0
  refine ⟨fun name hn => ?_, rfl, h2⟩
  rw [EqtimeObj.bin, h1 name hn]
  exact ⟨rfl, rfl⟩

/-! ### The claims on the field file -/


namespace DetQMC

variable {K G D : Type} [LinearOrderedField K] {ll lt : Nat}

theorem read_record_some {r c : Nat} (st st' : ReadLoop K r c) (x : Record K)
    (e : read_record st x = some st') :
    inField r c x ∧ st'.lt = max st.lt x.l ∧ st'.ls = max st.ls x.i := by
  unfold read_record at e
  by_cases hx : inField r c x
  · rw [dif_pos hx] at e
    cases e
    exact ⟨hx, rfl, rfl⟩
  · rw [dif_neg hx] at e
    cases e

theorem read_record_none {r c : Nat} (st : ReadLoop K r c) (x : Record K)
    (hx : ¬ inField r c x) : read_record st x = none := by
  unfold read_record
  rw [dif_neg hx]

theorem read_record_returns {r c : Nat} (st : ReadLoop K r c) (x : Record K)
    (hx : inField r c x) : ∃ st', read_record st x = some st' := by
  unfold read_record
  rw [dif_pos hx]
  exact ⟨_, rfl⟩

theorem read_from_append {r c : Nat} :
    ∀ (a b : List (Record K)) (st : ReadLoop K r c),
      read_from st (a ++ b) = (read_from st a).bind fun st' => read_from st' b := by
  intro a
  induction a with
  | nil => intro b st; rfl
  | cons x a ih =>
    intro b st
    rw [List.cons_append]
    simp only [read_from]
    cases read_record st x with
    | none => rfl
    | some st1 => exact ih b st1

theorem read_from_some {r c : Nat} :
    ∀ (recs : List (Record K)) (st st' : ReadLoop K r c), read_from st recs = some st' →
      (∀ x ∈ recs, inField r c x)
      ∧ st'.lt = (recs.map Record.l).foldl max st.lt
      ∧ st'.ls = (recs.map Record.i).foldl max st.ls := by
  intro recs
  induction recs with
  | nil =>
    intro st st' e
    cases e
    exact ⟨by simp, rfl, rfl⟩
  | cons x recs ih =>
    intro st st' e
    simp only [read_from] at e
    cases e1 : read_record st x with
    | none => rw [e1] at e; cases e
    | some st1 =>
      rw [e1] at e
      obtain ⟨hx, h1, h2⟩ := read_record_some st st1 x e1
      obtain ⟨k1, k2, k3⟩ := ih st1 st' e
      refine ⟨fun y hy => ?_, ?_, ?_⟩
      · rcases List.mem_cons.mp hy with e | e
        · rw [e]; exact hx
        · exact k1 y e
      · rw [k2, h1]; rfl
      · rw [k3, h2]; rfl

theorem read_from_returns {r c : Nat} :
    ∀ (recs : List (Record K)) (st : ReadLoop K r c), (∀ x ∈ recs, inField r c x) →
      ∃ st', read_from st recs = some st' := by
  intro recs
  induction recs with
  | nil => intro st _; exact ⟨st, rfl⟩
  | cons x recs ih =>
    intro st hall
    obtain ⟨st1, e1⟩ := read_record_returns st x (hall x (List.mem_cons_self _ _))
    obtain ⟨st', e'⟩ := ih st1 fun y hy => hall y (List.mem_cons_of_mem _ hy)
    refine ⟨st', ?_⟩
    simp only [read_from, e1]
    exact e'

theorem foldl_max_le : ∀ (xs : List Int) (a M : Int),
    (xs.foldl max a ≤ M ↔ a ≤ M ∧ ∀ x ∈ xs, x ≤ M) := by
  intro xs
  induction xs with
  | nil => intro a M; simp
  | cons x xs ih =>
    intro a M
    rw [List.foldl_cons, ih]
    simp only [max_le_iff, List.mem_cons, forall_eq_or_imp]
    tauto

theorem read_field_none_iff {r c : Nat} (s : Matrix (Fin r) (Fin c) K)
    (records : List (Record K)) :
    read_field s records = none ↔
      (∃ x ∈ records, ¬ inField r c x)
      ∨ (records.map Record.l).foldl max 0 ≠ (c : Int) - 1
      ∨ (records.map Record.i).foldl max 0 ≠ (r : Int) - 1 := by
  unfold read_field
  by_cases hall : ∀ x ∈ records, inField r c x
  · obtain ⟨st, e⟩ := read_from_returns records ⟨s, 0, 0⟩ hall
    obtain ⟨_, h1, h2⟩ := read_from_some records _ st e
    have e' : read_loop s records = some st := e
    rw [e']
    simp only [read_check, Bool.and_eq_true, decide_eq_true_eq, h1, h2]
    constructor
    · intro hn
      right
      by_contra hc
      rw [not_or, not_not, not_not] at hc
      rw [if_pos ⟨by rw [hc.1]; ring, by rw [hc.2]; ring⟩] at hn
      cases hn
    · rintro (⟨x, hx, hnx⟩ | hm | hm)
      · exact absurd (hall x hx) hnx
      · rw [if_neg]
        intro hc
        exact hm (by rw [← hc.1]; ring)
      · rw [if_neg]
        intro hc
        exact hm (by rw [← hc.2]; ring)
  · have hnone : read_loop s records = none := by
      cases e : read_loop s records with
      | none => rfl
      | some st => exact absurd (read_from_some records _ st e).1 hall
    rw [hnone]
    simp only [true_iff]
    left
    push_neg at hall
    exact hall

end DetQMC

open DetQMC in
/-- C12, a read that is rejected although both maxima match. On the one-site,
two-slice model (`ls = 1`, `lt = 2`) the file with the lines `(l, i) = (-1, 0)`,
`(0, 0)`, `(1, 0)` has maximum `l = 1 = lt - 1` and maximum `i = 0 = ls - 1`;
the store `s(0, -1)` of its first line fails the bounds check of the element
access, and the read is rejected. -/
theorem read_rejects_with_matching_maxima :
    ((∃ x ∈ ([⟨-1, 0, 1⟩, ⟨0, 0, 1⟩, ⟨1, 0, 1⟩] : List (Record ℚ)), x.l = 2 - 1)
      ∧ (∀ x ∈ ([⟨-1, 0, 1⟩, ⟨0, 0, 1⟩, ⟨1, 0, 1⟩] : List (Record ℚ)), x.l ≤ 2 - 1)
      ∧ (∃ x ∈ ([⟨-1, 0, 1⟩, ⟨0, 0, 1⟩, ⟨1, 0, 1⟩] : List (Record ℚ)), x.i = 1 - 1)
      ∧ (∀ x ∈ ([⟨-1, 0, 1⟩, ⟨0, 0, 1⟩, ⟨1, 0, 1⟩] : List (Record ℚ)), x.i ≤ 1 - 1))
    ∧ read_record (⟨Toy.state.s, 0, 0⟩ : ReadLoop ℚ 1 2) ⟨-1, 0, 1⟩ = none
    ∧ read_field Toy.state.s [⟨-1, 0, 1⟩, ⟨0, 0, 1⟩, ⟨1, 0, 1⟩] = none
    ∧ read_aux_field_configs (Toy.ext Toy.never) Toy.qmc [⟨-1, 0, 1⟩, ⟨0, 0, 1⟩, ⟨1, 0, 1⟩]
        = none := by
  refine ⟨⟨⟨⟨1, 0, 1⟩, by simp, by norm_num⟩, by simp, ⟨⟨0, 0, 1⟩, by simp, by norm_num⟩, by simp⟩,
    rfl, rfl, rfl⟩

open Hubbard DetQMC in
/-- C12, amended. `read_aux_field_configs` on a list of records, for a model
`h` behind `hubb`. Its loop and assertions reject the read exactly when some
record has `i` or `l` outside the field, or the running maximum of the `l`,
started at `0`, differs from `lt - 1`, or that of the `i` differs from `ls - 1`.
For records with non-negative indices whose greatest `l` is `Ml` and greatest
`i` is `Mi`, this is: exactly when `Ml ≠ lt - 1` or `Mi ≠ ls - 1`. The failure
for a record outside the field is raised at its store: the loop returns on the
lines before the first such record and ends at that record, and every record of
a list on which the loop returns lies in the field. A read rejected there is
rejected by the method, and an accepted one goes on to `init_stacks(nwrap)` with
the field read. -/
theorem read_rejected_iff {K G D : Type} [LinearOrderedField K] {ll lt : Nat}
    (E : Ext K G (ll * ll) lt) (d : DetQMC K G D ll lt) (h : Hubbard K G (ll * ll) lt)
    (records : List (Record K)) (hh : d.hubb = some h) :
    (read_field h.s records = none ↔
      (∃ x ∈ records, ¬ inField (ll * ll) lt x)
      ∨ (records.map Record.l).foldl max 0 ≠ (lt : Int) - 1
      ∨ (records.map Record.i).foldl max 0 ≠ ((ll * ll : Nat) : Int) - 1)
    ∧ (∀ Ml Mi : Int, (∀ x ∈ records, 0 ≤ x.l ∧ 0 ≤ x.i) →
        (∃ x ∈ records, x.l = Ml) → (∀ x ∈ records, x.l ≤ Ml) →
        (∃ x ∈ records, x.i = Mi) → (∀ x ∈ records, x.i ≤ Mi) →
        (read_field h.s records = none ↔ Ml ≠ (lt : Int) - 1 ∨ Mi ≠ ((ll * ll : Nat) : Int) - 1))
    ∧ (∀ pre x post, records = pre ++ x :: post → (∀ y ∈ pre, inField (ll * ll) lt y) →
        ¬ inField (ll * ll) lt x →
        (∃ st, read_loop h.s pre = some st ∧ read_record st x = none)
        ∧ read_loop h.s (pre ++ [x]) = none ∧ read_loop h.s records = none)
    ∧ (∀ st, read_loop h.s records = some st → ∀ x ∈ records, inField (ll * ll) lt x)
    ∧ (read_field h.s records = none → read_aux_field_configs E d records = none)
    ∧ (∀ s, read_field h.s records = some s →
        read_aux_field_configs E d records
          = (init_stacks E { h with s := s } d.nwrap).map fun h' => { d with hubb := some h' }) := by
  refine ⟨read_field_none_iff h.s records, ?_, ?_, ?_, ?_, ?_⟩
  · intro Ml Mi hpos ⟨xl, hxl, exl⟩ hMl ⟨xi, hxi, exi⟩ hMi
    have fl : (records.map Record.l).foldl max 0 = Ml := by
      apply le_antisymm
      · refine (foldl_max_le _ _ _).mpr ⟨?_, fun y hy => ?_⟩
        · rw [← exl]; exact (hpos xl hxl).1
        · obtain ⟨x, hx, e⟩ := List.mem_map.mp hy
          rw [← e]; exact hMl x hx
      · rw [← exl]
        exact ((foldl_max_le _ _ _).mp le_rfl).2 _ (List.mem_map.mpr ⟨xl, hxl, rfl⟩)
    have fi : (records.map Record.i).foldl max 0 = Mi := by
      apply le_antisymm
      · refine (foldl_max_le _ _ _).mpr ⟨?_, fun y hy => ?_⟩
        · rw [← exi]; exact (hpos xi hxi).2
        · obtain ⟨x, hx, e⟩ := List.mem_map.mp hy
          rw [← e]; exact hMi x hx
      · rw [← exi]
        exact ((foldl_max_le _ _ _).mp le_rfl).2 _ (List.mem_map.mpr ⟨xi, hxi, rfl⟩)
    rw [read_field_none_iff, fl, fi]
    constructor
    · rintro (⟨x, hx, hnx⟩ | hm | hm)
      · have h1 := hpos x hx
        have h2 := hMl x hx
        have h3 := hMi x hx
        by_contra hc
        rw [not_or, not_not, not_not] at hc
        apply hnx
        refine ⟨h1.2, ?_, h1.1, ?_⟩ <;> omega
      · exact Or.inl hm
      · exact Or.inr hm
    · rintro (hm | hm)
      · exact Or.inr (Or.inl hm)
      · exact Or.inr (Or.inr hm)
  · intro pre x post e hpre hx
    obtain ⟨st, est⟩ := read_from_returns pre ⟨h.s, 0, 0⟩ hpre
    have e1 : read_from ⟨h.s, 0, 0⟩ (pre ++ [x]) = none := by
      rw [read_from_append, est]
      simp only [Option.some_bind, read_from, read_record_none st x hx]
    refine ⟨⟨st, est, read_record_none st x hx⟩, e1, ?_⟩
    rw [e]
    show read_from ⟨h.s, 0, 0⟩ (pre ++ x :: post) = none
    rw [read_from_append, est]
    simp only [Option.some_bind, read_from, read_record_none st x hx]
  · intro st e
    exact (read_from_some records _ st e).1
  · intro e
    unfold read_aux_field_configs
    rw [hh]
    simp only [e]
  · intro s e
    unfold read_aux_field_configs
    rw [hh]
    simp only [e]
    cases init_stacks E { h with s := s } d.nwrap <;> rfl

open Hubbard DetQMC in
/-- The hypothesis of C12 holds on the one-site instance; the file has a third
line with `l = 2 = lt`, and the loop ends at that line. -/
theorem read_rejected_iff_witness :
    (Toy.qmc.hubb = some Toy.state)
    ∧ (read_field Toy.state.s [⟨0, 0, 1⟩, ⟨1, 0, -1⟩, ⟨2, 0, 1⟩] = none
        ↔ (2 : Int) ≠ ((2 : Nat) : Int) - 1 ∨ (0 : Int) ≠ ((1 * 1 : Nat) : Int) - 1)
    ∧ (∃ st, read_loop Toy.state.s [⟨0, 0, 1⟩, ⟨1, 0, -1⟩] = some st
        ∧ read_record st ⟨2, 0, 1⟩ = none) := by
  obtain ⟨_, h2, h3, _⟩ := read_rejected_iff (Toy.ext Toy.never) Toy.qmc Toy.state
    [⟨0, 0, 1⟩, ⟨1, 0, -1⟩, ⟨2, 0, 1⟩] rfl
  refine ⟨rfl, ?_, ?_⟩
  · exact h2 2 0 (by simp) ⟨⟨2, 0, 1⟩, by simp, rfl⟩ (by simp)
      ⟨⟨0, 0, 1⟩, by simp, rfl⟩ (by simp)
  · exact (h3 [⟨0, 0, 1⟩, ⟨1, 0, -1⟩] ⟨2, 0, 1⟩ [] rfl (by simp [inField]) (by simp [inField])).1

namespace DetQMC

variable {K G D : Type} [LinearOrderedField K] {ll lt : Nat}

theorem init_stacks_refuses (E : Ext K G (ll * ll) lt) (h : Hubbard K G (ll * ll) lt) (w : Nat)
    (hne : h.stackRightU.empty = false) : Hubbard.init_stacks E h w = none := by
  unfold Hubbard.init_stacks
  rw [if_neg]
  simp [hne]

theorem read_refused (E : Ext K G (ll * ll) lt) (d : DetQMC K G D ll lt)
    (h : Hubbard K G (ll * ll) lt) (records : List (Record K)) (hh : d.hubb = some h)
    (hne : h.stackRightU.empty = false) : read_aux_field_configs E d records = none := by
  unfold read_aux_field_configs
  rw [hh]
  dsimp only
  cases read_field h.s records with
  | none => rfl
  | some s => dsimp only; rw [init_stacks_refuses E { h with s := s } d.nwrap hne]

end DetQMC

open Hubbard DetQMC in
/-- C13, what the code does instead. For `lt ≥ 1` the model that
`set_model_params` constructs has both right stacks of depth `⌈lt / nwrap⌉ ≥ 1`,
filled by the constructor's own `init_stacks(nwrap)`; `init_stacks` on this
model, whatever the field, fails its assertion that the right stacks are empty,
and `read_aux_field_configs` on it fails for every list of records. -/
theorem read_after_constructor_fails {K G D : Type} [LinearOrderedField K] {ll lt : Nat}
    (E : Ext K G (ll * ll) lt) (d : DetQMC K G D ll lt) (beta Uint : K) (nwrap : Nat) (gen : G)
    (records : List (Record K)) (hlt : 1 ≤ lt) :
    ∃ d1 h, set_model_params E d beta Uint nwrap gen = some d1
      ∧ d1.hubb = some h ∧ d1.nwrap = nwrap
      ∧ h.stackRightU.len = nlen lt nwrap ∧ h.stackRightD.len = nlen lt nwrap
      ∧ 1 ≤ nlen lt nwrap
      ∧ h.stackRightU.empty = false
      ∧ (∀ s, init_stacks E { h with s := s } nwrap = none)
      ∧ read_aux_field_configs E d1 records = none := by
  obtain ⟨_, _, h, _, _, _, e, _, _, S, _⟩ := create_spec E beta Uint nwrap gen hlt
  have hpos : 1 ≤ nlen lt nwrap := by
    rw [nlen_eq lt nwrap hlt]; exact Nat.le_add_left 1 _
  have hne : h.stackRightU.empty = false := by
    simp only [SvdStack.empty, beq_eq_false_iff_ne, ne_eq]
    rw [S.2.2.1]; omega
  refine ⟨{ d with nwrap := nwrap, hubb := some h }, h, ?_, rfl, rfl, S.2.2.1, S.2.2.2.1, hpos,
    hne, fun s => init_stacks_refuses E _ _ hne, read_refused E _ h records rfl hne⟩
  unfold set_model_params
  rw [e]

open Hubbard DetQMC in
/-- The hypothesis of C13 holds on the one-site instance with `lt = 2`; the
records are a well-formed file for it. -/
theorem read_after_constructor_fails_witness :
    (1 ≤ 2)
    ∧ ∃ d1, set_model_params (Toy.ext Toy.fromTape) Toy.qmc 1 4 1 [true, false] = some d1
      ∧ read_aux_field_configs (Toy.ext Toy.fromTape) d1 [⟨0, 0, 1⟩, ⟨1, 0, -1⟩] = none := by
  refine ⟨by decide, ?_⟩
  obtain ⟨d1, _, e, _, _, _, _, _, _, _, r⟩ :=
    read_after_constructor_fails (Toy.ext Toy.fromTape) Toy.qmc 1 4 1 [true, false]
      [⟨0, 0, 1⟩, ⟨1, 0, -1⟩] (by decide)
  exact ⟨d1, e, r⟩

namespace DetQMC

variable {K G D : Type} [LinearOrderedField K] {ll lt : Nat}

theorem foldl_snoc {α β : Type} (f : α → β) :
    ∀ (l : List α) (init : List β), l.foldl (fun out x => out ++ [f x]) init = init ++ l.map f := by
  intro l
  induction l with
  | nil => intro init; simp
  | cons x l ih => intro init; rw [List.foldl_cons, ih]; simp

theorem foldl_chunks {α β : Type} (g : α → List β) (F : List β → α → List β)
    (hF : ∀ out x, F out x = out ++ g x) :
    ∀ (l : List α) (init : List β), l.foldl F init = init ++ l.flatMap g := by
  intro l
  induction l with
  | nil => intro init; simp
  | cons x l ih => intro init; rw [List.foldl_cons, ih, hF]; simp

theorem output_eq {r c : Nat} (s : Matrix (Fin r) (Fin c) K) :
    (List.finRange c).foldl (fun out l =>
      (List.finRange r).foldl (fun out i =>
        out ++ [(⟨(l.1 : Int), (i.1 : Int), s i l⟩ : Record K)]) out) []
      = ((List.finRange c) ×ˢ (List.finRange r)).map
          (fun p => (⟨(p.1.1 : Int), (p.2.1 : Int), s p.2 p.1⟩ : Record K)) := by
  rw [foldl_chunks (fun l => (List.finRange r).map
      (fun i => (⟨(l.1 : Int), (i.1 : Int), s i l⟩ : Record K))) _
      (fun out l => foldl_snoc _ _ out)]
  simp [SProd.sprod, List.product, List.map_flatMap, List.map_map, Function.comp_def]

theorem read_record_inrange {r c : Nat} (st : ReadLoop K r c) (l : Fin c) (i : Fin r) (v : K) :
    read_record st ⟨(l.1 : Int), (i.1 : Int), v⟩
      = some ⟨Hubbard.setEntry st.s i l v, max st.lt (l.1 : Int), max st.ls (i.1 : Int)⟩ := by
  have hx : 0 ≤ ((i.1 : Nat) : Int) ∧ ((i.1 : Nat) : Int) < (r : Int)
      ∧ 0 ≤ ((l.1 : Nat) : Int) ∧ ((l.1 : Nat) : Int) < (c : Int) := by
    have := i.2; have := l.2; omega
  unfold read_record
  simp only [dif_pos hx, Int.toNat_ofNat, Fin.eta]

theorem read_loop_spec {r c : Nat} (S : Matrix (Fin r) (Fin c) K) :
    ∀ (ps : List (Fin c × Fin r)) (st : ReadLoop K r c),
      ∃ st', read_from st
          (ps.map fun p => (⟨(p.1.1 : Int), (p.2.1 : Int), S p.2 p.1⟩ : Record K)) = some st'
        ∧ (∀ i l, (l, i) ∈ ps → st'.s i l = S i l)
        ∧ (∀ i l, (l, i) ∉ ps → st'.s i l = st.s i l)
        ∧ (∀ M : Int, (st'.lt ≤ M ↔ st.lt ≤ M ∧ ∀ p ∈ ps, (p.1.1 : Int) ≤ M))
        ∧ (∀ M : Int, (st'.ls ≤ M ↔ st.ls ≤ M ∧ ∀ p ∈ ps, (p.2.1 : Int) ≤ M)) := by
  intro ps
  induction ps with
  | nil => intro st; exact ⟨st, rfl, by simp, by simp, by simp, by simp⟩
  | cons p ps ih =>
    intro st
    obtain ⟨st', e, h2, h3, h4, h5⟩ := ih
      ⟨Hubbard.setEntry st.s p.2 p.1 (S p.2 p.1), max st.lt (p.1.1 : Int),
        max st.ls (p.2.1 : Int)⟩
    refine ⟨st', ?_, fun i l hm => ?_, fun i l hm => ?_, fun M => ?_, fun M => ?_⟩
    · rw [List.map_cons]
      simp only [read_from, read_record_inrange]
      exact e
    · by_cases hin : (l, i) ∈ ps
      · exact h2 i l hin
      · rw [h3 i l hin]
        have : (l, i) = p := by
          rcases List.mem_cons.mp hm with e | e
          · exact e
          · exact absurd e hin
        subst this
        simp [Hubbard.setEntry]
    · have hne : (l, i) ≠ p := fun e => hm (by rw [e]; exact List.mem_cons_self _ _)
      have hin : (l, i) ∉ ps := fun e => hm (List.mem_cons_of_mem _ e)
      rw [h3 i l hin]
      have : ¬ (i = p.2 ∧ l = p.1) := fun ⟨e1, e2⟩ => hne (by rw [e1, e2])
      simp [Hubbard.setEntry, this]
    · rw [h4 M]
      simp only [max_le_iff, List.mem_cons, forall_eq_or_imp]
      tauto
    · rw [h5 M]
      simp only [max_le_iff, List.mem_cons, forall_eq_or_imp]
      tauto

end DetQMC

open DetQMC in
/-- C14. Round trip of a field file at the level of records, on a model with
`ll ≥ 1` and `lt ≥ 1`: `file_output_aux_field_configs` writes the records
`(l, i, s(i, l))`, one for every `l < lt` and `i < ls` and no other, no two with
the same `(l, i)`; the loop of `read_aux_field_configs` run on these records,
on a model of the same dimensions with any field `s0`, returns (no store falls
outside the field), passes the two assertions on the dimensions, and leaves the
field equal to `s` at every `(i, l)`. -/
theorem field_file_round_trip {K G D : Type} [LinearOrderedField K] {ll lt : Nat}
    (d : DetQMC K G D ll lt) (h : Hubbard K G (ll * ll) lt)
    (s0 : Matrix (Fin (ll * ll)) (Fin lt) K)
    (hll : 1 ≤ ll) (hlt : 1 ≤ lt) (hh : d.hubb = some h) :
    ∃ records, file_output_aux_field_configs d = some records
      ∧ (∀ x, x ∈ records ↔ ∃ (l : Fin lt) (i : Fin (ll * ll)), x = ⟨(l.1 : Int), (i.1 : Int), h.s i l⟩)
      ∧ (records.map fun x => (x.l, x.i)).Nodup
      ∧ records.length = lt * (ll * ll)
      ∧ ∃ st, read_loop s0 records = some st
        ∧ read_check st = true
        ∧ (∀ i l, st.s i l = h.s i l)
        ∧ read_field s0 records = some st.s := by
  have hls : 1 ≤ ll * ll := Nat.mul_le_mul hll hll
  refine ⟨_, by unfold file_output_aux_field_configs; rw [hh], ?_⟩
  rw [output_eq]
  obtain ⟨st, e, r2, _, r4, r5⟩ := read_loop_spec h.s
    ((List.finRange lt) ×ˢ (List.finRange (ll * ll))) ⟨s0, 0, 0⟩
  have hall : ∀ (i : Fin (ll * ll)) (l : Fin lt),
      (l, i) ∈ (List.finRange lt) ×ˢ (List.finRange (ll * ll)) := fun i l =>
    List.mem_product.mpr ⟨List.mem_finRange l, List.mem_finRange i⟩
  have hc : read_check st = true := by
    have hlt' : st.lt = (lt : Int) - 1 := by
      apply le_antisymm
      · refine (r4 _).mpr ⟨by show (0 : Int) ≤ _; omega, fun p _ => ?_⟩
        have := p.1.2; omega
      · have := ((r4 _).mp le_rfl).2 (⟨lt - 1, by omega⟩, ⟨0, by omega⟩) (hall _ _)
        simp only at this
        omega
    have hls' : st.ls = ((ll * ll : Nat) : Int) - 1 := by
      apply le_antisymm
      · refine (r5 _).mpr ⟨by show (0 : Int) ≤ _; omega, fun p _ => ?_⟩
        have := p.2.2; omega
      · have := ((r5 _).mp le_rfl).2 (⟨0, by omega⟩, ⟨ll * ll - 1, by omega⟩) (hall _ _)
        simp only at this
        omega
    unfold read_check
    rw [hlt', hls']
    simp
  refine ⟨fun x => ?_, ?_, ?_, st, e, hc, fun i l => r2 i l (hall i l), ?_⟩
  · simp only [List.mem_map, Prod.exists]
    constructor
    · rintro ⟨l, i, _, e⟩; exact ⟨l, i, e.symm⟩
    · rintro ⟨l, i, e⟩; exact ⟨l, i, hall i l, e.symm⟩
  · rw [List.map_map]
    apply List.Nodup.map
    · intro p p' e
      simp only [Function.comp_apply, Prod.mk.injEq, Nat.cast_inj] at e
      exact Prod.ext (Fin.ext e.1) (Fin.ext e.2)
    · exact List.Nodup.product (List.nodup_finRange _) (List.nodup_finRange _)
  · simp [List.length_product]
  · unfold read_field
    have e' : read_loop s0 (((List.finRange lt) ×ˢ (List.finRange (ll * ll))).map
        fun p => (⟨(p.1.1 : Int), (p.2.1 : Int), h.s p.2 p.1⟩ : Record K)) = some st := e
    rw [e']
    simp only [hc, if_true]

open DetQMC in
/-- The hypotheses of C14 hold on the one-site instance. -/
theorem field_file_round_trip_witness :
    (1 ≤ 1 ∧ 1 ≤ 2 ∧ Toy.qmc.hubb = some Toy.state)
    ∧ ∃ records st, file_output_aux_field_configs Toy.qmc = some records
      ∧ read_loop (0 : Matrix (Fin (1 * 1)) (Fin 2) ℚ) records = some st
      ∧ read_check st = true
      ∧ ∀ i l, st.s i l = Toy.state.s i l := by
  refine ⟨⟨by decide, by decide, rfl⟩, ?_⟩
  obtain ⟨records, e, _, _, _, st, e', c, s, _⟩ :=
    field_file_round_trip Toy.qmc Toy.state 0 (by decide) (by decide) rfl
  exact ⟨records, st, e, e', c, s⟩

/-! ### The claim on the number of measurements -/

namespace eqtimeMeasure

variable {K G : Type} [LinearOrderedField K] {lt : Nat}

end eqtimeMeasure

namespace DetQMC

variable {K G D : Type} [LinearOrderedField K] {ll lt : Nat}

theorem ready_of {d d' : DetQMC K G D ll lt} (hh : d'.hubb = d.hubb) (hw : d'.nwrap = d.nwrap)
    (hR : Ready d) : Ready d' := by
  obtain ⟨h, e, c, S⟩ := hR
  exact ⟨h, hh.trans e, c, by rw [hw]; exact S⟩

end DetQMC

namespace EqtimeObj

variable {K : Type}

end EqtimeObj

namespace DetQMC

variable {K G D : Type} [LinearOrderedField K] {ll lt : Nat}

end DetQMC

namespace DetQMC

variable {K G D : Type} [LinearOrderedField K] {ll lt : Nat}

end DetQMC

namespace Hubbard

variable {K G : Type} [LinearOrderedField K] {ls lt : Nat}

/-- The matrix `e_i e_iᵀ (1 - g)` has `e_iᵀ - g[i, :]` in row `i` and zeros
elsewhere. -/
theorem unit_mul_apply (g : Mat K ls) (i a b : Fin ls) :
    (Matrix.vecMulVec (Pi.single i (1 : K)) (Pi.single i (1 : K)) * (1 - g)) a b
      = if a = i then (if b = i then 1 else 0) - g i b else 0 := by
  rw [Matrix.mul_apply]
  simp only [Matrix.vecMulVec_apply, Pi.single_apply, Matrix.sub_apply, Matrix.one_apply]
  by_cases ha : a = i
  · simp only [ha, if_true, one_mul]
    rw [Finset.sum_eq_single i]
    · simp only [if_true, one_mul]
      by_cases hb : b = i
      · simp [hb]
      · have : ¬ i = b := fun e => hb e.symm
        simp [hb, this]
    · intro k _ hk; simp [hk]
    · intro hi; exact absurd (Finset.mem_univ i) hi
  · simp [ha]

theorem unit_mul_eq (g : Mat K ls) (i : Fin ls) :
    Matrix.vecMulVec (Pi.single i (1 : K)) (Pi.single i (1 : K)) * (1 - g)
      = Matrix.vecMulVec (Pi.single i (1 : K)) (fun b => (if b = i then 1 else 0) - g i b) := by
  ext a b
  rw [unit_mul_apply, Matrix.vecMulVec_apply, Pi.single_apply]
  split <;> simp

theorem rank_one_inverse (g : Mat K ls) (i : Fin ls) (γ : K)
    (hγ : 1 + (1 - g i i) * γ ≠ 0) :
    rank_one_update g (γ / (1 + (1 - g i i) * γ)) i
        * (1 + γ • (Matrix.vecMulVec (Pi.single i (1 : K)) (Pi.single i (1 : K)) * (1 - g)))
      = g := by
  ext a b
  rw [Matrix.mul_apply]
  simp only [Matrix.add_apply, Matrix.smul_apply, unit_mul_apply, Matrix.one_apply, smul_eq_mul,
    mul_add, Finset.sum_add_distrib]
  rw [Finset.sum_eq_single b (fun k _ hk => by simp [hk]) (fun hb => absurd (Finset.mem_univ b) hb),
    Finset.sum_eq_single i (fun k _ hk => by simp [hk]) (fun hi => absurd (Finset.mem_univ i) hi)]
  simp only [if_true, mul_one, rank_one_update, Matrix.sub_apply, Matrix.vecMulVec_apply,
    Pi.smul_apply, smul_eq_mul]
  field_simp
  ring

theorem rank_one_det (g : Mat K ls) (i : Fin ls) (γ : K) :
    (1 + γ • (Matrix.vecMulVec (Pi.single i (1 : K)) (Pi.single i (1 : K)) * (1 - g))).det
      = 1 + (1 - g i i) * γ := by
  have e : γ • Matrix.vecMulVec (Pi.single i (1 : K))
        (fun b => (if b = i then 1 else 0) - g i b)
      = Matrix.vecMulVec (Pi.single i (1 : K))
        (fun b => γ * ((if b = i then 1 else 0) - g i b)) := by
    ext a b
    simp only [Matrix.smul_apply, Matrix.vecMulVec_apply, smul_eq_mul]
    ring
  rw [unit_mul_eq, e, Matrix.vecMulVec_eq Unit, Matrix.det_one_add_col_mul_row]
  simp only [Matrix.dotProduct, Pi.single_apply, mul_ite, mul_one, mul_zero,
    Finset.sum_ite_eq', Finset.mem_univ, if_true]
  ring


end Hubbard

open Hubbard in
/-- C22. The accepted-flip update is a Sherman–Morrison update. For every
matrix `G`, site `i` and number `γ` with `1 + (1 - G(i,i)) γ ≠ 0`, the matrix
`G' = G - γ / (1 + (1 - G(i,i)) γ) · G[:,i] · (e_iᵀ - G[i,:])`, its right side
read on `G` as it was, satisfies `G' · (1 + γ · e_i e_iᵀ (1 - G)) = G`, and
`det (1 + γ · e_i e_iᵀ (1 - G)) = 1 + (1 - G(i,i)) γ`. At a site whose proposal
is accepted, `metropolis_update` replaces `green_tt_up` by this `G'` for
`G = green_tt_up` and `γ = e^{-2 α s(i,τ)} - 1`, and `1 + (1 - G(i,i)) γ` is the
spin-up factor of the acceptance number `p`. -/
theorem accepted_flip_sherman_morrison {K G : Type} [LinearOrderedField K] {ls lt : Nat}
    (E : Ext K G ls lt) (tau : Fin lt) (i : Fin ls) (h : Hubbard K G ls lt)
    (g : Mat K ls) (γ : K) (hγ : 1 + (1 - g i i) * γ ≠ 0) :
    rank_one_update g (γ / (1 + (1 - g i i) * γ)) i
        * (1 + γ • (Matrix.vecMulVec (Pi.single i (1 : K)) (Pi.single i (1 : K)) * (1 - g)))
      = g
    ∧ (1 + γ • (Matrix.vecMulVec (Pi.single i (1 : K)) (Pi.single i (1 : K)) * (1 - g))).det
      = 1 + (1 - g i i) * γ
    ∧ ((E.bernoulli (min 1 |metropolis_p E h tau i|) h.random_seed_generate).1 = true →
        (metropolis_site E tau h i).green_tt_up
          = rank_one_update h.green_tt_up
              ((E.exp (-2 * h.alpha * h.s i tau) - 1)
                / (1 + (1 - h.green_tt_up i i) * (E.exp (-2 * h.alpha * h.s i tau) - 1))) i)
    ∧ metropolis_p E h tau i
      = (1 + (1 - h.green_tt_up i i) * (E.exp (-2 * h.alpha * h.s i tau) - 1))
        * (if h.u_is_attractive = true then
            E.exp (2 * h.alpha * h.s i tau)
              * (1 + (1 - h.green_tt_dn i i) * (E.exp (-2 * h.alpha * h.s i tau) - 1))
          else 1 + (1 - h.green_tt_dn i i) * (E.exp (2 * h.alpha * h.s i tau) - 1)) := by
  refine ⟨rank_one_inverse g i γ hγ, rank_one_det g i γ, fun hacc => ?_, ?_⟩
  · unfold metropolis_site
    simp only [hacc, if_true]
    rfl
  · unfold metropolis_p
    cases h.u_is_attractive
    · simp
    · simp only [Bool.not_true, Bool.false_eq_true, if_false, if_true]
      ring

open Hubbard in
/-- The hypothesis of C22 holds on the one-site instance with `γ = 1`, where
`G(0,0) = 1/2`. -/
theorem accepted_flip_sherman_morrison_witness :
    (1 + (1 - Toy.state.green_tt_up 0 0) * 1 ≠ 0)
    ∧ rank_one_update Toy.state.green_tt_up (1 / (1 + (1 - Toy.state.green_tt_up 0 0) * 1)) 0
        * (1 + (1 : ℚ) • (Matrix.vecMulVec (Pi.single 0 (1 : ℚ)) (Pi.single 0 (1 : ℚ))
            * (1 - Toy.state.green_tt_up)))
      = Toy.state.green_tt_up := by
  have hγ : 1 + (1 - Toy.state.green_tt_up 0 0) * 1 ≠ 0 := by
    simp only [Toy.state]; norm_num
  exact ⟨hγ, (accepted_flip_sherman_morrison (Toy.ext Toy.fromTape) 0 0 Toy.state
    Toy.state.green_tt_up 1 hγ).1⟩

/-! ### The claim on the depth of the stacks -/


/-- The states a counting loop goes through when every iteration keeps an
invariant: `xs k` is the state after `k` iterations. -/
theorem forUp_states {σ : Type} (f : Nat → σ → Option σ) (I : Nat → σ → Prop) (cnt a : Nat)
    (step : ∀ l x, a ≤ l → l < a + cnt → I l x → ∃ x', f l x = some x' ∧ I (l + 1) x')
    (x : σ) (hx : I a x) :
    ∃ xs : Nat → σ, xs 0 = x ∧ forUp f cnt a x = some (xs cnt)
      ∧ (∀ k, k < cnt → f (a + k) (xs k) = some (xs (k + 1)))
      ∧ ∀ k, k ≤ cnt → I (a + k) (xs k) := by
  obtain ⟨x', e, _⟩ := forUp_invariant f I cnt a step x hx
  obtain ⟨xs, x0, xc, hxs⟩ := forUp_calls f cnt a x x' e
  refine ⟨xs, x0, by rw [xc]; exact e, hxs, fun k => ?_⟩
  induction k with
  | zero => intro _; rw [x0]; exact hx
  | succ k ih =>
    intro hk
    obtain ⟨x'', e'', hI⟩ := step (a + k) (xs k) (by omega) (by omega) (ih (by omega))
    rw [hxs k (by omega)] at e''
    injection e'' with e''
    rw [e'']
    exact hI

/-- The states a downward loop goes through when every iteration keeps an
invariant: `ys l` is the state before the iteration of index `l`, `ys 0` the
final one. -/
theorem forDown_states {σ : Type} (f : Nat → σ → Option σ) (I : Nat → σ → Prop) (n : Nat)
    (step : ∀ l x, l < n → I (l + 1) x → ∃ x', f (l + 1) x = some x' ∧ I l x')
    (x : σ) (hx : I n x) :
    ∃ ys : Nat → σ, ys n = x ∧ forDown f n x = some (ys 0)
      ∧ (∀ l, l < n → f (l + 1) (ys (l + 1)) = some (ys l))
      ∧ ∀ l, l ≤ n → I l (ys l) := by
  obtain ⟨x', e, _⟩ := forDown_invariant f I n step x hx
  obtain ⟨ys, yn, y0, hys⟩ := forDown_calls f n x x' e
  refine ⟨ys, yn, by rw [y0]; exact e, hys, ?_⟩
  have key : ∀ j, j ≤ n → I (n - j) (ys (n - j)) := by
    intro j
    induction j with
    | zero => intro _; rw [Nat.sub_zero, yn]; exact hx
    | succ j ih =>
      intro hj
      have hI := ih (by omega)
      have e1 : n - j = (n - (j + 1)) + 1 := by omega
      rw [e1] at hI
      obtain ⟨x'', e'', hI'⟩ := step (n - (j + 1)) _ (by omega) hI
      rw [hys (n - (j + 1)) (by omega)] at e''
      injection e'' with e''
      rw [e'']
      exact hI'
  intro l hl
  have := key (n - l) (by omega)
  rw [show n - (n - l) = l by omega] at this
  exact this

namespace Hubbard

variable {K G : Type} [LinearOrderedField K] {ls lt : Nat}

theorem within_of_shape {h : Hubbard K G ls lt} {c a b : Nat} (hS : Shape h c a b)
    (ha : a ≤ c) (hb : b ≤ c) : Within h c := by
  obtain ⟨s1, s2, s3, s4, c1, c2, c3, c4⟩ := hS
  refine ⟨⟨?_, ?_, ?_, ?_⟩, ?_, ?_, ?_, ?_⟩ <;> omega

theorem fwdDone_le (lt w l : Nat) (hlt : 1 ≤ lt) : fwdDone lt w l ≤ nlen lt w := by
  unfold fwdDone
  split
  · exact le_rfl
  · rw [nlen_eq lt w hlt]
    have : (l - 1) / w ≤ (lt - 1) / w := Nat.div_le_div_right (by omega)
    omega

theorem within_fwd (w l : Nat) (x : Loop K G ls lt) (hlt : 1 ≤ lt) (hI : FwdInv w l x) :
    Within x.1 (nlen lt w) :=
  within_of_shape hI.2 (fwdDone_le lt w l hlt) (Nat.sub_le _ _)

theorem within_bwd (w l : Nat) (x : Loop K G ls lt) (hlt : 1 ≤ lt) (hI : BwdInv w l x) :
    Within x.1 (nlen lt w) :=
  within_of_shape hI.2 (Nat.sub_le _ _) (le_of_lt (bwdDone_lt lt w l hlt))

/-- The loop states of `sweep_0_to_beta`. -/
theorem forward_states (E : Ext K G ls lt) (h : Hubbard K G ls lt) (w : Nat)
    (hlt : 1 ≤ lt) (hc : h.current_tau = 0) (hS : Shape h (nlen lt w) 0 (nlen lt w)) :
    ∃ (xs : Nat → Loop K G ls lt) (h1 : Hubbard K G ls lt),
      xs 0 = (({ h with current_tau := h.current_tau + 1 } : Hubbard K G ls lt), 1, 1)
      ∧ (∀ k, k < lt → sweep_0_to_beta_body E w (k + 1) (xs k) = some (xs (k + 1)))
      ∧ (∀ k, k ≤ lt → Within (xs k).1 (nlen lt w))
      ∧ sweep_0_to_beta E h w = some h1 ∧ Within h1 (nlen lt w)
      ∧ h1.current_tau = (lt : Int) + 1 ∧ Shape h1 (nlen lt w) (nlen lt w) 0 := by
  have hd1 : fwdDone lt w 1 = 0 := by
    unfold fwdDone; rw [if_neg (by omega)]; simp
  obtain ⟨xs, x0, _, hxs, hI⟩ := forUp_states (sweep_0_to_beta_body E w)
    (fun l x => FwdInv w l x) lt 1
    (fun l x hl1 hl hI => by
      obtain ⟨x', e, hI', _⟩ := sweep_0_to_beta_body_spec E w l x hl1 (by omega) hI
      exact ⟨x', e, hI'⟩)
    (({ h with current_tau := h.current_tau + 1 } : Hubbard K G ls lt), 1, 1)
    ⟨by show h.current_tau + 1 = ((1 : Nat) : Int); rw [hc]; rfl, by rw [hd1]; exact hS⟩
  obtain ⟨h1, e1, c1, S1, _⟩ := sweep_0_to_beta_spec E h w hlt hc hS
  refine ⟨xs, h1, x0, fun k hk => ?_, fun k hk => within_fwd w (1 + k) _ hlt (hI k hk), e1,
    within_of_shape S1 le_rfl (Nat.zero_le _), c1, S1⟩
  have := hxs k hk
  rw [show 1 + k = k + 1 by omega] at this
  exact this

/-- The loop states of `sweep_0_to_beta_displaced`. -/
theorem displaced_states (E : Ext K G ls lt) (h : Hubbard K G ls lt) (w : Nat)
    (hlt : 1 ≤ lt) (hc : h.current_tau = 0) (hS : Shape h (nlen lt w) 0 (nlen lt w)) :
    ∃ (xs : Nat → Loop K G ls lt) (h1 : Hubbard K G ls lt),
      xs 0 = (({ h with
          current_tau := h.current_tau + 1,
          green_t0_up := h.green_tt_up,
          green_t0_dn := h.green_tt_dn,
          green_0t_up := h.green_tt_up - 1,
          green_0t_dn := h.green_tt_dn - 1 } : Hubbard K G ls lt), 1, 1)
      ∧ (∀ k, k < lt → sweep_0_to_beta_displaced_body E w (k + 1) (xs k) = some (xs (k + 1)))
      ∧ (∀ k, k ≤ lt → Within (xs k).1 (nlen lt w))
      ∧ sweep_0_to_beta_displaced E h w = some h1 ∧ Within h1 (nlen lt w)
      ∧ h1.current_tau = (lt : Int) + 1 ∧ Shape h1 (nlen lt w) (nlen lt w) 0 := by
  have hd1 : fwdDone lt w 1 = 0 := by
    unfold fwdDone; rw [if_neg (by omega)]; simp
  obtain ⟨xs, x0, _, hxs, hI⟩ := forUp_states (sweep_0_to_beta_displaced_body E w)
    (fun l x => FwdInv w l x) lt 1
    (fun l x hl1 hl hI => by
      obtain ⟨x', e, hI', _⟩ := sweep_0_to_beta_displaced_body_spec E w l x hl1 (by omega) hI
      exact ⟨x', e, hI'⟩)
    (({ h with
        current_tau := h.current_tau + 1,
        green_t0_up := h.green_tt_up,
        green_t0_dn := h.green_tt_dn,
        green_0t_up := h.green_tt_up - 1,
        green_0t_dn := h.green_tt_dn - 1 } : Hubbard K G ls lt), 1, 1)
    ⟨by show h.current_tau + 1 = ((1 : Nat) : Int); rw [hc]; rfl, by rw [hd1]; exact hS⟩
  obtain ⟨h1, e1, c1, S1, _⟩ := sweep_0_to_beta_displaced_spec E h w hlt hc hS
  refine ⟨xs, h1, x0, fun k hk => ?_, fun k hk => within_fwd w (1 + k) _ hlt (hI k hk), e1,
    within_of_shape S1 le_rfl (Nat.zero_le _), c1, S1⟩
  have := hxs k hk
  rw [show 1 + k = k + 1 by omega] at this
  exact this

/-- The loop states of `sweep_beta_to_0`. -/
theorem backward_states (E : Ext K G ls lt) (h : Hubbard K G ls lt) (w : Nat)
    (hlt : 1 ≤ lt) (hc : h.current_tau = (lt : Int) + 1)
    (hS : Shape h (nlen lt w) (nlen lt w) 0) :
    ∃ (ys : Nat → Loop K G ls lt) (h2 : Hubbard K G ls lt),
      ys lt = (({ h with current_tau := h.current_tau - 1 } : Hubbard K G ls lt), 1, 1)
      ∧ (∀ l, l < lt → sweep_beta_to_0_body E w (l + 1) (ys (l + 1)) = some (ys l))
      ∧ (∀ l, l ≤ lt → Within (ys l).1 (nlen lt w))
      ∧ sweep_beta_to_0 E h w = some h2 ∧ Within h2 (nlen lt w)
      ∧ h2.current_tau = 0 ∧ Shape h2 (nlen lt w) 0 (nlen lt w) := by
  have hd1 : bwdDone lt w lt = 0 := by
    unfold bwdDone
    exact Nat.sub_eq_zero_of_le (Nat.div_le_div_right (by omega))
  obtain ⟨ys, yn, _, hys, hI⟩ := forDown_states (sweep_beta_to_0_body E w)
    (fun l x => BwdInv w l x) lt
    (fun l x hl hI => by
      obtain ⟨x', e, hI', _⟩ := sweep_beta_to_0_body_spec E w (l + 1) x (by omega) (by omega) hI
      exact ⟨x', e, hI'⟩)
    (({ h with current_tau := h.current_tau - 1 } : Hubbard K G ls lt), 1, 1)
    ⟨by show h.current_tau - 1 = (lt : Int); rw [hc]; ring, by rw [hd1]; exact hS⟩
  obtain ⟨h2, e2, c2, S2, _⟩ := sweep_beta_to_0_spec E h w hlt hc hS
  exact ⟨ys, h2, yn, hys, fun l hl => within_bwd w l _ hlt (hI l hl), e2,
    within_of_shape S2 (Nat.zero_le _) le_rfl, c2, S2⟩

theorem sweep_pair_spec (E : Ext K G ls lt) (w : Nat) (displaced : Bool)
    (h : Hubbard K G ls lt) (hlt : 1 ≤ lt) (hc : h.current_tau = 0)
    (hS : Shape h (nlen lt w) 0 (nlen lt w)) :
    ∃ h', sweep_pair E w displaced h = some h' ∧ h'.current_tau = 0
      ∧ Shape h' (nlen lt w) 0 (nlen lt w) := by
  unfold sweep_pair
  cases displaced with
  | false =>
    obtain ⟨h1, e1, c1, S1, _⟩ := sweep_0_to_beta_spec E h w hlt hc hS
    obtain ⟨h2, e2, c2, S2, _⟩ := sweep_beta_to_0_spec E h1 w hlt c1 S1
    simp only [Bool.false_eq_true, if_false, e1]
    exact ⟨h2, e2, c2, S2⟩
  | true =>
    obtain ⟨h1, e1, c1, S1, _⟩ := sweep_0_to_beta_displaced_spec E h w hlt hc hS
    obtain ⟨h2, e2, c2, S2, _⟩ := sweep_beta_to_0_spec E h1 w hlt c1 S1
    simp only [if_true, e1]
    exact ⟨h2, e2, c2, S2⟩

theorem sweep_pairs_spec (E : Ext K G ls lt) (w : Nat) (hlt : 1 ≤ lt) :
    ∀ (pairs : List Bool) (h : Hubbard K G ls lt), h.current_tau = 0 →
      Shape h (nlen lt w) 0 (nlen lt w) →
      ∃ h', sweep_pairs E w pairs h = some h' ∧ h'.current_tau = 0
        ∧ Shape h' (nlen lt w) 0 (nlen lt w) := by
  intro pairs
  induction pairs with
  | nil => intro h hc hS; exact ⟨h, rfl, hc, hS⟩
  | cons b rest ih =>
    intro h hc hS
    obtain ⟨h1, e1, c1, S1⟩ := sweep_pair_spec E w b h hlt hc hS
    obtain ⟨h2, e2, c2, S2⟩ := ih h1 c1 S1
    refine ⟨h2, ?_, c2, S2⟩
    simp only [sweep_pairs, e1]
    exact e2


theorem push_at_capacity {n : Nat} (svd : Mat K n → SVD K n) (st : SvdStack K n) (m : Mat K n)
    (hfull : st.len = st.stack.length) : st.push svd m = none := by
  unfold SvdStack.push
  rw [if_neg (by omega)]

theorem pop_len {n : Nat} (st st' : SvdStack K n) (e : st.pop = some st') :
    0 < st.len ∧ st'.len + 1 = st.len := by
  unfold SvdStack.pop at e
  split at e
  · injection e with e
    subst e
    refine ⟨by assumption, ?_⟩
    show st.len - 1 + 1 = st.len
    omega
  · exact absurd e (by simp)

end Hubbard

open Hubbard in
/-- C21. The depth of the stacks stays within bounds, for `lt ≥ 1` and
`nwrap ≥ 1`, with `nlen = ⌈lt / nwrap⌉ ≤ lt`. The constructor returns a state
with `current_tau = 0`, empty left stacks and right stacks of depth `nlen`, and
any sequence of pairs of sweeps (forward, displaced or not, then backward) run
from it returns such a state again. From every such state `sweep_0_to_beta` and
`sweep_0_to_beta_displaced` return, and from the state they return
`sweep_beta_to_0` returns; `xs k` being the loop state of a forward sweep after
`k` slices and `ys l` that of the backward sweep before slice `l`, in each of
these states and in the states returned every stack holds at most `nlen`
decompositions and no more than its storage has room for. A sweep returns only
when every `push` and `pop` it makes passes its assertions: a `push` that
returns was made below capacity and adds one to the depth, a `pop` that returns
was made on a non-empty stack, and a `push` on a stack whose depth equals its
capacity fails, so that no stack of another depth comes out of it. -/
theorem stack_depth_within_bounds {K G : Type} [LinearOrderedField K] {ls lt : Nat}
    (E : Ext K G ls lt) (beta Uint : K) (nwrap : Nat) (gen : G) (pairs : List Bool)
    (hlt : 1 ≤ lt) (hw : 1 ≤ nwrap) :
    (nlen lt nwrap = (lt + nwrap - 1) / nwrap ∧ nlen lt nwrap ≤ lt)
    ∧ (∃ h0 h', create E beta Uint nwrap gen = some h0
        ∧ h0.current_tau = 0 ∧ Shape h0 (nlen lt nwrap) 0 (nlen lt nwrap)
        ∧ sweep_pairs E nwrap pairs h0 = some h'
        ∧ h'.current_tau = 0 ∧ Shape h' (nlen lt nwrap) 0 (nlen lt nwrap)
        ∧ Within h' (nlen lt nwrap))
    ∧ (∀ h : Hubbard K G ls lt, h.current_tau = 0 → Shape h (nlen lt nwrap) 0 (nlen lt nwrap) →
        ∃ (xs : Nat → Loop K G ls lt) (h1 : Hubbard K G ls lt),
          xs 0 = (({ h with current_tau := h.current_tau + 1 } : Hubbard K G ls lt), 1, 1)
          ∧ (∀ k, k < lt → sweep_0_to_beta_body E nwrap (k + 1) (xs k) = some (xs (k + 1)))
          ∧ (∀ k, k ≤ lt → Within (xs k).1 (nlen lt nwrap))
          ∧ sweep_0_to_beta E h nwrap = some h1 ∧ Within h1 (nlen lt nwrap)
          ∧ h1.current_tau = (lt : Int) + 1 ∧ Shape h1 (nlen lt nwrap) (nlen lt nwrap) 0)
    ∧ (∀ h : Hubbard K G ls lt, h.current_tau = 0 → Shape h (nlen lt nwrap) 0 (nlen lt nwrap) →
        ∃ (xs : Nat → Loop K G ls lt) (h1 : Hubbard K G ls lt),
          xs 0 = (({ h with
              current_tau := h.current_tau + 1,
              green_t0_up := h.green_tt_up,
              green_t0_dn := h.green_tt_dn,
              green_0t_up := h.green_tt_up - 1,
              green_0t_dn := h.green_tt_dn - 1 } : Hubbard K G ls lt), 1, 1)
          ∧ (∀ k, k < lt →
              sweep_0_to_beta_displaced_body E nwrap (k + 1) (xs k) = some (xs (k + 1)))
          ∧ (∀ k, k ≤ lt → Within (xs k).1 (nlen lt nwrap))
          ∧ sweep_0_to_beta_displaced E h nwrap = some h1 ∧ Within h1 (nlen lt nwrap)
          ∧ h1.current_tau = (lt : Int) + 1 ∧ Shape h1 (nlen lt nwrap) (nlen lt nwrap) 0)
    ∧ (∀ h : Hubbard K G ls lt, h.current_tau = (lt : Int) + 1 →
        Shape h (nlen lt nwrap) (nlen lt nwrap) 0 →
        ∃ (ys : Nat → Loop K G ls lt) (h2 : Hubbard K G ls lt),
          ys lt = (({ h with current_tau := h.current_tau - 1 } : Hubbard K G ls lt), 1, 1)
          ∧ (∀ l, l < lt → sweep_beta_to_0_body E nwrap (l + 1) (ys (l + 1)) = some (ys l))
          ∧ (∀ l, l ≤ lt → Within (ys l).1 (nlen lt nwrap))
          ∧ sweep_beta_to_0 E h nwrap = some h2 ∧ Within h2 (nlen lt nwrap)
          ∧ h2.current_tau = 0 ∧ Shape h2 (nlen lt nwrap) 0 (nlen lt nwrap))
    ∧ (∀ (st : SvdStack K ls) (m : Mat K ls), st.len = st.stack.length →
        st.push E.svd m = none)
    ∧ (∀ (st st' : SvdStack K ls) (m : Mat K ls), st.push E.svd m = some st' →
        st.len < st.stack.length ∧ st'.len = st.len + 1)
    ∧ (∀ st st' : SvdStack K ls, st.pop = some st' → 0 < st.len ∧ st'.len + 1 = st.len) := by
  obtain ⟨_, _, h0, _, _, _, e0, _, c0, S0, _⟩ := create_spec E beta Uint nwrap gen hlt
  obtain ⟨h', e', c', S'⟩ := sweep_pairs_spec E nwrap hlt pairs h0 c0 S0
  refine ⟨⟨nlen_eq_ceil lt nwrap hw, nlen_le lt nwrap hlt⟩,
    ⟨h0, h', e0, c0, S0, e', c', S', within_of_shape S' (Nat.zero_le _) le_rfl⟩,
    fun h hc hS => forward_states E h nwrap hlt hc hS,
    fun h hc hS => displaced_states E h nwrap hlt hc hS,
    fun h hc hS => backward_states E h nwrap hlt hc hS,
    fun st m hfull => push_at_capacity E.svd st m hfull,
    fun st st' m e => ?_, fun st st' e => pop_len st st' e⟩
  obtain ⟨a, b, _⟩ := SvdStack.push_len E.svd st st' m e
  exact ⟨a, b⟩

open Hubbard in
/-- The hypotheses of C21 hold on the one-site instance with `lt = 2` and
`nwrap = 1`; an ordinary pair of sweeps followed by a pair with the displaced
forward sweep returns with at most two decompositions in every stack. -/
theorem stack_depth_within_bounds_witness :
    (1 ≤ 2 ∧ 1 ≤ 1)
    ∧ ∃ h0 h', create (Toy.ext Toy.fromTape) 1 4 1 [true, false] = some h0
      ∧ sweep_pairs (Toy.ext Toy.fromTape) 1 [false, true] h0 = some h'
      ∧ Within h' 2 := by
  refine ⟨⟨by decide, by decide⟩, ?_⟩
  obtain ⟨_, ⟨h0, h', e0, _, _, e', _, _, W⟩, _⟩ :=
    stack_depth_within_bounds (Toy.ext Toy.fromTape) 1 4 1 [true, false] [false, true]
      (by decide) (by decide)
  exact ⟨h0, h', e0, e', W⟩

end DQMC
